import Mathlib

/-!
# FFmodel tensor plane: a shallow embedding of the three tensor filters

Sources embedded here:

* `libavutil/tensor_abi.h`      : `TensorHeader`, `TENSOR_MAGIC`, `av_tensor_payload`
* `libavfilter/vf_tensor_matmul.c` : `execute_matmul`, `activate`
* `libavfilter/vf_tensor_update.c` : `process_update`, `activate`
* `libavfilter/vf_tensor_relu.c`   : `filter_frame`

Conventions of the embedding.

* `uint32_t` / `uint64_t` values are natural numbers; every 64-bit operation
  that can overflow is followed by an explicit `% 2 ^ 64` (`wrap64`).
* A `float` or `double` value is a finite rational, an infinity or a NaN
  (`Fp`).  Every C operation is evaluated in the type of its operands
  (`FLT_EVAL_METHOD == 0`, no contraction into fused operations) and delivers
  the real result rounded to nearest, ties to even, in IEEE 754 binary32
  (`to_float`) or binary64 (`to_double`), with overflow to infinity and gradual
  underflow; `sqrt` is correctly rounded.  The two zeros are one value, and so
  are all NaNs.  Where the specification speaks of exact arithmetic the MatMul
  kernel is read with `Arith.exact`, which delivers every real result
  unrounded; the nodes run it with `Arith.ieee`.
* A frame's `data[0]` is a header followed by a list of elements.  An access
  outside that list is undefined behaviour in C; here the function returns
  `none`.  `none` therefore reads "no defined result".
* Freshly allocated memory has indeterminate contents; these are supplied by
  the `Allocator` (`junk_hdr`, `junk`).
-/

namespace FFmodel

/-! ## Machine arithmetic -/

/-- Reduction of a natural number to the range of `uint64_t`. -/
def wrap64 (x : Nat) : Nat := x % 2 ^ 64

/-- The C `for (uint64_t i = 0; i < n; i++) body` loop over a state `σ`;
iterations run in the order `0, 1, …, n-1` and the loop has no defined result
as soon as one iteration has none. -/
def forLoop {σ : Type} (body : Nat → σ → Option σ) : Nat → σ → Option σ
  | 0, s => some s
  | k + 1, s => (forLoop body k s).bind (body k)

/-! ## Floating-point arithmetic -/

/-- A value of the C types `float` and `double`: a finite number, an infinity
or a NaN.  A finite value is the rational number it denotes, so the two zeros
are one value, and all NaNs are one value.  A `float` converted to `double`
keeps its value; that conversion is the identity here. -/
inductive Fp where
  | fin (q : ℚ)
  | inf (neg : Bool)
  | nan
deriving DecidableEq

/-- The number of binary digits of `n`, found with at most `fuel` halvings. -/
def bit_length : Nat → Nat → Nat
  | 0, _ => 0
  | fuel + 1, n => if n = 0 then 0 else bit_length fuel (n / 2) + 1

/-- The binary exponent of a rational `q ≠ 0`: the integer `e` with
`2^e ≤ |q| < 2^(e+1)`. -/
def ilog2 (q : ℚ) : ℤ :=
  let d : ℤ := (bit_length q.num.natAbs q.num.natAbs : ℤ) - (bit_length q.den q.den : ℤ)
  if (2 : ℚ) ^ d ≤ |q| then d else d - 1

/-- The integer nearest to `t`; the even one of the two when `t` lies half-way
between two integers. -/
def round_half_even (t : ℚ) : ℤ :=
  let f : ℤ := ⌊t⌋
  if t - f < 1 / 2 then f else if 1 / 2 < t - f then f + 1
  else if f % 2 = 0 then f else f + 1

/-- Rounding of a real result to nearest, ties to even, in the binary format
with `prec` digits of precision whose smallest positive value is `2^emin` and
whose finite values are below `2^emax` in magnitude.  With `2^e` the unit in
the last place at `q`, the result is the multiple of `2^e` nearest to `q`; a
result of magnitude `2^emax` or more is the infinity of that sign. -/
def round_ne (prec : ℕ) (emin emax : ℤ) (q : ℚ) : Fp :=
  if q = 0 then Fp.fin 0 else
    let e : ℤ := max (ilog2 q - ((prec : ℤ) - 1)) emin
    let v : ℚ := round_half_even (|q| / 2 ^ e) * 2 ^ e
    if 2 ^ emax ≤ v then Fp.inf (decide (q < 0)) else Fp.fin (if q < 0 then -v else v)

/-- Rounding to `float` (IEEE 754 binary32). -/
def to_float : ℚ → Fp := round_ne 24 (-149) 128

/-- Rounding to `double` (IEEE 754 binary64). -/
def to_double : ℚ → Fp := round_ne 53 (-1074) 1024

/-- The sum `x + y`, the real result delivered through `r`. -/
def Fp.add (r : ℚ → Fp) : Fp → Fp → Fp
  | Fp.fin a, Fp.fin b => r (a + b)
  | Fp.fin _, Fp.inf s => Fp.inf s
  | Fp.inf s, Fp.fin _ => Fp.inf s
  | Fp.inf s, Fp.inf t => if s = t then Fp.inf s else Fp.nan
  | _, _ => Fp.nan

/-- The negation `-x`. -/
def Fp.neg : Fp → Fp
  | Fp.fin a => Fp.fin (-a)
  | Fp.inf s => Fp.inf (!s)
  | Fp.nan => Fp.nan

/-- The difference `x - y`, the real result delivered through `r`. -/
def Fp.sub (r : ℚ → Fp) (x y : Fp) : Fp := Fp.add r x (Fp.neg y)

/-- The product `x * y`, the real result delivered through `r`; an infinity
times zero is a NaN. -/
def Fp.mul (r : ℚ → Fp) : Fp → Fp → Fp
  | Fp.fin a, Fp.fin b => r (a * b)
  | Fp.fin a, Fp.inf s => if a = 0 then Fp.nan else Fp.inf (xor (decide (a < 0)) s)
  | Fp.inf s, Fp.fin b => if b = 0 then Fp.nan else Fp.inf (xor s (decide (b < 0)))
  | Fp.inf s, Fp.inf t => Fp.inf (xor s t)
  | _, _ => Fp.nan

/-- The conversion of a value to a narrower type, the value delivered through
`r`: `(float)x` for a `double` `x`. -/
def Fp.cast (r : ℚ → Fp) : Fp → Fp
  | Fp.fin a => r a
  | x => x

/-- The comparison `x < y`; it is false as soon as one side is a NaN. -/
def Fp.lt : Fp → Fp → Bool
  | Fp.fin a, Fp.fin b => decide (a < b)
  | Fp.fin _, Fp.inf s => !s
  | Fp.inf s, Fp.fin _ => s
  | Fp.inf s, Fp.inf t => s && !t
  | _, _ => false

/-- The largest `r` with `r * r ≤ n`, found digit by digit from bit `b - 1`
down, starting from `r`. -/
def isqrt_aux (n : Nat) : Nat → Nat → Nat
  | 0, r => r
  | b + 1, r => isqrt_aux n b (if (r + 2 ^ b) * (r + 2 ^ b) ≤ n then r + 2 ^ b else r)

/-- The integer square root of `n`. -/
def isqrt (n : Nat) : Nat := isqrt_aux n (bit_length n n) 0

/-- The square root of a rational `q > 0` rounded to nearest, ties to even, to
`prec` digits: with `2^u` the unit in the last place of the result, the
multiple of `2^u` nearest to `√q`. -/
def sqrt_ne (prec : ℕ) (q : ℚ) : Fp :=
  let u : ℤ := ilog2 q / 2 - ((prec : ℤ) - 1)
  let x : ℚ := q / 4 ^ u
  let f : ℕ := isqrt ⌊x⌋₊
  let m : ℕ := if 4 * x < (2 * (f : ℚ) + 1) ^ 2 then f
               else if (2 * (f : ℚ) + 1) ^ 2 < 4 * x then f + 1
               else if f % 2 = 0 then f else f + 1
  Fp.fin (m * 2 ^ u)

/-- The function `sqrt` of `<math.h>` on a `double`. -/
def Fp.sqrt : Fp → Fp
  | Fp.fin a => if a < 0 then Fp.nan else if a = 0 then Fp.fin 0 else sqrt_ne 53 a
  | Fp.inf s => if s then Fp.nan else Fp.inf false
  | Fp.nan => Fp.nan

/-- How the results of floating-point operations are delivered: as a `float`
(`flt`) and as a `double` (`dbl`). -/
structure Arith where
  flt : ℚ → Fp
  dbl : ℚ → Fp

/-- The arithmetic of the compiled code: IEEE 754 binary32 and binary64. -/
def Arith.ieee : Arith := { flt := to_float, dbl := to_double }

/-- Exact arithmetic: every real result is delivered as it is. -/
def Arith.exact : Arith := { flt := Fp.fin, dbl := Fp.fin }

/-! ## libavutil/tensor_abi.h -/

/-- The sentinel `0x544E5352u` ("TNSR"). -/
def TENSOR_MAGIC : Nat := 0x544E5352

/-- The 128-byte tensor envelope. -/
structure TensorHeader where
  magic : Nat
  dtype : Nat
  n_dims : Nat
  flags : Nat
  n_elem : Nat
  byte_size : Nat
  generation_id : Nat
  shape : Fin 8 → Nat
  padding : Fin 24 → Nat
deriving DecidableEq

/-- The value of `sizeof(TensorHeader)`, the sum of the field sizes, which the
`_Static_assert` of the header pins to 128. -/
def sizeof_TensorHeader : Nat := 4 + 4 + 4 + 4 + 8 + 8 + 8 + 8 * 8 + 24

/-- The value of `sizeof(float)`. -/
def sizeof_float : Nat := 4

/-- The pointer `data + sizeof(TensorHeader)` as a byte offset from `data`. -/
def av_tensor_payload (data : Nat) : Nat := data + sizeof_TensorHeader

/-- The product of `shape[0..n_dims)`. -/
def shape_product (h : TensorHeader) : Nat :=
  (((List.finRange 8).filter (fun i => i.val < h.n_dims)).map h.shape).prod

/-- Modelled from the spec: `validate(header)`, which no source file defines;
it checks magic, rank bound and elem/byte consistency. -/
def envelope_valid (h : TensorHeader) : Bool :=
  decide (h.magic = TENSOR_MAGIC ∧ h.n_dims ≤ 8 ∧ h.n_elem = shape_product h ∧
    h.byte_size = sizeof_float * h.n_elem)

/-! ## The substrate: frames, links, allocation, error codes -/

/-- The POSIX error number `EINVAL`. -/
def EINVAL : Int := 22

/-- The POSIX error number `ENOMEM`. -/
def ENOMEM : Int := 12

/-- The libavutil error encoding `AVERROR(e) = -e`. -/
def AVERROR (e : Int) : Int := -e

/-- A substrate frame carrying one tensor in `data[0]`: the header, the
elements that follow it in the buffer (the whole buffer, whatever the header
declares), the timestamp and whether the buffer is uniquely owned. -/
structure AVFrame where
  hdr : TensorHeader
  payload : List Fp
  pts : Int
  writable : Bool
deriving DecidableEq

/-- One link of the filter graph, seen from the filter at either end: the
queued frames (oldest first), the status set by the producing side with its
timestamp, the status seen by the consuming side, the fault that the next
consume reports (negative when there is one) and the demand flag. -/
structure AVFilterLink where
  fifo : List AVFrame
  status_in : Int
  status_in_pts : Int
  status_out : Int
  fault : Int
  frame_wanted_out : Bool
deriving DecidableEq

/-- An idle link with the given queued frames. -/
def AVFilterLink.idle (fs : List AVFrame) : AVFilterLink :=
  { fifo := fs, status_in := 0, status_in_pts := 0, status_out := 0, fault := 0,
    frame_wanted_out := false }

/-- The outcome of the allocation primitives during one activation:
whether `av_frame_alloc` and `av_buffer_alloc` succeed, and the indeterminate
contents of the fresh buffer. -/
structure Allocator where
  frame_ok : Bool
  buffer_ok : Bool
  junk_hdr : TensorHeader
  junk : Nat → Fp

/-- A two-input filter instance: private context, two input links and one
output link. -/
structure AVFilterContext (P : Type) where
  priv : P
  in0 : AVFilterLink
  in1 : AVFilterLink
  out0 : AVFilterLink
deriving DecidableEq

/-- Modelled from the spec: the substrate primitive `inlink.consume()`
(libavfilter `ff_inlink_consume_frame`), non-blocking; it yields the return
value, the frame stored through the out-parameter and the link afterwards.
A fault is returned as is; no queued frame gives 0 and a null frame; otherwise
the oldest frame is taken and 1 is returned. -/
def ff_inlink_consume_frame (l : AVFilterLink) : Int × Option AVFrame × AVFilterLink :=
  if l.fault < 0 then (l.fault, none, l)
  else
    match l.fifo with
    | [] => (0, none, l)
    | f :: fs => (1, some f, { l with fifo := fs })

/-- Modelled from the spec: the substrate primitive
`inlink.acknowledge_status()` (libavfilter `ff_inlink_acknowledge_status`):
when the link holds no queued frame and carries a terminal status that was not
acknowledged before, the status is acknowledged and returned with its
timestamp. -/
def ff_inlink_acknowledge_status (l : AVFilterLink) : Option (Int × Int) × AVFilterLink :=
  if l.status_out ≠ 0 then (none, l)
  else if l.fifo ≠ [] then (none, l)
  else if l.status_in = 0 then (none, l)
  else (some (l.status_in, l.status_in_pts), { l with status_out := l.status_in })

/-- Modelled from the spec: the substrate primitive `inlink.request_frame()`
(libavfilter `ff_inlink_request_frame`), which records the demand. -/
def ff_inlink_request_frame (l : AVFilterLink) : AVFilterLink :=
  { l with frame_wanted_out := true }

/-- Modelled from the spec: the substrate primitive `outlink.frame_wanted()`
(libavfilter `ff_outlink_frame_wanted`). -/
def ff_outlink_frame_wanted (l : AVFilterLink) : Bool := l.frame_wanted_out

/-- Modelled from the spec: the substrate primitive
`outlink.set_status(status, pts)` (libavfilter `ff_outlink_set_status`); a
status that is already set stays. -/
def ff_outlink_set_status (l : AVFilterLink) (status pts : Int) : AVFilterLink :=
  if l.status_in ≠ 0 then l else { l with status_in := status, status_in_pts := pts }

/-- Modelled from the spec: publishing a frame downstream (libavfilter
`ff_filter_frame`): the frame joins the link's queue and 0 is returned. -/
def ff_filter_frame (l : AVFilterLink) (f : AVFrame) : Int × AVFilterLink :=
  (0, { l with fifo := l.fifo ++ [f] })

/-- Modelled from the spec: `forward_status_back_all(outlink)` (libavfilter
`FF_FILTER_FORWARD_STATUS_BACK_ALL`): a status carried by the output link is
propagated back to both inputs before any work is done. -/
def FF_FILTER_FORWARD_STATUS_BACK_ALL {P : Type} (ctx : AVFilterContext P) :
    AVFilterContext P :=
  if ctx.out0.status_in ≠ 0 then
    { ctx with in0 := { ctx.in0 with status_out := ctx.out0.status_in },
               in1 := { ctx.in1 with status_out := ctx.out0.status_in } }
  else ctx

/-- The frame view of a fresh buffer of `size` bytes obtained from
`av_buffer_alloc`: the header occupies the first `sizeof(TensorHeader)` bytes
(an access to it is undefined when the buffer is smaller), the remaining bytes
hold `(size - sizeof(TensorHeader)) / sizeof(float)` elements; all contents
are indeterminate. -/
def fresh_frame (al : Allocator) (size : Nat) (pts : Int) : Option AVFrame :=
  if size < sizeof_TensorHeader then none
  else some { hdr := al.junk_hdr,
              payload := (List.range ((size - sizeof_TensorHeader) / sizeof_float)).map al.junk,
              pts := pts, writable := true }

/-- Modelled from the spec: `frame.make_writable(frame)` (libavutil
`av_frame_make_writable`): a uniquely owned frame is kept; a shared one is
replaced by a private copy, which needs an allocation. -/
def av_frame_make_writable (al : Allocator) (f : AVFrame) : Int × AVFrame :=
  if f.writable then (0, f)
  else if al.frame_ok && al.buffer_ok then (0, { f with writable := true })
  else (AVERROR ENOMEM, f)

/-- The statement `if (!s->pending_x) ret = ff_inlink_consume_frame(link,
&s->pending_x)` of both join nodes: a full slot is left alone (the value of
`ret` is then not looked at; 0 stands for it), an empty slot receives whatever
the consume stores. -/
def consume_slot (slot : Option AVFrame) (l : AVFilterLink) :
    Int × Option AVFrame × AVFilterLink :=
  match slot with
  | none => ff_inlink_consume_frame l
  | some f => (0, some f, l)

/-- The C library `memcpy(dst, src, bytes)` between two element buffers.  The
copy is undefined when either buffer is shorter than `bytes`; a copy that ends
inside an element is outside this model of elements and has no result here. -/
def memcpy_elems (dst src : List Fp) (bytes : Nat) : Option (List Fp) :=
  if bytes ≤ sizeof_float * src.length ∧ bytes ≤ sizeof_float * dst.length
      ∧ bytes % sizeof_float = 0 then
    some (src.take (bytes / sizeof_float) ++ dst.drop (bytes / sizeof_float))
  else none

/-! ## libavfilter/vf_tensor_matmul.c -/

namespace vf_tensor_matmul

/-- The private context of the MatMul node: the two pending slots. -/
structure TensorMatMulContext where
  pending_a : Option AVFrame
  pending_b : Option AVFrame
deriving DecidableEq

/-- The innermost loop of `execute_matmul`:
`double sum = 0.0; for (k = 0; k < n; k++) sum += (double)A[i*n + k] * (double)B[k*p + j]`;
product and sum are `double` operations. -/
def dot_loop (ar : Arith) (A B : List Fp) (i j n p : Nat) : Option Fp :=
  forLoop (fun k sum =>
    match A[wrap64 (i * n + k)]?, B[wrap64 (k * p + j)]? with
    | some x, some y => some (Fp.add ar.dbl sum (Fp.mul ar.dbl x y))
    | _, _ => none) n (Fp.fin 0)

/-- The store `C[idx] = v`. -/
def store (C : List Fp) (idx : Nat) (v : Fp) : Option (List Fp) :=
  if idx < C.length then some (C.set idx v) else none

/-- The middle loop of `execute_matmul` for one row `i`:
`for (j = 0; j < p; j++) { sum = …; C[i*p + j] = (float)sum; }`. -/
def row_loop (ar : Arith) (A B : List Fp) (i n p : Nat) (C : List Fp) : Option (List Fp) :=
  forLoop (fun j C =>
    match dot_loop ar A B i j n p with
    | some sum => store C (wrap64 (i * p + j)) (Fp.cast ar.flt sum)
    | none => none) p C

/-- The outer loop of `execute_matmul`: `for (i = 0; i < m; i++) …`. -/
def gemm_loops (ar : Arith) (A B : List Fp) (m n p : Nat) (C : List Fp) : Option (List Fp) :=
  forLoop (fun i C => row_loop ar A B i n p C) m C

/-- The kernel `execute_matmul(ctx, out, a, b, m, n, p)`: the triple loop over
the payloads followed by the header stores, in the arithmetic `ar`
(`Arith.ieee` for the compiled code).  The C function returns 0; the result
here is the output frame after the call. -/
def execute_matmul (ar : Arith) (out a b : AVFrame) (m n p : Nat) : Option AVFrame :=
  match gemm_loops ar a.payload b.payload m n p out.payload with
  | none => none
  | some C =>
    let n_elem := wrap64 (m * p)
    some { out with
      payload := C
      hdr := { out.hdr with
        magic := TENSOR_MAGIC
        n_dims := 2
        n_elem := n_elem
        shape := Function.update (Function.update out.hdr.shape 0 m) 1 p
        byte_size := wrap64 (n_elem * sizeof_float) } }

/-- The body of `if (s->pending_a && s->pending_b) { … }` in `activate`, with
`fa` and `fb` the frames the two slots hold. -/
def fire (al : Allocator) (ctx : AVFilterContext TensorMatMulContext) (fa fb : AVFrame) :
    Option (Int × AVFilterContext TensorMatMulContext) :=
  let ha := fa.hdr
  let hb := fb.hdr
  if ha.magic ≠ TENSOR_MAGIC ∨ hb.magic ≠ TENSOR_MAGIC then some (AVERROR EINVAL, ctx) else
  if ha.n_dims ≠ 2 ∨ hb.n_dims ≠ 2 then some (AVERROR EINVAL, ctx) else
  let m := ha.shape 0
  let n := ha.shape 1
  let n_check := hb.shape 0
  let p := hb.shape 1
  if n ≠ n_check then some (AVERROR EINVAL, ctx) else
  if !al.frame_ok then some (AVERROR ENOMEM, ctx) else
  let pts := max fa.pts fb.pts
  let payload_size := wrap64 (wrap64 (m * p) * sizeof_float)
  if !al.buffer_ok then some (AVERROR ENOMEM, ctx) else
  match fresh_frame al (wrap64 (sizeof_TensorHeader + payload_size)) pts with
  | none => none
  | some out =>
    match execute_matmul Arith.ieee out fa fb m n p with
    | none => none
    | some out =>
      let r := ff_filter_frame ctx.out0 out
      some (r.1, { ctx with priv := { pending_a := none, pending_b := none }, out0 := r.2 })

/-- The tail of `activate`: `if (ff_outlink_frame_wanted(outlink)) { … } return 0`. -/
def demand (ctx : AVFilterContext TensorMatMulContext) :
    Option (Int × AVFilterContext TensorMatMulContext) :=
  if ff_outlink_frame_wanted ctx.out0 then
    let in0 := if ctx.priv.pending_a.isNone then ff_inlink_request_frame ctx.in0 else ctx.in0
    let in1 := if ctx.priv.pending_b.isNone then ff_inlink_request_frame ctx.in1 else ctx.in1
    some (0, { ctx with in0 := in0, in1 := in1 })
  else some (0, ctx)

/-- The `activate` callback of the MatMul node.  The result is the return
value together with the filter state afterwards. -/
def activate (al : Allocator) (ctx : AVFilterContext TensorMatMulContext) :
    Option (Int × AVFilterContext TensorMatMulContext) :=
  let ctx := FF_FILTER_FORWARD_STATUS_BACK_ALL ctx
  let ra := consume_slot ctx.priv.pending_a ctx.in0
  let ctx := { ctx with priv := { ctx.priv with pending_a := ra.2.1 }, in0 := ra.2.2 }
  if ra.1 < 0 then some (ra.1, ctx) else
  let rb := consume_slot ctx.priv.pending_b ctx.in1
  let ctx := { ctx with priv := { ctx.priv with pending_b := rb.2.1 }, in1 := rb.2.2 }
  if rb.1 < 0 then some (rb.1, ctx) else
  match ctx.priv.pending_a, ctx.priv.pending_b with
  | some fa, some fb => fire al ctx fa fb
  | _, _ => demand ctx

/-- The filter state at the pair test of `activate`: after the status
forwarding and the two consumes. -/
def at_pair_test (ctx : AVFilterContext TensorMatMulContext) :
    AVFilterContext TensorMatMulContext :=
  let ctx := FF_FILTER_FORWARD_STATUS_BACK_ALL ctx
  let ra := consume_slot ctx.priv.pending_a ctx.in0
  let rb := consume_slot ctx.priv.pending_b ctx.in1
  { ctx with priv := { pending_a := ra.2.1, pending_b := rb.2.1 }, in0 := ra.2.2, in1 := rb.2.2 }

end vf_tensor_matmul

/-! ## libavfilter/vf_tensor_update.c -/

namespace vf_tensor_update

/-- The enumerator `GATE_THRESHOLD`. -/
def GATE_THRESHOLD : Int := 1

/-- The private context of the Update node: options, counters and the two
pending slots. -/
structure TensorUpdateContext where
  learning_rate : Fp
  gate_mode : Int
  gate_val : Fp
  update_count : Nat
  skip_count : Nat
  pending_w : Option AVFrame
  pending_g : Option AVFrame
deriving DecidableEq

/-- The gate loop of `process_update`:
`double sum_sq = 0.0; for (i = 0; i < n; i++) sum_sq += (double)p_g[i] * (double)p_g[i]`;
product and sum are `double` operations. -/
def sum_sq_loop (G : List Fp) (n : Nat) : Option Fp :=
  forLoop (fun i sum_sq =>
    match G[i]? with
    | some x => some (Fp.add to_double sum_sq (Fp.mul to_double x x))
    | none => none) n (Fp.fin 0)

/-- The value of `apply_update` after the gate of `process_update`:
`apply_update = 1; if (s->gate_mode == GATE_THRESHOLD) { …;
if (sqrt(sum_sq) < (double)s->gate_val) apply_update = 0; }`. -/
def apply_update (s : TensorUpdateContext) (G : List Fp) (n : Nat) : Option Bool :=
  if s.gate_mode = GATE_THRESHOLD then
    match sum_sq_loop G n with
    | some sum_sq => some (!(Fp.lt (Fp.sqrt sum_sq) s.gate_val))
    | none => none
  else some true

/-- The update loop of `process_update`:
`for (i = 0; i < n; i++) p_out[i] = p_w[i] - (s->learning_rate * p_g[i])`;
product and difference are `float` operations. -/
def sgd_loop (lr : Fp) (W G : List Fp) (n : Nat) (O : List Fp) : Option (List Fp) :=
  forLoop (fun i O =>
    match W[i]?, G[i]? with
    | some x, some y =>
      if i < O.length then some (O.set i (Fp.sub to_float x (Fp.mul to_float lr y))) else none
    | _, _ => none) n O

/-- The kernel `process_update(ctx, out, w, g)`.  The C function returns 0; the
result here is the private context and the output frame after the call. -/
def process_update (s : TensorUpdateContext) (out w g : AVFrame) :
    Option (TensorUpdateContext × AVFrame) :=
  let hw := w.hdr
  let n := hw.n_elem
  match apply_update s g.payload n with
  | none => none
  | some apply_update =>
    if apply_update then
      match sgd_loop s.learning_rate w.payload g.payload n out.payload with
      | none => none
      | some O =>
        some ({ s with update_count := wrap64 (s.update_count + 1) },
              { out with payload := O,
                         hdr := { out.hdr with generation_id := wrap64 (hw.generation_id + 1) } })
    else
      match memcpy_elems out.payload w.payload hw.byte_size with
      | none => none
      | some O =>
        some ({ s with skip_count := wrap64 (s.skip_count + 1) },
              { out with payload := O,
                         hdr := { out.hdr with generation_id := hw.generation_id } })

/-- The body of `if (s->pending_w && s->pending_g) { … }` in `activate`, with
`fw` and `fg` the frames the two slots hold. -/
def fire (al : Allocator) (ctx : AVFilterContext TensorUpdateContext) (fw fg : AVFrame) :
    Option (Int × AVFilterContext TensorUpdateContext) :=
  let hw := fw.hdr
  if !al.frame_ok then some (AVERROR ENOMEM, ctx) else
  if !al.buffer_ok then some (AVERROR ENOMEM, ctx) else
  match fresh_frame al (wrap64 (sizeof_TensorHeader + hw.byte_size)) fw.pts with
  | none => none
  | some out =>
    let out := { out with hdr := fw.hdr }
    match process_update ctx.priv out fw fg with
    | none => none
    | some (s, out) =>
      let r := ff_filter_frame ctx.out0 out
      some (r.1, { ctx with priv := { s with pending_w := none, pending_g := none },
                            out0 := r.2 })

/-- The tail of `activate` ("3. Signal Logic").  The timestamp out-parameter of
each acknowledge call is `&s->pending_w` (resp. `&s->pending_g`): when the call
reports a status the slot holds a pointer whose value is the timestamp, null
when the timestamp is 0, and reading `->pts` through any other value has no
defined result. -/
def signal_logic (ctx : AVFilterContext TensorUpdateContext) :
    Option (Int × AVFilterContext TensorUpdateContext) :=
  match ff_inlink_acknowledge_status ctx.in0 with
  | (some (ret, pts), l) =>
    if pts = 0 then
      some (0, { ctx with priv := { ctx.priv with pending_w := none }, in0 := l,
                          out0 := ff_outlink_set_status ctx.out0 ret 0 })
    else none
  | (none, l) =>
    let ctx := { ctx with in0 := l }
    match ff_inlink_acknowledge_status ctx.in1 with
    | (some (ret, pts), l) =>
      if pts = 0 then
        some (0, { ctx with priv := { ctx.priv with pending_g := none }, in1 := l,
                            out0 := ff_outlink_set_status ctx.out0 ret 0 })
      else none
    | (none, l) =>
      let ctx := { ctx with in1 := l }
      if ff_outlink_frame_wanted ctx.out0 then
        let in0 := if ctx.priv.pending_w.isNone then ff_inlink_request_frame ctx.in0 else ctx.in0
        let in1 := if ctx.priv.pending_g.isNone then ff_inlink_request_frame ctx.in1 else ctx.in1
        some (0, { ctx with in0 := in0, in1 := in1 })
      else some (0, ctx)

/-- The `activate` callback of the Update node.  The result is the return
value together with the filter state afterwards. -/
def activate (al : Allocator) (ctx : AVFilterContext TensorUpdateContext) :
    Option (Int × AVFilterContext TensorUpdateContext) :=
  let ctx := FF_FILTER_FORWARD_STATUS_BACK_ALL ctx
  let rw := consume_slot ctx.priv.pending_w ctx.in0
  let ctx := { ctx with priv := { ctx.priv with pending_w := rw.2.1 }, in0 := rw.2.2 }
  if rw.1 < 0 then some (rw.1, ctx) else
  let rg := consume_slot ctx.priv.pending_g ctx.in1
  let ctx := { ctx with priv := { ctx.priv with pending_g := rg.2.1 }, in1 := rg.2.2 }
  if rg.1 < 0 then some (rg.1, ctx) else
  match ctx.priv.pending_w, ctx.priv.pending_g with
  | some fw, some fg => fire al ctx fw fg
  | _, _ => signal_logic ctx

/-- The filter state at the pair test of `activate`: after the status
forwarding and the two consumes. -/
def at_pair_test (ctx : AVFilterContext TensorUpdateContext) :
    AVFilterContext TensorUpdateContext :=
  let ctx := FF_FILTER_FORWARD_STATUS_BACK_ALL ctx
  let rw := consume_slot ctx.priv.pending_w ctx.in0
  let rg := consume_slot ctx.priv.pending_g ctx.in1
  { ctx with priv := { ctx.priv with pending_w := rw.2.1, pending_g := rg.2.1 },
             in0 := rw.2.2, in1 := rg.2.2 }

end vf_tensor_update

/-! ## libavfilter/vf_tensor_relu.c -/

namespace vf_tensor_relu

/-- What one call of `filter_frame` leaves behind: the return value, the output
link, and the frame passed to `av_frame_free`, if any. -/
structure FilterResult where
  ret : Int
  outlink : AVFilterLink
  freed : Option AVFrame
deriving DecidableEq

/-- The kernel loop of `filter_frame`:
`for (i = 0; i < h->n_elem; i++) if (x[i] < 0.0f) x[i] = 0.0f`. -/
def relu_loop (n_elem : Nat) (x : List Fp) : Option (List Fp) :=
  forLoop (fun i x =>
    match x[i]? with
    | some v => if Fp.lt v (Fp.fin 0) then some (x.set i (Fp.fin 0)) else some x
    | none => none) n_elem x

/-- The `filter_frame` callback of the ReLU node, with `outlink` standing for
`inlink->dst->outputs[0]`. -/
def filter_frame (al : Allocator) (outlink : AVFilterLink) (frame : AVFrame) :
    Option FilterResult :=
  let mw := av_frame_make_writable al frame
  let ret := mw.1
  let frame := mw.2
  if ret < 0 then some { ret := ret, outlink := outlink, freed := some frame } else
  let h := frame.hdr
  if h.magic ≠ TENSOR_MAGIC then
    some { ret := AVERROR EINVAL, outlink := outlink, freed := some frame }
  else
    match relu_loop h.n_elem frame.payload with
    | none => none
    | some x =>
      let frame := { frame with payload := x,
                                hdr := { h with generation_id := wrap64 (h.generation_id + 1) } }
      let r := ff_filter_frame outlink frame
      some { ret := r.1, outlink := r.2, freed := none }

end vf_tensor_relu

/-! ## Quantities the specification speaks of -/

/-- The real number a finite floating-point value denotes (0 for the
others). -/
def Fp.val : Fp → ℚ
  | Fp.fin q => q
  | _ => 0

/-- The value is a finite `float`: a finite number that the rounding to
`float` leaves as it is. -/
def Fp.is_float : Fp → Bool
  | Fp.fin q => decide (to_float q = Fp.fin q)
  | _ => false

/-- The row-major dot product `Σ_{k<n} A[i*n+k] * B[k*p+j]`. -/
def vf_tensor_matmul.gemm_entry (A B : List ℚ) (i j n p : Nat) : ℚ :=
  ∑ k ∈ Finset.range n, A.getD (i * n + k) 0 * B.getD (k * p + j) 0

/-- The value `max(0, x)` of the ReLU of the specification, "NaN inputs
propagate". -/
def vf_tensor_relu.relu : Fp → Fp
  | Fp.fin q => Fp.fin (max 0 q)
  | Fp.inf s => if s then Fp.fin 0 else Fp.inf false
  | Fp.nan => Fp.nan

/-- The comparison `x ≤ y` of two floating-point values; it is false as soon as
one side is a NaN. -/
def Fp.le : Fp → Fp → Bool
  | Fp.fin a, Fp.fin b => decide (a ≤ b)
  | Fp.fin _, Fp.inf s => !s
  | Fp.inf s, Fp.fin _ => s
  | Fp.inf s, Fp.inf t => s || !t
  | _, _ => false

/-- What "the update was applied" means on the node's counters: one more
update, no more skips. -/
def vf_tensor_update.update_applied (s s' : vf_tensor_update.TensorUpdateContext) : Prop :=
  s'.update_count = wrap64 (s.update_count + 1) ∧ s'.skip_count = s.skip_count

/-! ## Test data of the specification's scenarios -/

/-- An all-zero header. -/
def zero_hdr : TensorHeader :=
  { magic := 0, dtype := 0, n_dims := 0, flags := 0, n_elem := 0, byte_size := 0,
    generation_id := 0, shape := fun _ => 0, padding := fun _ => 0 }

/-- A writable rank-2 tensor frame of shape `[r, c]` with a valid envelope,
whose elements are the `float` values nearest to `xs`. -/
def frame2d (r c gen : Nat) (xs : List ℚ) (pts : Int) : AVFrame :=
  { hdr := { zero_hdr with
      magic := TENSOR_MAGIC, n_dims := 2, n_elem := r * c, byte_size := 4 * (r * c),
      generation_id := gen,
      shape := Function.update (Function.update (fun _ => 0) 0 r) 1 c },
    payload := xs.map to_float, pts := pts, writable := true }

/-- An allocator whose allocations succeed and whose fresh memory is visibly
not zero. -/
def test_alloc : Allocator :=
  { frame_ok := true, buffer_ok := true,
    junk_hdr := { zero_hdr with dtype := 77, flags := 5, generation_id := 99 },
    junk := fun i => Fp.fin (1000 + i) }

/-- Scenario 2, left operand: `[[1,2,3],[4,5,6]]`. -/
def gemm_a : AVFrame := frame2d 2 3 0 [1, 2, 3, 4, 5, 6] 10

/-- Scenario 2, right operand: `[[7,8],[9,10],[11,12]]`. -/
def gemm_b : AVFrame := frame2d 3 2 0 [7, 8, 9, 10, 11, 12] 20

/-- A fresh output frame with room for four elements. -/
def gemm_out : AVFrame :=
  { hdr := test_alloc.junk_hdr, payload := [1000, 1001, 1002, 1003].map Fp.fin, pts := 20,
    writable := true }

/-- Scenario 2 as a filter instance: both operands queued, both slots empty. -/
def gemm_ctx : AVFilterContext vf_tensor_matmul.TensorMatMulContext :=
  { priv := { pending_a := none, pending_b := none },
    in0 := AVFilterLink.idle [gemm_a], in1 := AVFilterLink.idle [gemm_b],
    out0 := AVFilterLink.idle [] }

/-- The frame the MatMul node publishes in scenario 2. -/
def gemm_result : AVFrame :=
  { hdr := { test_alloc.junk_hdr with
      magic := TENSOR_MAGIC, n_dims := 2, n_elem := 4, byte_size := 16,
      shape := Function.update (Function.update (fun _ => 0) 0 2) 1 2 },
    payload := [58, 64, 139, 154].map Fp.fin, pts := 20, writable := true }

/-- The filter instance after the fire of scenario 2. -/
def gemm_ctx_after : AVFilterContext vf_tensor_matmul.TensorMatMulContext :=
  { priv := { pending_a := none, pending_b := none },
    in0 := AVFilterLink.idle [], in1 := AVFilterLink.idle [],
    out0 := AVFilterLink.idle [gemm_result] }

/-- Scenario 3, right operand: a frame of shape `[4,2]`. -/
def mismatch_b : AVFrame := frame2d 4 2 0 [1, 2, 3, 4, 5, 6, 7, 8] 20

/-- Scenario 3 as a filter instance: shapes `[2,3]` and `[4,2]` queued. -/
def mismatch_ctx : AVFilterContext vf_tensor_matmul.TensorMatMulContext :=
  { priv := { pending_a := none, pending_b := none },
    in0 := AVFilterLink.idle [gemm_a], in1 := AVFilterLink.idle [mismatch_b],
    out0 := AVFilterLink.idle [] }

/-- The filter instance after the activation of scenario 3. -/
def mismatch_ctx_after : AVFilterContext vf_tensor_matmul.TensorMatMulContext :=
  { priv := { pending_a := some gemm_a, pending_b := some mismatch_b },
    in0 := AVFilterLink.idle [], in1 := AVFilterLink.idle [],
    out0 := AVFilterLink.idle [] }

/-- Scenarios 4 and 5, the weights: `[1,1,1,1]` at generation 7. -/
def upd_w : AVFrame := frame2d 2 2 7 [1, 1, 1, 1] 5

/-- Scenario 5, the gradients: `[1,0,0,0]`. -/
def upd_g_above : AVFrame := frame2d 2 2 3 [1, 0, 0, 0] 6

/-- Scenario 4, the gradients: `[0.001,0.001,0.001,0.001]`. -/
def upd_g_below : AVFrame := frame2d 2 2 3 [1 / 1000, 1 / 1000, 1 / 1000, 1 / 1000] 6

/-- A gradients frame that matches the weights of the scenarios in nothing but
its element count: wrong magic, another dtype, rank 9, shape `[4]`. -/
def upd_g_bad : AVFrame :=
  { hdr := { zero_hdr with
      magic := 0, dtype := 5, n_dims := 9, n_elem := 4, byte_size := 16,
      shape := Function.update (fun _ => 0) 0 4 },
    payload := [1, 0, 0, 0].map Fp.fin, pts := 6, writable := true }

/-- The Update node of scenarios 4 and 5 (`lr = 0.1f`, threshold mode, the gate
value the `float` nearest to `gate`) with the weights and the given gradients
queued. -/
def upd_ctx (g : AVFrame) (gate : ℚ) : AVFilterContext vf_tensor_update.TensorUpdateContext :=
  { priv := { learning_rate := to_float (1 / 10), gate_mode := vf_tensor_update.GATE_THRESHOLD,
              gate_val := to_float gate, update_count := 0, skip_count := 0,
              pending_w := none, pending_g := none },
    in0 := AVFilterLink.idle [upd_w], in1 := AVFilterLink.idle [g],
    out0 := AVFilterLink.idle [] }

/-- The Update node after one fire that published `out`. -/
def upd_ctx_after (gate : ℚ) (updates skips : Nat) (out : AVFrame) :
    AVFilterContext vf_tensor_update.TensorUpdateContext :=
  { priv := { learning_rate := to_float (1 / 10), gate_mode := vf_tensor_update.GATE_THRESHOLD,
              gate_val := to_float gate, update_count := updates, skip_count := skips,
              pending_w := none, pending_g := none },
    in0 := AVFilterLink.idle [], in1 := AVFilterLink.idle [],
    out0 := AVFilterLink.idle [out] }

/-- The frame the Update node publishes in scenario 5: `[0.9f,1,1,1]` at
generation 8; `0.9f` is the `float` `0x3F666666`, that is `15099494 / 2^24`. -/
def upd_result_above : AVFrame :=
  { upd_w with
    hdr := { upd_w.hdr with generation_id := 8 },
    payload := [15099494 / 2 ^ 24, 1, 1, 1].map Fp.fin }

/-- The frame the Update node publishes in scenario 4: the weights unchanged. -/
def upd_result_below : AVFrame := upd_w

/-- The frame the Update node publishes for the weights of the scenarios and
the mismatching gradients `upd_g_bad`. -/
def upd_result_bad : AVFrame := upd_result_above

/-- Scenario 1, the input: shape `[2,3]`, payload `[-1,0,1,-2,3,-4]`,
generation 5. -/
def relu_in : AVFrame := frame2d 2 3 5 [-1, 0, 1, -2, 3, -4] 0

/-- Scenario 1, the output: payload `[0,0,1,0,3,0]`, generation 6. -/
def relu_out : AVFrame := frame2d 2 3 6 [0, 0, 1, 0, 3, 0] 0

/-- A writable frame with the right magic and six elements in its buffer whose
envelope is otherwise invalid: rank 9, `n_elem = 6` although the product of the
shape is 0, `byte_size = 0`. -/
def relu_invalid : AVFrame :=
  { hdr := { zero_hdr with
      magic := TENSOR_MAGIC, n_dims := 9, n_elem := 6, byte_size := 0, generation_id := 5,
      shape := Function.update (Function.update (fun _ => 0) 0 2) 1 3 },
    payload := [-1, 0, 1, -2, 3, -4].map Fp.fin, pts := 0, writable := true }

/-- The frame the ReLU node forwards for `relu_invalid`. -/
def relu_invalid_out : AVFrame :=
  { relu_invalid with
    hdr := { relu_invalid.hdr with generation_id := 6 },
    payload := [0, 0, 1, 0, 3, 0].map Fp.fin }

/-- A shared (not writable) frame with a bad magic. -/
def relu_shared_bad : AVFrame :=
  { hdr := zero_hdr, payload := [Fp.fin (-1)], pts := 0, writable := false }

/-- A writable frame with a bad magic. -/
def relu_bad_magic : AVFrame :=
  { hdr := zero_hdr, payload := [Fp.fin (-1)], pts := 0, writable := true }

/-- An allocator whose allocations fail. -/
def failing_alloc : Allocator := { test_alloc with frame_ok := false, buffer_ok := false }

/-- The 3-by-3 identity matrix as a tensor frame. -/
def eye3 : AVFrame := frame2d 3 3 0 [1, 0, 0, 0, 1, 0, 0, 0, 1] 0

/-- The 3-by-3 diagonal matrix `2·I` as a tensor frame. -/
def diag3 : AVFrame := frame2d 3 3 0 [2, 0, 0, 0, 2, 0, 0, 0, 2] 0

/-- The 2-by-2 identity matrix as a tensor frame. -/
def eye2 : AVFrame := frame2d 2 2 0 [1, 0, 0, 1] 0

/-- The 1-by-2 matrix `[[+inf, 1]]` as a tensor frame. -/
def inf_a : AVFrame := { frame2d 1 2 0 [0, 1] 0 with payload := [Fp.inf false, Fp.fin 1] }

/-- A fresh output frame with room for `k` elements. -/
def scratch_out (k : Nat) : AVFrame :=
  { hdr := test_alloc.junk_hdr, payload := (List.range k).map test_alloc.junk, pts := 0,
    writable := true }

/-- A tensor frame of shape `[2^31, 0]`: a valid envelope with no element. -/
def wide_a : AVFrame := frame2d (2 ^ 31) 0 0 [] 0

/-- A tensor frame of shape `[0, 2^31]`: a valid envelope with no element. -/
def wide_b : AVFrame := frame2d 0 (2 ^ 31) 0 [] 0

/-- The MatMul node with `wide_a` and `wide_b` queued. -/
def wide_ctx : AVFilterContext vf_tensor_matmul.TensorMatMulContext :=
  { priv := { pending_a := none, pending_b := none },
    in0 := AVFilterLink.idle [wide_a], in1 := AVFilterLink.idle [wide_b],
    out0 := AVFilterLink.idle [] }

/-- An allocator whose allocations succeed and whose fresh memory is all zero. -/
def zero_alloc : Allocator :=
  { frame_ok := true, buffer_ok := true, junk_hdr := zero_hdr, junk := fun _ => Fp.fin 0 }

/-- The frame the MatMul node publishes in scenario 2 when the fresh memory is
all zero. -/
def gemm_result_zero : AVFrame :=
  { hdr := { zero_hdr with
      magic := TENSOR_MAGIC, n_dims := 2, n_elem := 4, byte_size := 16,
      shape := Function.update (Function.update (fun _ => 0) 0 2) 1 2 },
    payload := [58, 64, 139, 154].map Fp.fin, pts := 20, writable := true }

/-- The filter instance after the fire of scenario 2 on all-zero fresh memory. -/
def gemm_ctx_after_zero : AVFilterContext vf_tensor_matmul.TensorMatMulContext :=
  { priv := { pending_a := none, pending_b := none },
    in0 := AVFilterLink.idle [], in1 := AVFilterLink.idle [],
    out0 := AVFilterLink.idle [gemm_result_zero] }

/-- The largest `uint64_t` value. -/
def UINT64_MAX : Nat := 2 ^ 64 - 1

/-- The frame of scenario 1 at the last generation, `2^64 - 1`. -/
def relu_last_gen : AVFrame := frame2d 2 3 UINT64_MAX [-1, 0, 1, -2, 3, -4] 0

/-- The frame the ReLU node forwards for `relu_last_gen`: generation 0. -/
def relu_last_gen_out : AVFrame := frame2d 2 3 0 [0, 0, 1, 0, 3, 0] 0

/-- The weights of the scenarios at the last generation, `2^64 - 1`. -/
def upd_w_last : AVFrame := frame2d 2 2 UINT64_MAX [1, 1, 1, 1] 5

/-- The Update node of scenario 5 with the last-generation weights queued. -/
def upd_ctx_last : AVFilterContext vf_tensor_update.TensorUpdateContext :=
  { upd_ctx upd_g_above (1 / 2) with in0 := AVFilterLink.idle [upd_w_last] }

/-- The frame the Update node publishes for the last-generation weights:
`[0.9f,1,1,1]` at generation 0. -/
def upd_result_last : AVFrame := frame2d 2 2 0 [9 / 10, 1, 1, 1] 5

/-- The sizes in bytes of the fields of `TensorHeader` in declaration order:
`magic`, `dtype`, `n_dims`, `flags` (`uint32_t`), `n_elem`, `byte_size`,
`generation_id` (`uint64_t`), `shape` (`uint64_t[8]`), `padding` (`uint8_t[24]`). -/
def TensorHeader_field_sizes : List Nat := [4, 4, 4, 4, 8, 8, 8, 8 * 8, 24]

/-- The offsets a C compiler gives to fields of the given sizes laid out in
declaration order from offset `off`, when it inserts `pads[i]` bytes of implicit
padding in front of field `i`. -/
def struct_offsets (off : Nat) : List Nat → List Nat → List Nat
  | s :: ss, p :: ps => (off + p) :: struct_offsets (off + p + s) ss ps
  | _, _ => []

/-- The `sizeof` of a struct with fields of the given sizes, implicit padding
`pads[i]` in front of field `i` and `tail` bytes of implicit padding at the end. -/
def struct_sizeof (sizes pads : List Nat) (tail : Nat) : Nat :=
  (List.zipWith (fun s p => p + s) sizes pads).sum + tail

/-- The POSIX-independent terminal status `AVERROR_EOF` of libavutil,
`FFERRTAG('E','O','F',' ')`. -/
def AVERROR_EOF : Int := -541478725

/-- The MatMul node holding the left operand of scenario 2 (pts 10) while its
second input has reached end of stream. -/
def eof_matmul_ctx : AVFilterContext vf_tensor_matmul.TensorMatMulContext :=
  { priv := { pending_a := some gemm_a, pending_b := none },
    in0 := AVFilterLink.idle [],
    in1 := { AVFilterLink.idle [] with status_in := AVERROR_EOF, status_in_pts := 30 },
    out0 := AVFilterLink.idle [] }

/-- The Update node of scenario 5 holding the weights (pts 5) while its
gradients input has reached end of stream with link timestamp `pts`. -/
def eof_update_ctx (pts : Int) : AVFilterContext vf_tensor_update.TensorUpdateContext :=
  { priv := { (upd_ctx upd_g_above (1 / 2)).priv with pending_w := some upd_w },
    in0 := AVFilterLink.idle [],
    in1 := { AVFilterLink.idle [] with status_in := AVERROR_EOF, status_in_pts := pts },
    out0 := AVFilterLink.idle [] }

/-- The Update node after the activation of `eof_update_ctx 0`. -/
def eof_update_ctx_after : AVFilterContext vf_tensor_update.TensorUpdateContext :=
  { priv := { (upd_ctx upd_g_above (1 / 2)).priv with pending_w := some upd_w },
    in0 := AVFilterLink.idle [],
    in1 := { AVFilterLink.idle [] with
      status_in := AVERROR_EOF, status_in_pts := 0, status_out := AVERROR_EOF },
    out0 := { AVFilterLink.idle [] with status_in := AVERROR_EOF, status_in_pts := 0 } }

/-! ## Runs of a join node -/

/-- Modelled from the spec: what can happen to a two-input node between and at
its activations (§4.4, §5).  Upstream queues a frame on input `side`
(`false` for input 0, `true` for input 1), an input reaches a terminal status,
the next consume on an input reports a fault, downstream asks for a frame, or
the scheduler activates the node with the given allocation outcome. -/
inductive Event where
  | push (side : Bool) (f : AVFrame)
  | close (side : Bool) (status pts : Int)
  | fault (side : Bool) (e : Int)
  | want
  | act (al : Allocator)

/-- Modelled from the spec: a frame arriving on a link joins the queue at its
tail; a link that carries a terminal status takes no more frames. -/
def env_push (l : AVFilterLink) (f : AVFrame) : AVFilterLink :=
  if l.status_in ≠ 0 then l else { l with fifo := l.fifo ++ [f] }

/-- Modelled from the spec: a link reaching a terminal status; the status is
terminal, so a later one does not replace it. -/
def env_close (l : AVFilterLink) (status pts : Int) : AVFilterLink :=
  if l.status_in ≠ 0 then l else { l with status_in := status, status_in_pts := pts }

/-- What has been observed of a node so far: its state, the values its
activations returned, and the frames its activations took from the queue of
input 0 and of input 1, in order. -/
structure Trace (P : Type) where
  ctx : AVFilterContext P
  rets : List Int
  taken0 : List AVFrame
  taken1 : List AVFrame
deriving DecidableEq

/-- The frames an activation took from a queue: the head of the queue before
the activation that is missing after it. -/
def taken (before after : List AVFrame) : List AVFrame :=
  before.take (before.length - after.length)

/-- One event applied to a trace, for a node with the given `activate`. -/
def step {P : Type} (activate : Allocator → AVFilterContext P → Option (Int × AVFilterContext P))
    (t : Trace P) : Event → Option (Trace P)
  | Event.push false f => some { t with ctx := { t.ctx with in0 := env_push t.ctx.in0 f } }
  | Event.push true f => some { t with ctx := { t.ctx with in1 := env_push t.ctx.in1 f } }
  | Event.close false st pts =>
    some { t with ctx := { t.ctx with in0 := env_close t.ctx.in0 st pts } }
  | Event.close true st pts =>
    some { t with ctx := { t.ctx with in1 := env_close t.ctx.in1 st pts } }
  | Event.fault false e => some { t with ctx := { t.ctx with in0 := { t.ctx.in0 with fault := e } } }
  | Event.fault true e => some { t with ctx := { t.ctx with in1 := { t.ctx.in1 with fault := e } } }
  | Event.want =>
    some { t with ctx := { t.ctx with out0 := { t.ctx.out0 with frame_wanted_out := true } } }
  | Event.act al =>
    match activate al t.ctx with
    | none => none
    | some (r, c) =>
      some { ctx := c, rets := t.rets ++ [r],
             taken0 := t.taken0 ++ taken t.ctx.in0.fifo c.in0.fifo,
             taken1 := t.taken1 ++ taken t.ctx.in1.fifo c.in1.fifo }

/-- A sequence of events applied to a trace; there is no result as soon as one
activation has none. -/
def run {P : Type} (activate : Allocator → AVFilterContext P → Option (Int × AVFilterContext P)) :
    List Event → Trace P → Option (Trace P)
  | [], t => some t
  | e :: es, t => (step activate t e).bind (run activate es)

/-- A node that has just been created: idle links, nothing observed. -/
def Trace.start {P : Type} (priv : P) : Trace P :=
  { ctx := { priv := priv, in0 := AVFilterLink.idle [], in1 := AVFilterLink.idle [],
             out0 := AVFilterLink.idle [] },
    rets := [], taken0 := [], taken1 := [] }

/-- The frame `out` is what a fire of the MatMul node on the pair `(a, b)`
published. -/
def vf_tensor_matmul.fired (out a b : AVFrame) : Prop :=
  ∃ al c c', vf_tensor_matmul.fire al c a b = some (0, c') ∧ c'.out0.fifo = c.out0.fifo ++ [out]

/-- Two private contexts of the Update node carry the same options
(`learning_rate`, `gate_mode`, `gate_val`). -/
def vf_tensor_update.same_options (s t : vf_tensor_update.TensorUpdateContext) : Prop :=
  s.learning_rate = t.learning_rate ∧ s.gate_mode = t.gate_mode ∧ s.gate_val = t.gate_val

/-- The frame `out` is what a fire of the Update node on the pair `(w, g)`
published, in a state of the node that carries the options of `priv`. -/
def vf_tensor_update.fired (priv : vf_tensor_update.TensorUpdateContext) (out w g : AVFrame) :
    Prop :=
  ∃ al c c', vf_tensor_update.same_options c.priv priv ∧
    vf_tensor_update.fire al c w g = some (0, c') ∧ c'.out0.fifo = c.out0.fifo ++ [out]

/-- A link that has delivered everything: it carries a terminal status, the
status has been passed on to the node, and no frame is queued. -/
def link_drained (l : AVFilterLink) : Prop :=
  l.status_in ≠ 0 ∧ l.status_out ≠ 0 ∧ l.fifo = []

/-- Scenario 2 as a run: both operands arrive, then the node is activated. -/
def gemm_events : List Event :=
  [Event.push false gemm_a, Event.push true gemm_b, Event.act test_alloc]

/-- The trace of scenario 2. -/
def gemm_trace : Trace vf_tensor_matmul.TensorMatMulContext :=
  { ctx := gemm_ctx_after, rets := [0], taken0 := [gemm_a], taken1 := [gemm_b] }

/-- Scenario 5 as a run: weights and gradients arrive, then the node is
activated. -/
def upd_events : List Event :=
  [Event.push false upd_w, Event.push true upd_g_above, Event.act test_alloc]

/-- The trace of scenario 5. -/
def upd_trace : Trace vf_tensor_update.TensorUpdateContext :=
  { ctx := upd_ctx_after (1 / 2) 1 0 upd_result_above, rets := [0], taken0 := [upd_w],
    taken1 := [upd_g_above] }

/-- Later gradients: those of scenario 4 with timestamp 8. -/
def upd_g_next : AVFrame := { upd_g_below with pts := 8 }

/-- Later weights: the output of scenario 5 with timestamp 9. -/
def upd_w_next : AVFrame := { upd_result_above with pts := 9 }

/-- The frame the second fire of the Update node publishes: the gate rejects
the later gradients, the later weights go out unchanged. -/
def upd_result_next : AVFrame := upd_w_next

/-- Scenario 5 followed by a second pair, the gradients arriving one activation
before the weights. -/
def upd_events_two : List Event :=
  [Event.push false upd_w, Event.push true upd_g_above, Event.act test_alloc,
   Event.push true upd_g_next, Event.act test_alloc,
   Event.push false upd_w_next, Event.act test_alloc]

/-- The trace of the two fires of the Update node: one update, one skip. -/
def upd_trace_two : Trace vf_tensor_update.TensorUpdateContext :=
  { ctx := { upd_ctx_after (1 / 2) 1 1 upd_result_above with
             out0 := AVFilterLink.idle [upd_result_above, upd_result_next] },
    rets := [0, 0, 0],
    taken0 := [upd_w, upd_w_next], taken1 := [upd_g_above, upd_g_next] }

/-- A later left operand: the matrix of scenario 2 with timestamp 30. -/
def gemm_a_next : AVFrame := { gemm_a with pts := 30 }

/-- A later right operand: the matrix of scenario 2 with timestamp 25. -/
def gemm_b_next : AVFrame := { gemm_b with pts := 25 }

/-- The MatMul node after scenario 2, with the next right operand queued. -/
def gemm_ctx_right : AVFilterContext vf_tensor_matmul.TensorMatMulContext :=
  { priv := { pending_a := none, pending_b := none },
    in0 := AVFilterLink.idle [], in1 := AVFilterLink.idle [gemm_b_next],
    out0 := AVFilterLink.idle [gemm_result] }

/-- The MatMul node holding the second right operand, waiting for the left
one. -/
def gemm_ctx_wait : AVFilterContext vf_tensor_matmul.TensorMatMulContext :=
  { priv := { pending_a := none, pending_b := some gemm_b_next },
    in0 := AVFilterLink.idle [], in1 := AVFilterLink.idle [],
    out0 := AVFilterLink.idle [gemm_result] }

/-- The waiting MatMul node with the next left operand queued. -/
def gemm_ctx_next : AVFilterContext vf_tensor_matmul.TensorMatMulContext :=
  { priv := { pending_a := none, pending_b := some gemm_b_next },
    in0 := AVFilterLink.idle [gemm_a_next], in1 := AVFilterLink.idle [],
    out0 := AVFilterLink.idle [gemm_result] }

/-- The frame the second fire publishes. -/
def gemm_result_next : AVFrame := { gemm_result with pts := 30 }

/-- The MatMul node after the second fire. -/
def gemm_ctx_after_next : AVFilterContext vf_tensor_matmul.TensorMatMulContext :=
  { priv := { pending_a := none, pending_b := none },
    in0 := AVFilterLink.idle [], in1 := AVFilterLink.idle [],
    out0 := AVFilterLink.idle [gemm_result, gemm_result_next] }

/-- Scenario 2 followed by a second pair, the right operand arriving one
activation before the left one. -/
def gemm_events_two : List Event :=
  [Event.push false gemm_a, Event.push true gemm_b, Event.act test_alloc,
   Event.push true gemm_b_next, Event.act test_alloc,
   Event.push false gemm_a_next, Event.act test_alloc]

/-- The trace of the two fires. -/
def gemm_trace_two : Trace vf_tensor_matmul.TensorMatMulContext :=
  { ctx := gemm_ctx_after_next, rets := [0, 0, 0],
    taken0 := [gemm_a, gemm_a_next], taken1 := [gemm_b, gemm_b_next] }

/-! ## The floating-point model on known values -/

/-- The rounding functions on values whose IEEE 754 encodings are known:
`0.1f = 0x3DCCCCCD`, `0.9f = 0x3F666666`, `0.1 = 0x3FB999999999999A`; the
largest `float` is kept and the half-way point above it overflows; ties go to
the even neighbour, also among the subnormal numbers; `sqrt(2.0)` is
`0x3FF6A09E667F3BCD`; an infinity times zero is a NaN, an infinity minus
itself is a NaN, and no comparison with a NaN holds. -/
theorem float_model_values :
    to_float (1 / 10) = Fp.fin (13421773 / 2 ^ 27) ∧
    to_float (9 / 10) = Fp.fin (15099494 / 2 ^ 24) ∧
    to_double (1 / 10) = Fp.fin (3602879701896397 / 2 ^ 55) ∧
    to_float (2 ^ 128 - 2 ^ 104) = Fp.fin (2 ^ 128 - 2 ^ 104) ∧
    to_float (2 ^ 128 - 2 ^ 103) = Fp.inf false ∧
    to_float (-(2 ^ 128)) = Fp.inf true ∧
    to_float (1 + 1 / 2 ^ 24) = Fp.fin 1 ∧
    to_float (1 + 3 / 2 ^ 24) = Fp.fin (1 + 1 / 2 ^ 22) ∧
    to_float (1 / 2 ^ 150) = Fp.fin 0 ∧
    to_float (3 / 2 ^ 150) = Fp.fin (1 / 2 ^ 148) ∧
    to_float (-(5 / 2 ^ 150)) = Fp.fin (-(1 / 2 ^ 148)) ∧
    Fp.sqrt (Fp.fin 2) = Fp.fin (6369051672525773 / 2 ^ 52) ∧
    Fp.sqrt (Fp.fin (1 / 4)) = Fp.fin (1 / 2) ∧
    Fp.mul to_double (Fp.inf false) (Fp.fin 0) = Fp.nan ∧
    Fp.sub to_float (Fp.inf false) (Fp.inf false) = Fp.nan ∧
    Fp.lt Fp.nan (Fp.fin 0) = false ∧ Fp.lt (Fp.fin 0) Fp.nan = false := by
  decide!

/-! ## The floating-point model: rounding and square root -/

theorem bit_length_zero (fuel : Nat) : bit_length fuel 0 = 0 := by
  cases fuel <;> simp [bit_length]

/-- With enough fuel `bit_length` is the number of binary digits:
`2^(b-1) ≤ n < 2^b`. -/
theorem bit_length_spec (fuel n : Nat) (hn : 0 < n) (hf : n ≤ fuel) :
    0 < bit_length fuel n ∧ 2 ^ (bit_length fuel n - 1) ≤ n ∧ n < 2 ^ bit_length fuel n := by
  induction fuel generalizing n with
  | zero => omega
  | succ fuel ih =>
    have hne : n ≠ 0 := by omega
    simp only [bit_length, if_neg hne]
    rcases Nat.eq_zero_or_pos (n / 2) with h0 | hpos
    · have h1 : n = 1 := by omega
      subst h1
      simp [bit_length_zero]
    · obtain ⟨hb, hlo, hhi⟩ := ih (n / 2) hpos (by omega)
      refine ⟨Nat.succ_pos _, ?_, ?_⟩
      · rw [Nat.add_sub_cancel]
        have h2 : 2 ^ bit_length fuel (n / 2) = 2 * 2 ^ (bit_length fuel (n / 2) - 1) := by
          rw [← pow_succ', Nat.sub_add_cancel hb]
        omega
      · rw [pow_succ]
        omega

/-- The binary exponent: `2^(ilog2 q) ≤ |q| < 2^(ilog2 q + 1)` for `q ≠ 0`. -/
theorem ilog2_spec (q : ℚ) (hq : q ≠ 0) :
    (2 : ℚ) ^ ilog2 q ≤ |q| ∧ |q| < (2 : ℚ) ^ (ilog2 q + 1) := by
  have hN : 0 < q.num.natAbs := Int.natAbs_pos.mpr (Rat.num_ne_zero.mpr hq)
  have hD : 0 < q.den := q.den_pos
  obtain ⟨-, n1, n2⟩ := bit_length_spec _ _ hN le_rfl
  obtain ⟨d0, d1, d2⟩ := bit_length_spec _ _ hD le_rfl
  have habs : |q| = (q.num.natAbs : ℚ) / (q.den : ℚ) := by
    conv_lhs => rw [← Rat.num_div_den q]
    rw [abs_div, Nat.abs_cast, Nat.cast_natAbs, Int.cast_abs]
  have hDq : (0 : ℚ) < q.den := by exact_mod_cast hD
  have two : (0 : ℚ) < 2 := by norm_num
  -- |q| < 2^(d+1)
  have hup : |q| < (2 : ℚ) ^ ((bit_length q.num.natAbs q.num.natAbs : ℤ)
      - (bit_length q.den q.den : ℤ) + 1) := by
    rw [habs, div_lt_iff₀ hDq]
    have e1 : ((bit_length q.num.natAbs q.num.natAbs : ℤ) - (bit_length q.den q.den : ℤ) + 1)
        = (bit_length q.num.natAbs q.num.natAbs : ℤ)
          - ((bit_length q.den q.den - 1 : ℕ) : ℤ) := by
      rw [Nat.cast_sub d0]; push_cast; ring
    rw [e1, zpow_sub₀ two.ne', zpow_natCast, zpow_natCast, div_mul_eq_mul_div,
      lt_div_iff₀ (pow_pos two _)]
    have a1 : (q.num.natAbs : ℚ) < 2 ^ bit_length q.num.natAbs q.num.natAbs := by
      exact_mod_cast n2
    have a2 : (2 : ℚ) ^ (bit_length q.den q.den - 1) ≤ q.den := by exact_mod_cast d1
    calc (q.num.natAbs : ℚ) * 2 ^ (bit_length q.den q.den - 1)
        ≤ (q.num.natAbs : ℚ) * q.den := by
          exact mul_le_mul_of_nonneg_left a2 (Nat.cast_nonneg _)
      _ < 2 ^ bit_length q.num.natAbs q.num.natAbs * q.den := by
          exact mul_lt_mul_of_pos_right a1 hDq
  -- 2^(d-1) ≤ |q|
  have hlo : (2 : ℚ) ^ ((bit_length q.num.natAbs q.num.natAbs : ℤ)
      - (bit_length q.den q.den : ℤ) - 1) ≤ |q| := by
    rw [habs, le_div_iff₀ hDq]
    obtain ⟨n0, -, -⟩ := bit_length_spec _ _ hN le_rfl
    have e1 : ((bit_length q.num.natAbs q.num.natAbs : ℤ) - (bit_length q.den q.den : ℤ) - 1)
        = ((bit_length q.num.natAbs q.num.natAbs - 1 : ℕ) : ℤ)
          - (bit_length q.den q.den : ℤ) := by
      rw [Nat.cast_sub n0]; push_cast; ring
    rw [e1, zpow_sub₀ two.ne', zpow_natCast, zpow_natCast, div_mul_eq_mul_div,
      div_le_iff₀ (pow_pos two _)]
    have a1 : (2 : ℚ) ^ (bit_length q.num.natAbs q.num.natAbs - 1) ≤ q.num.natAbs := by
      exact_mod_cast n1
    have a2 : (q.den : ℚ) ≤ 2 ^ bit_length q.den q.den := by exact_mod_cast d2.le
    calc (2 : ℚ) ^ (bit_length q.num.natAbs q.num.natAbs - 1) * q.den
        ≤ (q.num.natAbs : ℚ) * q.den := by
          exact mul_le_mul_of_nonneg_right a1 hDq.le
      _ ≤ q.num.natAbs * 2 ^ bit_length q.den q.den := by
          exact mul_le_mul_of_nonneg_left a2 (Nat.cast_nonneg _)
  unfold ilog2
  simp only
  split
  · rename_i h
    exact ⟨h, hup⟩
  · rename_i h
    refine ⟨hlo, ?_⟩
    rw [sub_add_cancel]
    exact lt_of_not_le h

/-- The rounded integer is within one half of the argument. -/
theorem round_half_even_spec (t : ℚ) : |(round_half_even t : ℚ) - t| ≤ 1 / 2 := by
  have h1 := Int.floor_le t
  have h2 := Int.lt_floor_add_one t
  unfold round_half_even
  simp only
  split_ifs with a b c
  · rw [abs_le]; constructor <;> linarith
  · push_cast; rw [abs_le]; constructor <;> linarith
  · rw [abs_le]; constructor <;> linarith
  · push_cast; rw [abs_le]; constructor <;> linarith

theorem round_half_even_nonneg (t : ℚ) (ht : 0 ≤ t) : 0 ≤ round_half_even t := by
  have h0 : (0 : ℤ) ≤ ⌊t⌋ := Int.floor_nonneg.mpr ht
  unfold round_half_even
  simp only
  split_ifs <;> omega

theorem round_half_even_le (t : ℚ) (n : ℤ) (ht : t ≤ n) : round_half_even t ≤ n := by
  have h1 : ⌊t⌋ ≤ n := Int.floor_le_iff.mpr (lt_of_le_of_lt ht (by linarith))
  rcases eq_or_lt_of_le ht with h | h
  · subst h
    unfold round_half_even
    simp
  · have h2 : ⌊t⌋ < n := Int.floor_lt.mpr h
    unfold round_half_even
    simp only
    split_ifs <;> omega

/-- What `round_ne` delivers for `q ≠ 0`.  With `2^e` the unit in the last
place at `q` (`e = max (ilog2 q - (prec - 1)) emin`) there is an integer
significand `0 ≤ M ≤ 2^prec` with `M * 2^e` within half a unit of `|q|`; the
result is the infinity of the sign of `q` when `M * 2^e` reaches `2^emax` and
the finite value `± M * 2^e` otherwise. -/
theorem round_ne_spec (prec : ℕ) (emin emax : ℤ) (q : ℚ) (hq : q ≠ 0) :
    ∃ M : ℤ, 0 ≤ M ∧ M ≤ 2 ^ prec ∧
      abs ((M : ℚ) * 2 ^ (max (ilog2 q - ((prec : ℤ) - 1)) emin) - abs q)
        ≤ 2 ^ (max (ilog2 q - ((prec : ℤ) - 1)) emin) / 2 ∧
      round_ne prec emin emax q =
        if (2 : ℚ) ^ emax ≤ (M : ℚ) * 2 ^ (max (ilog2 q - ((prec : ℤ) - 1)) emin)
        then Fp.inf (decide (q < 0))
        else Fp.fin (if q < 0 then -((M : ℚ) * 2 ^ (max (ilog2 q - ((prec : ℤ) - 1)) emin))
                     else (M : ℚ) * 2 ^ (max (ilog2 q - ((prec : ℤ) - 1)) emin)) := by
  have two : (0 : ℚ) < 2 := by norm_num
  have hpos : (0 : ℚ) < 2 ^ (max (ilog2 q - ((prec : ℤ) - 1)) emin) := zpow_pos two _
  refine ⟨round_half_even (|q| / 2 ^ (max (ilog2 q - ((prec : ℤ) - 1)) emin)),
    round_half_even_nonneg _ (div_nonneg (abs_nonneg q) hpos.le), ?_, ?_, ?_⟩
  · have h := round_half_even_le (|q| / 2 ^ (max (ilog2 q - ((prec : ℤ) - 1)) emin))
      (2 ^ prec) ?_
    · exact h
    · push_cast
      rw [div_le_iff₀ hpos, ← zpow_natCast, ← zpow_add₀ two.ne']
      refine (ilog2_spec q hq).2.le.trans ?_
      apply zpow_le_zpow_right₀ (by norm_num)
      have := le_max_left (ilog2 q - ((prec : ℤ) - 1)) emin
      omega
  · have h := round_half_even_spec (|q| / 2 ^ (max (ilog2 q - ((prec : ℤ) - 1)) emin))
    have e1 : (round_half_even (|q| / 2 ^ (max (ilog2 q - ((prec : ℤ) - 1)) emin)) : ℚ)
          * 2 ^ (max (ilog2 q - ((prec : ℤ) - 1)) emin) - |q|
        = ((round_half_even (|q| / 2 ^ (max (ilog2 q - ((prec : ℤ) - 1)) emin)) : ℚ)
            - |q| / 2 ^ (max (ilog2 q - ((prec : ℤ) - 1)) emin))
          * 2 ^ (max (ilog2 q - ((prec : ℤ) - 1)) emin) := by
      field_simp
    rw [e1, abs_mul, abs_of_pos hpos]
    calc _ ≤ 1 / 2 * 2 ^ (max (ilog2 q - ((prec : ℤ) - 1)) emin) :=
          mul_le_mul_of_nonneg_right h hpos.le
      _ = _ := by ring
  · unfold round_ne
    rw [if_neg hq]

/-- The digit-by-digit square root keeps `r² ≤ n < (r + 2^b)²`. -/
theorem isqrt_aux_spec (n b r : Nat) (h1 : r * r ≤ n) (h2 : n < (r + 2 ^ b) * (r + 2 ^ b)) :
    isqrt_aux n b r * isqrt_aux n b r ≤ n ∧
      n < (isqrt_aux n b r + 1) * (isqrt_aux n b r + 1) := by
  induction b generalizing r with
  | zero =>
    simp only [isqrt_aux]
    exact ⟨h1, by simpa using h2⟩
  | succ b ih =>
    simp only [isqrt_aux]
    split
    · rename_i h
      refine ih _ h ?_
      have : r + 2 ^ b + 2 ^ b = r + 2 ^ (b + 1) := by rw [pow_succ]; omega
      rw [this]
      exact h2
    · rename_i h
      exact ih _ h1 (lt_of_not_le h)

/-- The integer square root: `(isqrt n)² ≤ n < (isqrt n + 1)²`. -/
theorem isqrt_spec (n : Nat) : isqrt n * isqrt n ≤ n ∧ n < (isqrt n + 1) * (isqrt n + 1) := by
  unfold isqrt
  apply isqrt_aux_spec
  · simp
  · rcases Nat.eq_zero_or_pos n with h | h
    · subst h
      simp [bit_length_zero]
    · obtain ⟨-, -, h3⟩ := bit_length_spec n n h le_rfl
      simp only [Nat.zero_add]
      calc n < 2 ^ bit_length n n := h3
        _ ≤ 2 ^ bit_length n n * 2 ^ bit_length n n :=
          Nat.le_mul_of_pos_right _ (pow_pos (by decide) _)

/-- What `sqrt_ne` delivers for `q > 0`: a multiple `m * 2^u` of the unit in
the last place of the result that lies within half a unit of the real square
root of `q`. -/
theorem sqrt_ne_spec (prec : ℕ) (q : ℚ) (hq : 0 < q) :
    ∃ m : ℕ, sqrt_ne prec q = Fp.fin ((m : ℚ) * 2 ^ (ilog2 q / 2 - ((prec : ℤ) - 1))) ∧
      |(m : ℝ) * 2 ^ (ilog2 q / 2 - ((prec : ℤ) - 1)) - Real.sqrt (q : ℝ)|
        ≤ 2 ^ (ilog2 q / 2 - ((prec : ℤ) - 1)) / 2 := by
  set u : ℤ := ilog2 q / 2 - ((prec : ℤ) - 1) with hu
  set x : ℚ := q / 4 ^ u with hx
  have h4 : (0 : ℚ) < 4 ^ u := zpow_pos (by norm_num) _
  have hxpos : 0 < x := div_pos hq h4
  obtain ⟨f1, f2⟩ := isqrt_spec ⌊x⌋₊
  set f : ℕ := isqrt ⌊x⌋₊ with hf
  have hfx : ((f : ℚ)) ^ 2 ≤ x := by
    have : ((f * f : ℕ) : ℚ) ≤ x := le_trans (by exact_mod_cast f1) (Nat.floor_le hxpos.le)
    push_cast at this
    nlinarith
  have hxf : x < ((f : ℚ) + 1) ^ 2 := by
    have a : x < (⌊x⌋₊ : ℚ) + 1 := Nat.lt_floor_add_one x
    have b : ((⌊x⌋₊ + 1 : ℕ) : ℚ) ≤ (((f + 1) * (f + 1) : ℕ) : ℚ) := by
      exact_mod_cast f2
    push_cast at b
    nlinarith
  -- the square root of `x` as a real number
  set s : ℝ := Real.sqrt (x : ℝ) with hs
  have hs0 : 0 ≤ s := Real.sqrt_nonneg _
  have hss : s * s = (x : ℝ) := Real.mul_self_sqrt (by exact_mod_cast hxpos.le)
  have hfxR : ((f : ℝ)) ^ 2 ≤ (x : ℝ) := by exact_mod_cast hfx
  have hxfR : (x : ℝ) < ((f : ℝ) + 1) ^ 2 := by exact_mod_cast hxf
  have hfs : (f : ℝ) ≤ s := by
    by_contra h
    push_neg at h
    nlinarith [(Nat.cast_nonneg f : (0 : ℝ) ≤ (f : ℝ))]
  have hsf : s < (f : ℝ) + 1 := by
    by_contra h
    push_neg at h
    nlinarith [(Nat.cast_nonneg f : (0 : ℝ) ≤ (f : ℝ))]
  have h2u : (0 : ℝ) < 2 ^ u := zpow_pos (by norm_num) _
  have hsq : Real.sqrt (q : ℝ) = s * 2 ^ u := by
    have hq' : (q : ℝ) = (s * 2 ^ u) ^ 2 := by
      have : (q : ℝ) = (x : ℝ) * 4 ^ u := by
        rw [hx]; push_cast; field_simp
      rw [this, mul_pow, sq, hss]
      congr 1
      rw [← zpow_natCast, ← zpow_mul, mul_comm, zpow_mul, zpow_natCast]
      norm_num
    rw [hq', Real.sqrt_sq (mul_nonneg hs0 h2u.le)]
  have key : ∀ m : ℕ, |(m : ℝ) - s| ≤ 1 / 2 →
      |(m : ℝ) * 2 ^ u - Real.sqrt (q : ℝ)| ≤ 2 ^ u / 2 := by
    intro m hm
    rw [hsq, ← sub_mul, abs_mul, abs_of_pos h2u]
    calc _ ≤ 1 / 2 * 2 ^ u := mul_le_mul_of_nonneg_right hm h2u.le
      _ = _ := by ring
  unfold sqrt_ne
  simp only [← hu, ← hx, ← hf]
  have hlow : 4 * (x : ℝ) ≤ (2 * (f : ℝ) + 1) ^ 2 → s ≤ (f : ℝ) + 1 / 2 := by
    intro c
    by_contra h
    push_neg at h
    nlinarith [(Nat.cast_nonneg f : (0 : ℝ) ≤ (f : ℝ))]
  have hhigh : (2 * (f : ℝ) + 1) ^ 2 ≤ 4 * (x : ℝ) → (f : ℝ) + 1 / 2 ≤ s := by
    intro c
    by_contra h
    push_neg at h
    nlinarith [(Nat.cast_nonneg f : (0 : ℝ) ≤ (f : ℝ))]
  split_ifs with c1 c2 c3
  · refine ⟨f, rfl, key f ?_⟩
    have c1R : 4 * (x : ℝ) < (2 * (f : ℝ) + 1) ^ 2 := by exact_mod_cast c1
    have := hlow c1R.le
    rw [abs_le]
    constructor <;> linarith
  · refine ⟨f + 1, by push_cast; rfl, key (f + 1) ?_⟩
    have c2R : (2 * (f : ℝ) + 1) ^ 2 < 4 * (x : ℝ) := by exact_mod_cast c2
    have := hhigh c2R.le
    push_cast
    rw [abs_le]
    constructor <;> linarith
  · refine ⟨f, rfl, key f ?_⟩
    have c1R : 4 * (x : ℝ) ≤ (2 * (f : ℝ) + 1) ^ 2 := by exact_mod_cast not_lt.mp c2
    have := hlow c1R
    rw [abs_le]
    constructor <;> linarith
  · refine ⟨f + 1, by push_cast; rfl, key (f + 1) ?_⟩
    have c1R : (2 * (f : ℝ) + 1) ^ 2 ≤ 4 * (x : ℝ) := by exact_mod_cast not_lt.mp c1
    have := hhigh c1R
    push_cast
    rw [abs_le]
    constructor <;> linarith

/-! ## General facts about loops -/

theorem forLoop_succ {σ : Type} (body : Nat → σ → Option σ) (k : Nat) (s : σ) :
    forLoop body (k + 1) s = (forLoop body k s).bind (body k) := rfl

/-- A loop whose body preserves an invariant and has a result wherever the
invariant holds has a result, and the invariant holds for it. -/
theorem forLoop_inv {σ : Type} (body : Nat → σ → Option σ) (I : Nat → σ → Prop)
    (n : Nat) (s : σ) (h0 : I 0 s)
    (hstep : ∀ k, k < n → ∀ t, I k t → ∃ u, body k t = some u ∧ I (k + 1) u) :
    ∃ t, forLoop body n s = some t ∧ I n t := by
  induction n with
  | zero => exact ⟨s, rfl, h0⟩
  | succ k ih =>
    obtain ⟨t, ht, hI⟩ := ih (fun j hj => hstep j (Nat.lt_succ_of_lt hj))
    obtain ⟨u, hu, hIu⟩ := hstep k (Nat.lt_succ_self k) t hI
    exact ⟨u, by rw [forLoop_succ, ht]; exact hu, hIu⟩

/-- A loop with a result had a result at every iteration: for every `k < n`
the body ran on some state that satisfies every property `I` which holds at
the start and which the body preserves. -/
theorem forLoop_ran {σ : Type} (body : Nat → σ → Option σ) (I : σ → Prop)
    (n : Nat) (s t : σ) (h : forLoop body n s = some t) (h0 : I s)
    (hpres : ∀ k u v, I u → body k u = some v → I v) :
    I t ∧ ∀ k, k < n → ∃ u v, I u ∧ body k u = some v := by
  induction n generalizing t with
  | zero =>
    simp only [forLoop, Option.some.injEq] at h
    subst h
    exact ⟨h0, fun k hk => absurd hk (Nat.not_lt_zero k)⟩
  | succ m ih =>
    rw [forLoop_succ] at h
    cases hm : forLoop body m s with
    | none => rw [hm] at h; simp at h
    | some u =>
      rw [hm] at h
      simp only [Option.some_bind] at h
      obtain ⟨hu, hrun⟩ := ih u hm
      refine ⟨hpres m u t hu h, fun k hk => ?_⟩
      rcases Nat.lt_succ_iff_lt_or_eq.mp hk with hlt | heq
      · exact hrun k hlt
      · subst heq; exact ⟨u, t, hu, h⟩

theorem wrap64_of_lt {x : Nat} (h : x < 2 ^ 64) : wrap64 x = x := Nat.mod_eq_of_lt h

theorem wrap64_lt (x : Nat) : wrap64 x < 2 ^ 64 := Nat.mod_lt _ (by norm_num)

/-! ## MatMul: the GEMM kernel -/

namespace vf_tensor_matmul

/-- A finite value is the value it denotes. -/
theorem fin_of_val {x : Fp} (h : x = Fp.fin x.val) : ∃ q, x = Fp.fin q := ⟨_, h⟩

theorem getD_map_val (A : List Fp) (idx : Nat) (h : idx < A.length) :
    (A.map Fp.val).getD idx 0 = (A[idx]).val := by
  rw [List.getD_eq_getElem _ _ (by rw [List.length_map]; exact h), List.getElem_map]

/-- In exact arithmetic the inner loop on finite operands delivers the dot
product of the values. -/
theorem dot_loop_eq (A B : List Fp) (i j n p : Nat)
    (hA : ∀ k, k < n → i * n + k < A.length) (hB : ∀ k, k < n → k * p + j < B.length)
    (hAsz : A.length ≤ 2 ^ 64) (hBsz : B.length ≤ 2 ^ 64)
    (hfA : ∀ k, k < n → ∀ x, A[i * n + k]? = some x → x = Fp.fin x.val)
    (hfB : ∀ k, k < n → ∀ y, B[k * p + j]? = some y → y = Fp.fin y.val) :
    dot_loop Arith.exact A B i j n p
      = some (Fp.fin (gemm_entry (A.map Fp.val) (B.map Fp.val) i j n p)) := by
  unfold dot_loop
  obtain ⟨t, ht, hI⟩ := forLoop_inv
    (fun k sum =>
      match A[wrap64 (i * n + k)]?, B[wrap64 (k * p + j)]? with
      | some x, some y => some (Fp.add Arith.exact.dbl sum (Fp.mul Arith.exact.dbl x y))
      | _, _ => none)
    (fun k sum => sum =
      Fp.fin (∑ k' ∈ Finset.range k,
        (A.map Fp.val).getD (i * n + k') 0 * (B.map Fp.val).getD (k' * p + j) 0))
    n (Fp.fin 0) (by simp)
    (by
      intro k hk t hI
      have h1 := hA k hk
      have h2 := hB k hk
      obtain ⟨x, hx⟩ := fin_of_val (hfA k hk _ (List.getElem?_eq_getElem h1))
      obtain ⟨y, hy⟩ := fin_of_val (hfB k hk _ (List.getElem?_eq_getElem h2))
      dsimp only
      rw [wrap64_of_lt (lt_of_lt_of_le h1 hAsz), wrap64_of_lt (lt_of_lt_of_le h2 hBsz)]
      rw [List.getElem?_eq_getElem h1, List.getElem?_eq_getElem h2]
      refine ⟨_, rfl, ?_⟩
      rw [Finset.sum_range_succ, hI, getD_map_val A _ h1, getD_map_val B _ h2, hx, hy]
      rfl)
  refine ht.trans ?_
  rw [hI, gemm_entry]

theorem store_eq_some {C D : List Fp} {idx : Nat} {v : Fp} (h : store C idx v = some D) :
    idx < C.length ∧ D = C.set idx v := by
  unfold store at h
  split at h
  · rename_i hlt
    exact ⟨hlt, by simpa using h.symm⟩
  · simp at h

/-- One row of the kernel, in any arithmetic, when the inner loop delivers
`v j` (after the cast to `float`) for column `j`: the row is written, the
length and everything before the row stay the same. -/
theorem row_loop_of_dot (ar : Arith) (A B : List Fp) (i n p : Nat) (C : List Fp)
    (v : Nat → Fp)
    (hdot : ∀ j, j < p → ∃ sum, dot_loop ar A B i j n p = some sum ∧ Fp.cast ar.flt sum = v j)
    (hC : i * p + p ≤ C.length) (hCsz : C.length ≤ 2 ^ 64) :
    ∃ D, row_loop ar A B i n p C = some D ∧
      D.length = C.length ∧
      (∀ idx, idx < i * p → D[idx]? = C[idx]?) ∧
      (∀ j, j < p → D[i * p + j]? = some (v j)) := by
  unfold row_loop
  obtain ⟨D, hD, hlen, hpre, hrow⟩ := forLoop_inv
    (fun j C =>
      match dot_loop ar A B i j n p with
      | some sum => store C (wrap64 (i * p + j)) (Fp.cast ar.flt sum)
      | none => none)
    (fun j' D => D.length = C.length ∧ (∀ idx, idx < i * p → D[idx]? = C[idx]?) ∧
      (∀ j, j < j' → D[i * p + j]? = some (v j)))
    p C ⟨rfl, fun _ _ => rfl, fun j hj => absurd hj (Nat.not_lt_zero j)⟩
    (by
      rintro j hj D ⟨hlen, hpre, hrow⟩
      have hidx : i * p + j < C.length := by omega
      obtain ⟨sum, hsum, hv⟩ := hdot j hj
      dsimp only
      rw [hsum, wrap64_of_lt (lt_of_lt_of_le hidx hCsz)]
      refine ⟨D.set (i * p + j) (v j), ?_, ?_, ?_, ?_⟩
      · simp [store, hlen, hidx, hv]
      · simp [hlen]
      · intro idx hidx'
        rw [List.getElem?_set_ne (by omega)]
        exact hpre idx hidx'
      · intro j' hj'
        rcases Nat.lt_succ_iff_lt_or_eq.mp hj' with hlt | heq
        · rw [List.getElem?_set_ne (by omega)]
          exact hrow j' hlt
        · subst heq
          rw [List.getElem?_set_self (by omega)])
  exact ⟨D, hD, hlen, hpre, hrow⟩

theorem row_major_lt {i j m n : Nat} (hi : i < m) (hj : j < n) : i * n + j < m * n := by
  calc i * n + j < i * n + n := by omega
    _ = (i + 1) * n := by ring
    _ ≤ m * n := Nat.mul_le_mul_right n hi

/-- The three loops of the kernel, in any arithmetic, when the inner loop
delivers `v i j` (after the cast to `float`) for row `i` and column `j`: every
entry is written and the length of the buffer stays the same. -/
theorem gemm_loops_of_dot (ar : Arith) (A B : List Fp) (m n p : Nat) (C : List Fp)
    (v : Nat → Nat → Fp)
    (hdot : ∀ i, i < m → ∀ j, j < p →
      ∃ sum, dot_loop ar A B i j n p = some sum ∧ Fp.cast ar.flt sum = v i j)
    (hC : m * p ≤ C.length) (hCsz : C.length ≤ 2 ^ 64) :
    ∃ D, gemm_loops ar A B m n p C = some D ∧
      D.length = C.length ∧
      (∀ i, i < m → ∀ j, j < p → D[i * p + j]? = some (v i j)) := by
  unfold gemm_loops
  obtain ⟨D, hD, hlen, hrows⟩ := forLoop_inv
    (fun i C => row_loop ar A B i n p C)
    (fun i' D => D.length = C.length ∧
      (∀ i, i < i' → ∀ j, j < p → D[i * p + j]? = some (v i j)))
    m C ⟨rfl, fun i hi => absurd hi (Nat.not_lt_zero i)⟩
    (by
      rintro i hi D ⟨hlen, hrows⟩
      have hrowfit : i * p + p ≤ C.length := by
        calc i * p + p = (i + 1) * p := by ring
          _ ≤ m * p := Nat.mul_le_mul_right p hi
          _ ≤ C.length := hC
      obtain ⟨E, hE, hElen, hEpre, hErow⟩ := row_loop_of_dot ar A B i n p D (v i)
        (hdot i hi) (by rw [hlen]; exact hrowfit) (by rw [hlen]; exact hCsz)
      refine ⟨E, hE, by rw [hElen, hlen], ?_⟩
      intro i' hi' j hj
      rcases Nat.lt_succ_iff_lt_or_eq.mp hi' with hlt | heq
      · rw [hEpre (i' * p + j) (row_major_lt hlt hj)]
        exact hrows i' hlt j hj
      · subst heq
        exact hErow j hj)
  exact ⟨D, hD, hlen, hrows⟩

/-- The three loops of the kernel in exact arithmetic on finite operands: every
entry of the product is written and the length of the buffer stays the same. -/
theorem gemm_loops_spec (A B : List Fp) (m n p : Nat) (C : List Fp)
    (hA : m * n ≤ A.length) (hB : n * p ≤ B.length) (hC : m * p ≤ C.length)
    (hAsz : A.length ≤ 2 ^ 64) (hBsz : B.length ≤ 2 ^ 64) (hCsz : C.length ≤ 2 ^ 64)
    (hfA : ∀ idx, idx < m * n → ∀ x, A[idx]? = some x → x = Fp.fin x.val)
    (hfB : ∀ idx, idx < n * p → ∀ y, B[idx]? = some y → y = Fp.fin y.val) :
    ∃ D, gemm_loops Arith.exact A B m n p C = some D ∧
      D.length = C.length ∧
      (∀ i, i < m → ∀ j, j < p →
        D[i * p + j]? = some (Fp.fin (gemm_entry (A.map Fp.val) (B.map Fp.val) i j n p))) :=
  gemm_loops_of_dot Arith.exact A B m n p C
    (fun i j => Fp.fin (gemm_entry (A.map Fp.val) (B.map Fp.val) i j n p))
    (fun i hi j hj => ⟨_, dot_loop_eq A B i j n p
      (fun _ hk => lt_of_lt_of_le (row_major_lt hi hk) hA)
      (fun _ hk => lt_of_lt_of_le (row_major_lt hk hj) hB) hAsz hBsz
      (fun _ hk => hfA _ (row_major_lt hi hk))
      (fun _ hk => hfB _ (row_major_lt hk hj)), rfl⟩)
    hC hCsz

/-- A buffer of real numbers holds finite values, and their values are the
numbers. -/
theorem map_fin_finite (A : List ℚ) :
    (∀ (idx : Nat) (x : Fp), (A.map Fp.fin)[idx]? = some x → x = Fp.fin x.val) ∧
    (A.map Fp.fin).map Fp.val = A := by
  constructor
  · intro idx x h
    rw [List.getElem?_map] at h
    cases hA : A[idx]? with
    | none => rw [hA] at h; simp at h
    | some q =>
      rw [hA] at h
      simp only [Option.map_some', Option.some.injEq] at h
      rw [← h]
      rfl
  · rw [List.map_map]
    have : Fp.val ∘ Fp.fin = id := rfl
    rw [this, List.map_id]

/-- C1 (GEMM result).  For real matrices `A` of shape `[m,n]` and `B` of shape
`[n,p]` stored row-major in the frames `a` and `b` (the buffers hold the `m * n`
and `n * p` elements), and an output buffer with room for `m * p` elements (all
three buffers inside a 64-bit address space), `execute_matmul` read in exact
arithmetic returns and the output element at index `i*p+j` is
`Σ_{k<n} A[i*n+k] * B[k*p+j]` for every `i < m`, `j < p`; for `n = 0` the sum is
empty and the element is 0. -/
theorem execute_matmul_gemm (out a b : AVFrame) (A B : List ℚ) (m n p : Nat)
    (ha : a.payload = A.map Fp.fin) (hb : b.payload = B.map Fp.fin)
    (hA : m * n ≤ a.payload.length) (hB : n * p ≤ b.payload.length)
    (hC : m * p ≤ out.payload.length)
    (hAsz : a.payload.length ≤ 2 ^ 64) (hBsz : b.payload.length ≤ 2 ^ 64)
    (hCsz : out.payload.length ≤ 2 ^ 64) :
    ∃ res, execute_matmul Arith.exact out a b m n p = some res ∧
      ∀ i, i < m → ∀ j, j < p →
        res.payload[i * p + j]? =
          some (Fp.fin (∑ k ∈ Finset.range n,
            A.getD (i * n + k) 0 * B.getD (k * p + j) 0)) := by
  obtain ⟨D, hD, _, hrows⟩ :=
    gemm_loops_spec a.payload b.payload m n p out.payload hA hB hC hAsz hBsz hCsz
      (fun idx _ x hx => by rw [ha] at hx; exact (map_fin_finite A).1 idx x hx)
      (fun idx _ x hx => by rw [hb] at hx; exact (map_fin_finite B).1 idx x hx)
  refine ⟨_, by rw [execute_matmul, hD], ?_⟩
  intro i hi j hj
  rw [hrows i hi j hj, ha, hb, (map_fin_finite A).2, (map_fin_finite B).2]
  rfl

/-- Scenario 2 evaluated: `[[1,2,3],[4,5,6]] · [[7,8],[9,10],[11,12]]` is
`[[58,64],[139,154]]`, in exact arithmetic and in the arithmetic of the
compiled code, and C1 applied to the same frames. -/
theorem execute_matmul_gemm_witness :
    (execute_matmul Arith.exact gemm_out gemm_a gemm_b 2 3 2).map AVFrame.payload
        = some ([58, 64, 139, 154].map Fp.fin) ∧
    (execute_matmul Arith.ieee gemm_out gemm_a gemm_b 2 3 2).map AVFrame.payload
        = some ([58, 64, 139, 154].map Fp.fin) ∧
    ∃ res, execute_matmul Arith.exact gemm_out gemm_a gemm_b 2 3 2 = some res ∧
      ∀ i, i < 2 → ∀ j, j < 2 →
        res.payload[i * 2 + j]? =
          some (Fp.fin (∑ k ∈ Finset.range 3,
            [1, 2, 3, 4, 5, 6].getD (i * 3 + k) 0 * [7, 8, 9, 10, 11, 12].getD (k * 2 + j) 0)) :=
  ⟨by decide!, by decide!,
   execute_matmul_gemm gemm_out gemm_a gemm_b [1, 2, 3, 4, 5, 6] [7, 8, 9, 10, 11, 12] 2 3 2
     (by decide!) (by decide!) (by decide) (by decide) (by decide) (by decide) (by decide)
     (by decide)⟩

end vf_tensor_matmul

/-! ## Join nodes: reaching the pair test -/

theorem consume_slot_some {slot : Option AVFrame} {l : AVFilterLink} {f : AVFrame}
    (h : (consume_slot slot l).2.1 = some f) : ¬ (consume_slot slot l).1 < 0 := by
  unfold consume_slot at h ⊢
  cases slot with
  | some g => simp
  | none =>
    simp only [ff_inlink_consume_frame] at h ⊢
    by_cases hf : l.fault < 0
    · simp [hf] at h
    · cases hq : l.fifo with
      | nil => simp [hf, hq] at h
      | cons a as => simp [hf, hq]

theorem forward_status_priv {P : Type} (ctx : AVFilterContext P) :
    (FF_FILTER_FORWARD_STATUS_BACK_ALL ctx).priv = ctx.priv := by
  unfold FF_FILTER_FORWARD_STATUS_BACK_ALL; split <;> rfl

theorem forward_status_out0 {P : Type} (ctx : AVFilterContext P) :
    (FF_FILTER_FORWARD_STATUS_BACK_ALL ctx).out0 = ctx.out0 := by
  unfold FF_FILTER_FORWARD_STATUS_BACK_ALL; split <;> rfl

namespace vf_tensor_matmul

/-- With both slots full at the pair test, `activate` is the fire branch. -/
theorem matmul_activate_eq_fire (al : Allocator) (ctx : AVFilterContext TensorMatMulContext)
    (fa fb : AVFrame)
    (ha : (at_pair_test ctx).priv.pending_a = some fa)
    (hb : (at_pair_test ctx).priv.pending_b = some fb) :
    activate al ctx = fire al (at_pair_test ctx) fa fb := by
  unfold at_pair_test at ha hb
  simp only at ha hb
  have h1 := consume_slot_some ha
  have h2 := consume_slot_some hb
  unfold activate
  simp only [h1, h2, if_false, ha, hb]
  congr 1
  unfold at_pair_test
  simp only [ha, hb]

/-! ### The output envelope -/

theorem row_loop_in_bounds (ar : Arith) (A B : List Fp) (i n p : Nat) (U V : List Fp)
    (h : row_loop ar A B i n p U = some V) :
    V.length = U.length ∧ ∀ j, j < p → wrap64 (i * p + j) < U.length := by
  unfold row_loop at h
  obtain ⟨hlen, hran⟩ := forLoop_ran _ (fun u => u.length = U.length) p U V h rfl
    (by
      intro j u v hu hbody
      cases hd : dot_loop ar A B i j n p with
      | none => rw [hd] at hbody; simp at hbody
      | some sum =>
        rw [hd] at hbody
        obtain ⟨_, hv⟩ := store_eq_some hbody
        rw [hv, List.length_set]; exact hu)
  refine ⟨hlen, fun j hj => ?_⟩
  obtain ⟨u, v, hu, hbody⟩ := hran j hj
  cases hd : dot_loop ar A B i j n p with
  | none => rw [hd] at hbody; simp at hbody
  | some sum =>
    rw [hd] at hbody
    obtain ⟨hlt, _⟩ := store_eq_some hbody
    rw [← hu]; exact hlt

/-- When the loops of the kernel have a result, every store was inside the
output buffer. -/
theorem gemm_loops_in_bounds (ar : Arith) (A B : List Fp) (m n p : Nat) (C D : List Fp)
    (h : gemm_loops ar A B m n p C = some D) :
    D.length = C.length ∧ ∀ i, i < m → ∀ j, j < p → wrap64 (i * p + j) < C.length := by
  unfold gemm_loops at h
  obtain ⟨hlen, hran⟩ := forLoop_ran _ (fun u => u.length = C.length) m C D h rfl
    (by
      intro i u v hu hbody
      rw [(row_loop_in_bounds ar A B i n p u v hbody).1]; exact hu)
  refine ⟨hlen, fun i hi j hj => ?_⟩
  obtain ⟨u, v, hu, hbody⟩ := hran i hi
  rw [← hu]
  exact (row_loop_in_bounds ar A B i n p u v hbody).2 j hj

theorem fresh_frame_eq_some {al : Allocator} {size : Nat} {pts : Int} {f : AVFrame}
    (h : fresh_frame al size pts = some f) :
    sizeof_TensorHeader ≤ size ∧ f.hdr = al.junk_hdr ∧ f.pts = pts ∧
      f.payload = (List.range ((size - sizeof_TensorHeader) / sizeof_float)).map al.junk := by
  unfold fresh_frame at h
  split at h
  · simp at h
  · rename_i hsz
    simp only [Option.some.injEq] at h
    subst h
    exact ⟨Nat.le_of_not_lt hsz, rfl, rfl, rfl⟩

/-- A kernel run that has a result on the buffer the node allocated did not
wrap around: the element count is below `2 ^ 62`. -/
theorem no_wrap_of_success (ar : Arith) (al : Allocator) (m n p : Nat) (pts : Int)
    (out0 out fa fb : AVFrame)
    (hf : fresh_frame al
      (wrap64 (sizeof_TensorHeader + wrap64 (wrap64 (m * p) * sizeof_float))) pts = some out0)
    (he : execute_matmul ar out0 fa fb m n p = some out) : m * p < 2 ^ 62 := by
  obtain ⟨hsz, _, _, hpay⟩ := fresh_frame_eq_some hf
  have hL : out0.payload.length < 2 ^ 62 := by
    rw [hpay, List.length_map, List.length_range]
    have := wrap64_lt (sizeof_TensorHeader + wrap64 (wrap64 (m * p) * sizeof_float))
    simp only [sizeof_TensorHeader, sizeof_float] at this ⊢
    omega
  unfold execute_matmul at he
  cases hg : gemm_loops ar fa.payload fb.payload m n p out0.payload with
  | none => rw [hg] at he; simp at he
  | some C =>
    obtain ⟨_, hb⟩ := gemm_loops_in_bounds ar _ _ m n p _ _ hg
    by_contra hcon
    have hbig : out0.payload.length < m * p := by omega
    have hp : 0 < p := by
      rcases Nat.eq_zero_or_pos p with h0 | h0
      · rw [h0] at hbig; simp at hbig
      · exact h0
    have hi : out0.payload.length / p < m := (Nat.div_lt_iff_lt_mul hp).2 hbig
    have hj : out0.payload.length % p < p := Nat.mod_lt _ hp
    have hidx : out0.payload.length / p * p + out0.payload.length % p = out0.payload.length := by
      rw [Nat.mul_comm]; exact Nat.div_add_mod _ _
    have := hb _ hi _ hj
    rw [hidx, wrap64_of_lt (by omega)] at this
    exact Nat.lt_irrefl _ this

theorem execute_matmul_hdr (ar : Arith) (out0 out fa fb : AVFrame) (m n p : Nat)
    (he : execute_matmul ar out0 fa fb m n p = some out) :
    out.hdr.magic = TENSOR_MAGIC ∧ out.hdr.n_dims = 2 ∧ out.hdr.shape 0 = m ∧
      out.hdr.shape 1 = p ∧ out.hdr.n_elem = wrap64 (m * p) ∧
      out.hdr.byte_size = wrap64 (wrap64 (m * p) * sizeof_float) ∧
      out.hdr.dtype = out0.hdr.dtype ∧ out.hdr.flags = out0.hdr.flags ∧
      out.hdr.generation_id = out0.hdr.generation_id ∧ out.pts = out0.pts := by
  unfold execute_matmul at he
  cases hg : gemm_loops ar fa.payload fb.payload m n p out0.payload with
  | none => rw [hg] at he; simp at he
  | some C =>
    rw [hg] at he
    simp only [Option.some.injEq] at he
    subst he
    simp

theorem shape_product_rank2 (h : TensorHeader) (hr : h.n_dims = 2) :
    shape_product h = h.shape 0 * h.shape 1 := by
  unfold shape_product
  rw [hr]
  have : (List.finRange 8).filter (fun i => decide (i.val < 2)) = [0, 1] := by decide
  rw [this]
  simp

/-- A fire of the MatMul node that returns 0 published one frame, produced by
the kernel on the buffer the node allocated. -/
theorem fire_success (al : Allocator) (ctx ctx' : AVFilterContext TensorMatMulContext)
    (fa fb : AVFrame) (h : fire al ctx fa fb = some (0, ctx')) :
    ∃ out0 out,
      fresh_frame al (wrap64 (sizeof_TensorHeader +
        wrap64 (wrap64 (fa.hdr.shape 0 * fb.hdr.shape 1) * sizeof_float)))
        (max fa.pts fb.pts) = some out0 ∧
      execute_matmul Arith.ieee out0 fa fb (fa.hdr.shape 0) (fa.hdr.shape 1) (fb.hdr.shape 1)
        = some out ∧
      ctx' = { ctx with priv := { pending_a := none, pending_b := none },
                        out0 := { ctx.out0 with fifo := ctx.out0.fifo ++ [out] } } ∧
      fa.hdr.magic = TENSOR_MAGIC ∧ fb.hdr.magic = TENSOR_MAGIC ∧
      fa.hdr.n_dims = 2 ∧ fb.hdr.n_dims = 2 ∧ fa.hdr.shape 1 = fb.hdr.shape 0 := by
  unfold fire at h
  simp only [AVERROR, EINVAL, ENOMEM] at h
  split at h
  · simp at h
  rename_i hmagic
  split at h
  · simp at h
  rename_i hrank
  split at h
  · simp at h
  rename_i hshape
  split at h
  · simp at h
  split at h
  · simp at h
  push_neg at hmagic hrank hshape
  cases hf : fresh_frame al (wrap64 (sizeof_TensorHeader +
        wrap64 (wrap64 (fa.hdr.shape 0 * fb.hdr.shape 1) * sizeof_float)))
        (max fa.pts fb.pts) with
  | none => rw [hf] at h; simp at h
  | some out0 =>
    rw [hf] at h
    simp only at h
    cases he : execute_matmul Arith.ieee out0 fa fb (fa.hdr.shape 0) (fa.hdr.shape 1)
        (fb.hdr.shape 1) with
    | none => rw [he] at h; simp at h
    | some out =>
      rw [he] at h
      simp only [ff_filter_frame, Option.some.injEq, Prod.mk.injEq, true_and] at h
      exact ⟨out0, out, rfl, he, h.symm, hmagic.1, hmagic.2, hrank.1, hrank.2, hshape⟩

/-- C2 (MatMul output shape).  Whenever the MatMul node fires on the pair
`(A, B)` held at the pair test and returns 0, it has published exactly one
frame, whose header has `magic = TENSOR_MAGIC`, `n_dims = 2`,
`shape[0] = m = A.shape[0]`, `shape[1] = p = B.shape[1]`, `n_elem = m * p` and
`byte_size = 4 * m * p` as natural numbers, so that `n_elem` is the product of
`shape[0..n_dims)` and `byte_size = 4 * n_elem`. -/
theorem activate_output_header (al : Allocator)
    (ctx ctx' : AVFilterContext TensorMatMulContext) (fa fb : AVFrame)
    (ha : (at_pair_test ctx).priv.pending_a = some fa)
    (hb : (at_pair_test ctx).priv.pending_b = some fb)
    (hfire : activate al ctx = some (0, ctx')) :
    ∃ out, ctx'.out0.fifo = ctx.out0.fifo ++ [out] ∧
      out.hdr.magic = TENSOR_MAGIC ∧ out.hdr.n_dims = 2 ∧
      out.hdr.shape 0 = fa.hdr.shape 0 ∧ out.hdr.shape 1 = fb.hdr.shape 1 ∧
      out.hdr.n_elem = fa.hdr.shape 0 * fb.hdr.shape 1 ∧
      out.hdr.byte_size = 4 * (fa.hdr.shape 0 * fb.hdr.shape 1) ∧
      out.hdr.n_elem = shape_product out.hdr ∧ out.hdr.byte_size = 4 * out.hdr.n_elem := by
  rw [matmul_activate_eq_fire al ctx fa fb ha hb] at hfire
  obtain ⟨out0, out, hf, he, hctx, -⟩ := fire_success al _ ctx' fa fb hfire
  have hnw := no_wrap_of_success _ al _ _ _ _ out0 out fa fb hf he
  obtain ⟨h1, h2, h3, h4, h5, h6, -⟩ := execute_matmul_hdr _ out0 out fa fb _ _ _ he
  have hn : out.hdr.n_elem = fa.hdr.shape 0 * fb.hdr.shape 1 := by
    rw [h5, wrap64_of_lt (by omega)]
  have hbs : out.hdr.byte_size = 4 * (fa.hdr.shape 0 * fb.hdr.shape 1) := by
    have hw : wrap64 (fa.hdr.shape 0 * fb.hdr.shape 1) = fa.hdr.shape 0 * fb.hdr.shape 1 :=
      wrap64_of_lt (by omega)
    rw [h6, hw, wrap64_of_lt (by simp only [sizeof_float]; omega)]
    simp only [sizeof_float]; ring
  refine ⟨out, ?_, h1, h2, h3, h4, hn, hbs, ?_, ?_⟩
  · rw [hctx]
    simp only [at_pair_test, forward_status_out0]
  · rw [shape_product_rank2 out.hdr h2, h3, h4, hn]
  · rw [hbs, hn]

theorem gemm_ctx_eval : activate test_alloc gemm_ctx = some (0, gemm_ctx_after) := by
  decide!

/-- Scenario 2 through the node: the fire returns 0 and C2 applies to it. -/
theorem activate_output_header_witness :
    activate test_alloc gemm_ctx = some (0, gemm_ctx_after) ∧
    ∃ out, gemm_ctx_after.out0.fifo = gemm_ctx.out0.fifo ++ [out] ∧
      out.hdr.magic = TENSOR_MAGIC ∧ out.hdr.n_dims = 2 ∧
      out.hdr.shape 0 = gemm_a.hdr.shape 0 ∧ out.hdr.shape 1 = gemm_b.hdr.shape 1 ∧
      out.hdr.n_elem = gemm_a.hdr.shape 0 * gemm_b.hdr.shape 1 ∧
      out.hdr.byte_size = 4 * (gemm_a.hdr.shape 0 * gemm_b.hdr.shape 1) ∧
      out.hdr.n_elem = shape_product out.hdr ∧ out.hdr.byte_size = 4 * out.hdr.n_elem :=
  ⟨gemm_ctx_eval,
   activate_output_header test_alloc gemm_ctx gemm_ctx_after gemm_a gemm_b rfl rfl gemm_ctx_eval⟩

/-! ### Shape mismatch -/

theorem mismatch_ctx_eval :
    activate test_alloc mismatch_ctx = some (AVERROR EINVAL, mismatch_ctx_after) := by
  decide!

/-- C3 as stated fails on scenario 3 (`A` of shape `[2,3]`, `B` of shape
`[4,2]`): the activation returns `EINVAL` and emits nothing, but both frames
are still in their pending slots afterwards and the output link carries no
status; so no result of that activation has both slots empty and an error
status on the output link. -/
theorem activate_shape_mismatch_counterexample :
    activate test_alloc mismatch_ctx = some (AVERROR EINVAL, mismatch_ctx_after) ∧
    mismatch_ctx_after.priv.pending_a = some gemm_a ∧
    mismatch_ctx_after.priv.pending_b = some mismatch_b ∧
    mismatch_ctx_after.out0.status_in = 0 ∧
    ¬ ∃ ctx', activate test_alloc mismatch_ctx = some (AVERROR EINVAL, ctx') ∧
        ctx'.out0.fifo = mismatch_ctx.out0.fifo ∧
        ctx'.priv.pending_a = none ∧ ctx'.priv.pending_b = none ∧
        ctx'.out0.status_in ≠ 0 := by
  refine ⟨mismatch_ctx_eval, rfl, rfl, rfl, ?_⟩
  rintro ⟨ctx', h, -, -, -, hst⟩
  rw [mismatch_ctx_eval] at h
  simp only [Option.some.injEq, Prod.mk.injEq, true_and] at h
  subst h
  exact hst rfl

/-- C3, amended.  In every activation of the MatMul node in which both pending
slots are full at the pair test and `A.shape[1] ≠ B.shape[0]`, the activation
returns `AVERROR(EINVAL)` and leaves the output link as it was: no frame is
emitted and no status is set on it. -/
theorem activate_shape_mismatch (al : Allocator) (ctx : AVFilterContext TensorMatMulContext)
    (fa fb : AVFrame)
    (ha : (at_pair_test ctx).priv.pending_a = some fa)
    (hb : (at_pair_test ctx).priv.pending_b = some fb)
    (hne : fa.hdr.shape 1 ≠ fb.hdr.shape 0) :
    ∃ ctx', activate al ctx = some (AVERROR EINVAL, ctx') ∧ ctx'.out0 = ctx.out0 := by
  refine ⟨at_pair_test ctx, ?_, ?_⟩
  · rw [matmul_activate_eq_fire al ctx fa fb ha hb]
    unfold fire
    by_cases h1 : fa.hdr.magic ≠ TENSOR_MAGIC ∨ fb.hdr.magic ≠ TENSOR_MAGIC
    · simp only [h1, if_true]
    · by_cases h2 : fa.hdr.n_dims ≠ 2 ∨ fb.hdr.n_dims ≠ 2
      · simp only [h1, h2, if_true, if_false]
      · simp only [h1, h2, hne, if_false, ne_eq, not_false_eq_true, if_true]
  · simp only [at_pair_test, forward_status_out0]

/-- Scenario 3: the amended C3 applied to shapes `[2,3]` and `[4,2]`. -/
theorem activate_shape_mismatch_witness :
    ∃ ctx', activate test_alloc mismatch_ctx = some (AVERROR EINVAL, ctx') ∧
      ctx'.out0 = mismatch_ctx.out0 :=
  activate_shape_mismatch test_alloc mismatch_ctx gemm_a mismatch_b rfl rfl (by decide)

end vf_tensor_matmul

/-! ## Update: gate, SGD step, skip -/

namespace vf_tensor_update

/-- With both slots full at the pair test, `activate` is the fire branch. -/
theorem update_activate_eq_fire (al : Allocator) (ctx : AVFilterContext TensorUpdateContext)
    (fw fg : AVFrame)
    (hw : (at_pair_test ctx).priv.pending_w = some fw)
    (hg : (at_pair_test ctx).priv.pending_g = some fg) :
    activate al ctx = fire al (at_pair_test ctx) fw fg := by
  unfold at_pair_test at hw hg
  simp only at hw hg
  have h1 := consume_slot_some hw
  have h2 := consume_slot_some hg
  unfold activate
  simp only [h1, h2, if_false, hw, hg]
  congr 1
  unfold at_pair_test
  simp only [hw, hg]

/-- The gate reads the mode and the gate value of the context, nothing else. -/
theorem apply_update_congr (s s' : TensorUpdateContext) (G : List Fp) (n : Nat)
    (hm : s.gate_mode = s'.gate_mode) (hv : s.gate_val = s'.gate_val) :
    apply_update s G n = apply_update s' G n := by
  unfold apply_update
  rw [hm, hv]

/-- The update loop writes the `float` difference of `W[i]` and the `float`
product `lr * G[i]` at every `i < n` and leaves the rest of the output buffer
alone. -/
theorem sgd_loop_spec (lr : Fp) (W G : List Fp) (n : Nat) (O : List Fp)
    (hW : n ≤ W.length) (hG : n ≤ G.length) (hO : n ≤ O.length) :
    ∃ O', sgd_loop lr W G n O = some O' ∧ O'.length = O.length ∧
      (∀ i, i < n → O'[i]? =
        some (Fp.sub to_float (W.getD i (Fp.fin 0)) (Fp.mul to_float lr (G.getD i (Fp.fin 0))))) ∧
      (∀ i, n ≤ i → O'[i]? = O[i]?) := by
  unfold sgd_loop
  exact forLoop_inv
    (fun i O =>
      match W[i]?, G[i]? with
      | some x, some y =>
        if i < O.length then some (O.set i (Fp.sub to_float x (Fp.mul to_float lr y))) else none
      | _, _ => none)
    (fun k O' => O'.length = O.length ∧
      (∀ i, i < k → O'[i]? =
        some (Fp.sub to_float (W.getD i (Fp.fin 0)) (Fp.mul to_float lr (G.getD i (Fp.fin 0))))) ∧
      (∀ i, k ≤ i → O'[i]? = O[i]?))
    n O ⟨rfl, fun i hi => absurd hi (Nat.not_lt_zero i), fun _ _ => rfl⟩
    (by
      rintro k hk D ⟨hlen, hdone, hrest⟩
      have h1 : k < W.length := lt_of_lt_of_le hk hW
      have h2 : k < G.length := lt_of_lt_of_le hk hG
      have h3 : k < D.length := by omega
      dsimp only
      rw [List.getElem?_eq_getElem h1, List.getElem?_eq_getElem h2]
      refine ⟨D.set k (Fp.sub to_float W[k] (Fp.mul to_float lr G[k])), by simp [h3],
        by simp [hlen], ?_, ?_⟩
      · intro i hi
        rcases Nat.lt_succ_iff_lt_or_eq.mp hi with hlt | heq
        · rw [List.getElem?_set_ne (by omega)]
          exact hdone i hlt
        · subst heq
          rw [List.getElem?_set_self h3, List.getD_eq_getElem _ _ h1,
            List.getD_eq_getElem _ _ h2]
      · intro i hi
        rw [List.getElem?_set_ne (by omega)]
        exact hrest i (by omega))

theorem wrap64_succ_ne (c : Nat) : wrap64 (c + 1) ≠ c := by
  unfold wrap64
  omega

/-- The gate of `process_update` is open: `apply_update` is 1. -/
theorem process_update_open (s : TensorUpdateContext) (out w g : AVFrame)
    (hW : w.hdr.n_elem ≤ w.payload.length) (hG : w.hdr.n_elem ≤ g.payload.length)
    (hO : w.hdr.n_elem ≤ out.payload.length)
    (hgate : apply_update s g.payload w.hdr.n_elem = some true) :
    ∃ O, sgd_loop s.learning_rate w.payload g.payload w.hdr.n_elem out.payload = some O ∧
      process_update s out w g =
        some ({ s with update_count := wrap64 (s.update_count + 1) },
              { out with payload := O,
                         hdr := { out.hdr with
                           generation_id := wrap64 (w.hdr.generation_id + 1) } }) := by
  obtain ⟨O, hO', -⟩ := sgd_loop_spec s.learning_rate w.payload g.payload w.hdr.n_elem
    out.payload hW hG hO
  refine ⟨O, hO', ?_⟩
  unfold process_update
  simp only [hgate, if_true, hO']

/-- The gate of `process_update` is closed: `apply_update` is 0. -/
theorem process_update_closed (s : TensorUpdateContext) (out w g : AVFrame)
    (hgate : apply_update s g.payload w.hdr.n_elem = some false) :
    process_update s out w g =
      match memcpy_elems out.payload w.payload w.hdr.byte_size with
      | none => none
      | some O =>
        some ({ s with skip_count := wrap64 (s.skip_count + 1) },
              { out with payload := O,
                         hdr := { out.hdr with generation_id := w.hdr.generation_id } }) := by
  unfold process_update
  simp only [hgate, Bool.false_eq_true, if_false]

theorem fresh_frame_of_le (al : Allocator) (size : Nat) (pts : Int)
    (h : sizeof_TensorHeader ≤ size) :
    fresh_frame al size pts =
      some { hdr := al.junk_hdr,
             payload := (List.range ((size - sizeof_TensorHeader) / sizeof_float)).map al.junk,
             pts := pts, writable := true } := by
  unfold fresh_frame
  rw [if_neg (Nat.not_lt.mpr h)]

theorem at_pair_test_priv (ctx : AVFilterContext TensorUpdateContext) :
    (at_pair_test ctx).priv.learning_rate = ctx.priv.learning_rate ∧
    (at_pair_test ctx).priv.gate_mode = ctx.priv.gate_mode ∧
    (at_pair_test ctx).priv.gate_val = ctx.priv.gate_val ∧
    (at_pair_test ctx).priv.update_count = ctx.priv.update_count ∧
    (at_pair_test ctx).priv.skip_count = ctx.priv.skip_count ∧
    (at_pair_test ctx).out0 = ctx.out0 := by
  simp only [at_pair_test, forward_status_priv, forward_status_out0, and_self]

/-- The fire branch of the Update node when both allocations succeed and the
weights envelope is consistent: the output buffer has exactly `n_elem` elements
and starts as a copy of the weights header. -/
theorem fire_eq_process (al : Allocator) (ctx : AVFilterContext TensorUpdateContext)
    (fw fg : AVFrame) (hfo : al.frame_ok = true) (hbo : al.buffer_ok = true)
    (hbytes : fw.hdr.byte_size = sizeof_float * fw.hdr.n_elem)
    (hfit : sizeof_TensorHeader + fw.hdr.byte_size < 2 ^ 64) :
    fire al ctx fw fg =
      match process_update ctx.priv
          { hdr := fw.hdr, payload := (List.range fw.hdr.n_elem).map al.junk,
            pts := fw.pts, writable := true } fw fg with
      | none => none
      | some (s, out) =>
        some (0, { ctx with priv := { s with pending_w := none, pending_g := none },
                            out0 := { ctx.out0 with fifo := ctx.out0.fifo ++ [out] } }) := by
  unfold fire
  simp only [hfo, hbo, Bool.not_true, Bool.false_eq_true, if_false]
  rw [wrap64_of_lt hfit, fresh_frame_of_le al _ _ (Nat.le_add_right _ _)]
  have hn : (sizeof_TensorHeader + fw.hdr.byte_size - sizeof_TensorHeader) / sizeof_float
      = fw.hdr.n_elem := by
    rw [Nat.add_sub_cancel_left, hbytes]
    exact Nat.mul_div_cancel_left _ (by decide)
  simp only [hn]
  rfl

/-- C4 (Update, gate open).  For a weights frame `W` with a consistent envelope
whose buffer holds its `n_elem` elements, and a gradients frame `G` whose buffer
holds as many (as it does when the shapes are identical), whenever the gate
decides to update (`apply_update` is 1) the node returns 0 and publishes one
frame with `out[i] = W[i] - lr * G[i]` for every `i < W.n_elem`, the product and
the difference being the `float` operations of the code, each rounded to
nearest; where neither operation rounds, `out[i]` is the real number
`W[i] - lr * G[i]`.  The header is `W`'s header except that `generation_id` is
`W.generation_id + 1` (in `uint64_t`); `update_count` goes up by one (in
`uint64_t`) and `skip_count` is unchanged. -/
theorem activate_update_applied (al : Allocator) (ctx : AVFilterContext TensorUpdateContext)
    (fw fg : AVFrame)
    (hw : (at_pair_test ctx).priv.pending_w = some fw)
    (hg : (at_pair_test ctx).priv.pending_g = some fg)
    (hfo : al.frame_ok = true) (hbo : al.buffer_ok = true)
    (hbytes : fw.hdr.byte_size = sizeof_float * fw.hdr.n_elem)
    (hfit : sizeof_TensorHeader + fw.hdr.byte_size < 2 ^ 64)
    (hW : fw.hdr.n_elem ≤ fw.payload.length) (hG : fw.hdr.n_elem ≤ fg.payload.length)
    (hgate : apply_update ctx.priv fg.payload fw.hdr.n_elem = some true) :
    ∃ out ctx', activate al ctx = some (0, ctx') ∧
      ctx'.out0.fifo = ctx.out0.fifo ++ [out] ∧
      (∀ i, i < fw.hdr.n_elem →
        out.payload[i]? =
          some (Fp.sub to_float (fw.payload.getD i (Fp.fin 0))
            (Fp.mul to_float ctx.priv.learning_rate (fg.payload.getD i (Fp.fin 0))))) ∧
      (∀ (i : Nat) (x l y : ℚ), i < fw.hdr.n_elem →
        fw.payload[i]? = some (Fp.fin x) → ctx.priv.learning_rate = Fp.fin l →
        fg.payload[i]? = some (Fp.fin y) →
        to_float (l * y) = Fp.fin (l * y) → to_float (x - l * y) = Fp.fin (x - l * y) →
        out.payload[i]? = some (Fp.fin (x - l * y))) ∧
      out.hdr = { fw.hdr with generation_id := wrap64 (fw.hdr.generation_id + 1) } ∧
      ctx'.priv.update_count = wrap64 (ctx.priv.update_count + 1) ∧
      ctx'.priv.skip_count = ctx.priv.skip_count := by
  obtain ⟨hlr, hmode, hval, huc, hsc, hout⟩ := at_pair_test_priv ctx
  rw [update_activate_eq_fire al ctx fw fg hw hg, fire_eq_process al _ fw fg hfo hbo hbytes hfit]
  obtain ⟨O, hO, hpu⟩ := process_update_open (at_pair_test ctx).priv
    { hdr := fw.hdr, payload := (List.range fw.hdr.n_elem).map al.junk,
      pts := fw.pts, writable := true } fw fg hW hG (by simp)
    (by rw [apply_update_congr _ ctx.priv _ _ hmode hval]; exact hgate)
  obtain ⟨O', hO', -, hvals, -⟩ := sgd_loop_spec (at_pair_test ctx).priv.learning_rate
    fw.payload fg.payload fw.hdr.n_elem ((List.range fw.hdr.n_elem).map al.junk) hW hG (by simp)
  have hOO : O = O' := by
    have := hO.symm.trans hO'
    simpa using this
  rw [hpu]
  have hpay : ∀ i, i < fw.hdr.n_elem → O[i]? =
      some (Fp.sub to_float (fw.payload.getD i (Fp.fin 0))
        (Fp.mul to_float ctx.priv.learning_rate (fg.payload.getD i (Fp.fin 0)))) := by
    intro i hi
    rw [hOO, hvals i hi, hlr]
  refine ⟨{ hdr := { fw.hdr with generation_id := wrap64 (fw.hdr.generation_id + 1) },
            payload := O, pts := fw.pts, writable := true }, _, rfl, ?_, hpay, ?_, rfl, ?_, ?_⟩
  · simp only [hout]
  · intro i x l y hi hx hl hy h1 h2
    show O[i]? = _
    rw [hpay i hi, hl, List.getD_eq_getElem?_getD, List.getD_eq_getElem?_getD, hx, hy]
    simp only [Option.getD_some, Fp.sub, Fp.neg, Fp.mul, Fp.add, h1]
    rw [← sub_eq_add_neg, h2]
  · simp only [huc]
  · simp only [hsc]

theorem upd_above_eval :
    activate test_alloc (upd_ctx upd_g_above (1 / 2))
      = some (0, upd_ctx_after (1 / 2) 1 0 upd_result_above) := by
  decide!

/-- Scenario 5: `W=[1,1,1,1]`, `G=[1,0,0,0]`, `gate=0.5`, `lr=0.1f` gives
`[0.9f,1,1,1]` (`0.9f` is `15099494 / 2^24`, the `float` nearest to `0.9` and
to `1 - 0.1f`) at generation `W.gen + 1` with `update_count = 1`, and C4
applied to the same node. -/
theorem activate_update_applied_witness :
    activate test_alloc (upd_ctx upd_g_above (1 / 2))
      = some (0, upd_ctx_after (1 / 2) 1 0 upd_result_above) ∧
    upd_result_above.payload = [15099494 / 2 ^ 24, 1, 1, 1].map Fp.fin ∧
    to_float (9 / 10) = Fp.fin (15099494 / 2 ^ 24) ∧
    upd_result_above.hdr.generation_id = upd_w.hdr.generation_id + 1 ∧
    ∃ out ctx', activate test_alloc (upd_ctx upd_g_above (1 / 2)) = some (0, ctx') ∧
      ctx'.out0.fifo = (upd_ctx upd_g_above (1 / 2)).out0.fifo ++ [out] ∧
      (∀ i, i < upd_w.hdr.n_elem →
        out.payload[i]? =
          some (Fp.sub to_float (upd_w.payload.getD i (Fp.fin 0))
            (Fp.mul to_float (upd_ctx upd_g_above (1 / 2)).priv.learning_rate
              (upd_g_above.payload.getD i (Fp.fin 0))))) ∧
      (∀ (i : Nat) (x l y : ℚ), i < upd_w.hdr.n_elem →
        upd_w.payload[i]? = some (Fp.fin x) →
        (upd_ctx upd_g_above (1 / 2)).priv.learning_rate = Fp.fin l →
        upd_g_above.payload[i]? = some (Fp.fin y) →
        to_float (l * y) = Fp.fin (l * y) → to_float (x - l * y) = Fp.fin (x - l * y) →
        out.payload[i]? = some (Fp.fin (x - l * y))) ∧
      out.hdr = { upd_w.hdr with generation_id := wrap64 (upd_w.hdr.generation_id + 1) } ∧
      ctx'.priv.update_count = wrap64 ((upd_ctx upd_g_above (1 / 2)).priv.update_count + 1) ∧
      ctx'.priv.skip_count = (upd_ctx upd_g_above (1 / 2)).priv.skip_count :=
  ⟨upd_above_eval, rfl, by decide!, rfl,
   activate_update_applied test_alloc (upd_ctx upd_g_above (1 / 2)) upd_w upd_g_above
     rfl rfl rfl rfl rfl (by decide) (by decide) (by decide) (by decide!)⟩

theorem memcpy_elems_exact (dst src : List Fp) (n : Nat)
    (hs : n ≤ src.length) (hd : dst.length = n) :
    memcpy_elems dst src (sizeof_float * n) = some (src.take n) := by
  unfold memcpy_elems
  have h1 : sizeof_float * n ≤ sizeof_float * src.length := Nat.mul_le_mul_left _ hs
  have h2 : sizeof_float * n ≤ sizeof_float * dst.length := by rw [hd]
  have h3 : sizeof_float * n % sizeof_float = 0 := Nat.mul_mod_right _ _
  have h4 : sizeof_float * n / sizeof_float = n := Nat.mul_div_cancel_left _ (by decide)
  rw [if_pos ⟨h1, h2, h3⟩, h4, List.drop_of_length_le (by omega), List.append_nil]

/-- C5 (Update skip is a no-op).  For a weights frame `W` with a consistent
envelope whose buffer holds its `n_elem` elements, and a gradients frame `G`,
whenever the gate rejects the update (`apply_update` is 0: threshold mode and
the test `sqrt(sum_sq) < gate_val` of the code true) the node returns 0 and
publishes one frame whose payload is `W`'s payload on all `W.n_elem` elements
and whose header is `W`'s header, `generation_id` included; `skip_count` goes up
by one (in `uint64_t`) and `update_count` is unchanged. -/
theorem activate_update_skipped (al : Allocator) (ctx : AVFilterContext TensorUpdateContext)
    (fw fg : AVFrame)
    (hw : (at_pair_test ctx).priv.pending_w = some fw)
    (hg : (at_pair_test ctx).priv.pending_g = some fg)
    (hfo : al.frame_ok = true) (hbo : al.buffer_ok = true)
    (hbytes : fw.hdr.byte_size = sizeof_float * fw.hdr.n_elem)
    (hfit : sizeof_TensorHeader + fw.hdr.byte_size < 2 ^ 64)
    (hW : fw.hdr.n_elem ≤ fw.payload.length)
    (hgate : apply_update ctx.priv fg.payload fw.hdr.n_elem = some false) :
    ∃ out ctx', activate al ctx = some (0, ctx') ∧
      ctx'.out0.fifo = ctx.out0.fifo ++ [out] ∧
      out.payload = fw.payload.take fw.hdr.n_elem ∧
      (∀ i, i < fw.hdr.n_elem → out.payload[i]? = fw.payload[i]?) ∧
      out.hdr = fw.hdr ∧
      ctx'.priv.skip_count = wrap64 (ctx.priv.skip_count + 1) ∧
      ctx'.priv.update_count = ctx.priv.update_count := by
  obtain ⟨-, hmode, hval, huc, hsc, hout⟩ := at_pair_test_priv ctx
  rw [update_activate_eq_fire al ctx fw fg hw hg, fire_eq_process al _ fw fg hfo hbo hbytes hfit,
    process_update_closed (at_pair_test ctx).priv _ fw fg
      (by rw [apply_update_congr _ ctx.priv _ _ hmode hval]; exact hgate)]
  have hmc : memcpy_elems ((List.range fw.hdr.n_elem).map al.junk) fw.payload fw.hdr.byte_size
      = some (fw.payload.take fw.hdr.n_elem) := by
    rw [hbytes]
    exact memcpy_elems_exact _ fw.payload fw.hdr.n_elem hW (by simp)
  simp only [hmc]
  refine ⟨{ hdr := fw.hdr, payload := fw.payload.take fw.hdr.n_elem, pts := fw.pts,
            writable := true }, _, rfl, ?_, rfl, ?_, rfl, ?_, ?_⟩
  · simp only [hout]
  · intro i hi
    simp only [List.getElem?_take, hi, if_true]
  · simp only [hsc]
  · simp only [huc]

theorem upd_below_eval :
    activate test_alloc (upd_ctx upd_g_below (1 / 100))
      = some (0, upd_ctx_after (1 / 100) 0 1 upd_result_below) := by
  decide!

/-- Scenario 4: `W=[1,1,1,1]`, `G=[0.001f,…]`, `gate=0.01f`, `lr=0.1f` gives
payload `[1,1,1,1]` at `W`'s generation with `skip_count = 1`,
`update_count = 0`, and C5 applied to the same node. -/
theorem activate_update_skipped_witness :
    activate test_alloc (upd_ctx upd_g_below (1 / 100))
      = some (0, upd_ctx_after (1 / 100) 0 1 upd_result_below) ∧
    upd_result_below.payload = [1, 1, 1, 1].map Fp.fin ∧
    upd_result_below.hdr.generation_id = upd_w.hdr.generation_id ∧
    ∃ out ctx', activate test_alloc (upd_ctx upd_g_below (1 / 100)) = some (0, ctx') ∧
      ctx'.out0.fifo = (upd_ctx upd_g_below (1 / 100)).out0.fifo ++ [out] ∧
      out.payload = upd_w.payload.take upd_w.hdr.n_elem ∧
      (∀ i, i < upd_w.hdr.n_elem → out.payload[i]? = upd_w.payload[i]?) ∧
      out.hdr = upd_w.hdr ∧
      ctx'.priv.skip_count = wrap64 ((upd_ctx upd_g_below (1 / 100)).priv.skip_count + 1) ∧
      ctx'.priv.update_count = (upd_ctx upd_g_below (1 / 100)).priv.update_count :=
  ⟨upd_below_eval, by decide!, rfl,
   activate_update_skipped test_alloc (upd_ctx upd_g_below (1 / 100)) upd_w upd_g_below
     rfl rfl rfl rfl rfl (by decide) (by decide) (by decide!)⟩

/-- C7, the code at the failing input.  The weights of the scenarios (rank 2,
shape `[2,2]`, dtype 0, good magic) are paired with gradients that have a bad
magic, rank 9 (above the bound 8), another dtype and another shape; the Update
node returns 0 and publishes an updated frame instead of failing with
`AVERROR(EINVAL)`. -/
theorem activate_no_precondition_check :
    upd_g_bad.hdr.magic ≠ TENSOR_MAGIC ∧ 8 < upd_g_bad.hdr.n_dims ∧
    upd_g_bad.hdr.n_dims ≠ upd_w.hdr.n_dims ∧ upd_g_bad.hdr.dtype ≠ upd_w.hdr.dtype ∧
    upd_g_bad.hdr.shape ≠ upd_w.hdr.shape ∧
    activate test_alloc (upd_ctx upd_g_bad (1 / 2))
      = some (0, upd_ctx_after (1 / 2) 1 0 upd_result_bad) ∧
    (upd_ctx_after (1 / 2) 1 0 upd_result_bad).out0.fifo = [upd_result_bad] ∧
    ¬ ∃ ctx', activate test_alloc (upd_ctx upd_g_bad (1 / 2)) = some (AVERROR EINVAL, ctx') := by
  have heval : activate test_alloc (upd_ctx upd_g_bad (1 / 2))
      = some (0, upd_ctx_after (1 / 2) 1 0 upd_result_bad) := by
    decide!
  refine ⟨by decide, by decide, by decide, by decide, by decide, heval, rfl, ?_⟩
  rintro ⟨ctx', h⟩
  rw [heval] at h
  simp only [Option.some.injEq, Prod.mk.injEq] at h
  exact absurd h.1 (by decide)

end vf_tensor_update

/-! ## ReLU -/

namespace vf_tensor_relu

/-- The statement `if (x < 0.0f) x = 0.0f` computes the ReLU of the
specification. -/
theorem relu_elem (v : Fp) : (if Fp.lt v (Fp.fin 0) = true then Fp.fin 0 else v) = relu v := by
  cases v with
  | fin q =>
    simp only [Fp.lt, relu, decide_eq_true_eq]
    by_cases h : q < 0
    · rw [if_pos h, max_eq_left (le_of_lt h)]
    · rw [if_neg h, max_eq_right (not_lt.mp h)]
  | inf s => cases s <;> rfl
  | nan => rfl

theorem relu_relu (v : Fp) : relu (relu v) = relu v := by
  cases v with
  | fin q => simp only [relu, max_eq_right (le_max_left _ _)]
  | inf s => cases s <;> simp [relu]
  | nan => rfl

/-- The kernel loop clamps the first `n` elements at 0 and leaves the rest of
the buffer alone. -/
theorem relu_loop_spec (n : Nat) (x : List Fp) (hn : n ≤ x.length) :
    ∃ y, relu_loop n x = some y ∧ y.length = x.length ∧
      (∀ i, i < n → y[i]? = some (relu (x.getD i (Fp.fin 0)))) ∧
      (∀ i, n ≤ i → y[i]? = x[i]?) := by
  unfold relu_loop
  exact forLoop_inv
    (fun (i : Nat) (x : List Fp) =>
      match x[i]? with
      | some v => if Fp.lt v (Fp.fin 0) then some (x.set i (Fp.fin 0)) else some x
      | none => none)
    (fun k y => y.length = x.length ∧
      (∀ i, i < k → y[i]? = some (relu (x.getD i (Fp.fin 0)))) ∧
      (∀ i, k ≤ i → y[i]? = x[i]?))
    n x ⟨rfl, fun i hi => absurd hi (Nat.not_lt_zero i), fun _ _ => rfl⟩
    (by
      rintro k hk y ⟨hlen, hdone, hrest⟩
      have h1 : k < x.length := lt_of_lt_of_le hk hn
      have h2 : k < y.length := by omega
      have hyk : y[k]? = some x[k] := by
        rw [hrest k (Nat.le_refl k), List.getElem?_eq_getElem h1]
      have hre := relu_elem x[k]
      dsimp only
      rw [hyk]
      by_cases hneg : Fp.lt x[k] (Fp.fin 0) = true
      · rw [if_pos hneg] at hre
        refine ⟨y.set k (Fp.fin 0), by simp [hneg], by simp [hlen], ?_, ?_⟩
        · intro i hi
          rcases Nat.lt_succ_iff_lt_or_eq.mp hi with hlt | heq
          · rw [List.getElem?_set_ne (by omega)]
            exact hdone i hlt
          · subst heq
            rw [List.getElem?_set_self h2, List.getD_eq_getElem _ _ h1, hre]
        · intro i hi
          rw [List.getElem?_set_ne (by omega)]
          exact hrest i (by omega)
      · rw [if_neg hneg] at hre
        refine ⟨y, by simp [hneg], hlen, ?_, ?_⟩
        · intro i hi
          rcases Nat.lt_succ_iff_lt_or_eq.mp hi with hlt | heq
          · exact hdone i hlt
          · subst heq
            rw [hyk, List.getD_eq_getElem _ _ h1, ← hre]
        · intro i hi
          exact hrest i (by omega))

/-- The ReLU node on a frame that can be made writable, has the right magic and
holds its `n_elem` elements: the frame is forwarded, clamped, one generation
later. -/
theorem filter_frame_ok (al : Allocator) (outlink : AVFilterLink) (frame : AVFrame)
    (hmw : frame.writable = true ∨ (al.frame_ok = true ∧ al.buffer_ok = true))
    (hmagic : frame.hdr.magic = TENSOR_MAGIC)
    (hlen : frame.hdr.n_elem ≤ frame.payload.length) :
    ∃ y, relu_loop frame.hdr.n_elem frame.payload = some y ∧
      filter_frame al outlink frame =
        some { ret := 0,
               outlink := { outlink with fifo := outlink.fifo ++
                 [{ hdr := { frame.hdr with
                      generation_id := wrap64 (frame.hdr.generation_id + 1) },
                    payload := y, pts := frame.pts, writable := true }] },
               freed := none } := by
  obtain ⟨y, hy, -⟩ := relu_loop_spec frame.hdr.n_elem frame.payload hlen
  refine ⟨y, hy, ?_⟩
  unfold filter_frame av_frame_make_writable
  by_cases hwr : frame.writable = true
  · simp only [hwr, if_true, lt_self_iff_false, if_false, hmagic, ne_eq, not_true_eq_false,
      hy, ff_filter_frame]
  · obtain ⟨hfo, hbo⟩ := hmw.resolve_left hwr
    simp only [hwr, hfo, hbo, Bool.and_self, if_true, if_false, lt_self_iff_false, hmagic,
      ne_eq, not_true_eq_false, hy, ff_filter_frame, Bool.false_eq_true]

/-- C8 (ReLU kernel).  For every writable frame whose header magic is
`TENSOR_MAGIC` and whose buffer holds its `n_elem` elements, `filter_frame`
returns 0 and forwards one frame whose payload element `i` is `max(0, x[i])`
for every `i < n_elem` (a NaN stays a NaN, as the specification says), whose
`generation_id` is the input's plus 1 (in `uint64_t`) and whose other header
fields are those of the input. -/
theorem filter_frame_relu (al : Allocator) (outlink : AVFilterLink) (frame : AVFrame)
    (hwr : frame.writable = true)
    (hmagic : frame.hdr.magic = TENSOR_MAGIC)
    (hlen : frame.hdr.n_elem ≤ frame.payload.length) :
    ∃ out, filter_frame al outlink frame =
        some { ret := 0, outlink := { outlink with fifo := outlink.fifo ++ [out] },
               freed := none } ∧
      (∀ i, i < frame.hdr.n_elem →
        out.payload[i]? = some (relu (frame.payload.getD i (Fp.fin 0)))) ∧
      (∀ (i : Nat) (q : ℚ), i < frame.hdr.n_elem → frame.payload[i]? = some (Fp.fin q) →
        out.payload[i]? = some (Fp.fin (max 0 q))) ∧
      out.hdr = { frame.hdr with generation_id := wrap64 (frame.hdr.generation_id + 1) } := by
  obtain ⟨y, hy, hff⟩ := filter_frame_ok al outlink frame (Or.inl hwr) hmagic hlen
  obtain ⟨y', hy', -, hvals, -⟩ := relu_loop_spec frame.hdr.n_elem frame.payload hlen
  have hyy : y = y' := by
    have := hy.symm.trans hy'
    simpa using this
  refine ⟨_, hff, fun i hi => by simp only [hyy]; exact hvals i hi, ?_, rfl⟩
  intro i q hi hq
  show y[i]? = _
  rw [hyy, hvals i hi, List.getD_eq_getElem?_getD, hq]
  rfl

theorem relu_in_eval :
    filter_frame test_alloc (AVFilterLink.idle []) relu_in
      = some { ret := 0, outlink := AVFilterLink.idle [relu_out], freed := none } := by
  decide!

/-- Scenario 1: shape `[2,3]`, payload `[-1,0,1,-2,3,-4]`, generation 5 gives
payload `[0,0,1,0,3,0]`, generation 6, and C8 applied to the same frame. -/
theorem filter_frame_relu_witness :
    filter_frame test_alloc (AVFilterLink.idle []) relu_in
      = some { ret := 0, outlink := AVFilterLink.idle [relu_out], freed := none } ∧
    relu_in.payload = [-1, 0, 1, -2, 3, -4].map Fp.fin ∧
    relu_out.payload = [0, 0, 1, 0, 3, 0].map Fp.fin ∧ relu_out.hdr.generation_id = 6 ∧
    ∃ out, filter_frame test_alloc (AVFilterLink.idle []) relu_in =
        some { ret := 0,
               outlink := { AVFilterLink.idle [] with
                 fifo := (AVFilterLink.idle []).fifo ++ [out] },
               freed := none } ∧
      (∀ i, i < relu_in.hdr.n_elem →
        out.payload[i]? = some (relu (relu_in.payload.getD i (Fp.fin 0)))) ∧
      (∀ (i : Nat) (q : ℚ), i < relu_in.hdr.n_elem → relu_in.payload[i]? = some (Fp.fin q) →
        out.payload[i]? = some (Fp.fin (max 0 q))) ∧
      out.hdr = { relu_in.hdr with generation_id := wrap64 (relu_in.hdr.generation_id + 1) } :=
  ⟨relu_in_eval, by decide!, by decide!, rfl,
   filter_frame_relu test_alloc (AVFilterLink.idle []) relu_in rfl rfl (by decide)⟩

/-! ### Envelope validation -/

theorem relu_invalid_eval :
    filter_frame test_alloc (AVFilterLink.idle []) relu_invalid
      = some { ret := 0, outlink := AVFilterLink.idle [relu_invalid_out], freed := none } := by
  decide!

theorem relu_shared_bad_eval :
    filter_frame failing_alloc (AVFilterLink.idle []) relu_shared_bad
      = some { ret := AVERROR ENOMEM, outlink := AVFilterLink.idle [],
               freed := some relu_shared_bad } := by
  decide!

/-- C9 as stated fails.  A writable frame with the right magic but rank 9,
`n_elem` different from the product of its shape and `byte_size ≠ 4 * n_elem` is
not valid, yet the ReLU node returns 0, applies the kernel and forwards the
frame.  And a shared frame with a bad magic, when the private copy cannot be
allocated, is released with `AVERROR(ENOMEM)`, not `AVERROR(EINVAL)`. -/
theorem filter_frame_validation_counterexample :
    envelope_valid relu_invalid.hdr = false ∧
    8 < relu_invalid.hdr.n_dims ∧
    relu_invalid.hdr.n_elem ≠ shape_product relu_invalid.hdr ∧
    relu_invalid.hdr.byte_size ≠ sizeof_float * relu_invalid.hdr.n_elem ∧
    filter_frame test_alloc (AVFilterLink.idle []) relu_invalid
      = some { ret := 0, outlink := AVFilterLink.idle [relu_invalid_out], freed := none } ∧
    relu_invalid_out.payload ≠ relu_invalid.payload ∧
    (¬ ∃ r, filter_frame test_alloc (AVFilterLink.idle []) relu_invalid = some r ∧
        r.ret = AVERROR EINVAL) ∧
    envelope_valid relu_shared_bad.hdr = false ∧
    filter_frame failing_alloc (AVFilterLink.idle []) relu_shared_bad
      = some { ret := AVERROR ENOMEM, outlink := AVFilterLink.idle [],
               freed := some relu_shared_bad } ∧
    AVERROR ENOMEM ≠ AVERROR EINVAL := by
  refine ⟨by decide, by decide, by decide, by decide, relu_invalid_eval, ?_, ?_, by decide,
    relu_shared_bad_eval, by decide⟩
  · decide!
  · rintro ⟨r, hr, hret⟩
    rw [relu_invalid_eval] at hr
    simp only [Option.some.injEq] at hr
    subst hr
    exact absurd hret (by decide)

/-- C9, amended.  Once the frame is writable (the make-writable step returned
no error), a frame whose magic is not `TENSOR_MAGIC` is released with
`AVERROR(EINVAL)`: nothing is forwarded and the released frame has its payload
and header untouched.  A frame whose magic is `TENSOR_MAGIC` is never answered
with `AVERROR(EINVAL)`, whatever the rest of its envelope says. -/
theorem filter_frame_validation (al : Allocator) (outlink : AVFilterLink) (frame : AVFrame) :
    (frame.hdr.magic ≠ TENSOR_MAGIC → ¬ (av_frame_make_writable al frame).1 < 0 →
      ∃ f, filter_frame al outlink frame =
          some { ret := AVERROR EINVAL, outlink := outlink, freed := some f } ∧
        f.payload = frame.payload ∧ f.hdr = frame.hdr) ∧
    (frame.hdr.magic = TENSOR_MAGIC →
      ∀ r, filter_frame al outlink frame = some r → r.ret ≠ AVERROR EINVAL) := by
  have hmwf : (av_frame_make_writable al frame).2.payload = frame.payload ∧
      (av_frame_make_writable al frame).2.hdr = frame.hdr := by
    unfold av_frame_make_writable
    split
    · exact ⟨rfl, rfl⟩
    · split <;> exact ⟨rfl, rfl⟩
  have hmwr : (av_frame_make_writable al frame).1 = 0 ∨
      (av_frame_make_writable al frame).1 = AVERROR ENOMEM := by
    unfold av_frame_make_writable
    split
    · exact Or.inl rfl
    · split
      · exact Or.inl rfl
      · exact Or.inr rfl
  constructor
  · intro hmagic hret
    refine ⟨(av_frame_make_writable al frame).2, ?_, hmwf.1, hmwf.2⟩
    unfold filter_frame
    simp only [hret, if_false, hmwf.2, hmagic, ne_eq, not_false_eq_true, if_true]
  · intro hmagic r hr
    unfold filter_frame at hr
    simp only [hmwf.2, hmagic, ne_eq, not_true_eq_false, if_false] at hr
    split at hr
    · simp only [Option.some.injEq] at hr
      subst hr
      rename_i hneg
      rcases hmwr with h0 | h12
      · rw [h0] at hneg; exact absurd hneg (by decide)
      · simp only [h12]; decide
    · split at hr
      · simp at hr
      · simp only [ff_filter_frame, Option.some.injEq] at hr
        subst hr
        show (0 : Int) ≠ AVERROR EINVAL
        decide

/-- The amended C9 on a writable frame with a bad magic, and on the frame of
scenario 1. -/
theorem filter_frame_validation_witness :
    (∃ f, filter_frame test_alloc (AVFilterLink.idle []) relu_bad_magic =
        some { ret := AVERROR EINVAL, outlink := AVFilterLink.idle [], freed := some f } ∧
      f.payload = relu_bad_magic.payload ∧ f.hdr = relu_bad_magic.hdr) ∧
    (∀ r, filter_frame test_alloc (AVFilterLink.idle []) relu_in = some r →
      r.ret ≠ AVERROR EINVAL) :=
  ⟨(filter_frame_validation test_alloc (AVFilterLink.idle []) relu_bad_magic).1
      (by decide) (by decide),
   (filter_frame_validation test_alloc (AVFilterLink.idle []) relu_in).2 rfl⟩

/-! ### Idempotence -/

theorem wrap64_succ_succ (g : Nat) : wrap64 (wrap64 (g + 1) + 1) = wrap64 (g + 2) := by
  unfold wrap64
  omega

/-- C10 (ReLU idempotence).  For every frame that can be made writable, has the
right magic and holds its `n_elem` elements, the ReLU node forwards a frame
`f1`, the ReLU node applied to `f1` forwards a frame `f2`, and `f2` has the
payload of `f1` and the header of `f1` except that its `generation_id` is the
input's plus 2 where that of `f1` is the input's plus 1 (in `uint64_t`). -/
theorem filter_frame_twice (al1 al2 : Allocator) (l1 l2 : AVFilterLink) (frame : AVFrame)
    (hmw : frame.writable = true ∨ (al1.frame_ok = true ∧ al1.buffer_ok = true))
    (hmagic : frame.hdr.magic = TENSOR_MAGIC)
    (hlen : frame.hdr.n_elem ≤ frame.payload.length) :
    ∃ f1 f2,
      filter_frame al1 l1 frame =
        some { ret := 0, outlink := { l1 with fifo := l1.fifo ++ [f1] }, freed := none } ∧
      filter_frame al2 l2 f1 =
        some { ret := 0, outlink := { l2 with fifo := l2.fifo ++ [f2] }, freed := none } ∧
      f2.payload = f1.payload ∧
      f1.hdr = { frame.hdr with generation_id := wrap64 (frame.hdr.generation_id + 1) } ∧
      f2.hdr = { frame.hdr with generation_id := wrap64 (frame.hdr.generation_id + 2) } ∧
      f2.pts = f1.pts := by
  obtain ⟨y, hy, hff⟩ := filter_frame_ok al1 l1 frame hmw hmagic hlen
  obtain ⟨y', hy', hylen, hyvals, hyrest⟩ :=
    relu_loop_spec frame.hdr.n_elem frame.payload hlen
  have hyy : y = y' := by
    have := hy.symm.trans hy'
    simpa using this
  subst hyy
  have hlen1 : frame.hdr.n_elem ≤ y.length := by rw [hylen]; exact hlen
  obtain ⟨z, hz, hff2⟩ := filter_frame_ok al2 l2
    { hdr := { frame.hdr with generation_id := wrap64 (frame.hdr.generation_id + 1) },
      payload := y, pts := frame.pts, writable := true }
    (Or.inl rfl) hmagic hlen1
  obtain ⟨z', hz', hzlen, hzvals, hzrest⟩ := relu_loop_spec frame.hdr.n_elem y hlen1
  have hzz : z = z' := by
    have := hz.symm.trans hz'
    simpa using this
  subst hzz
  have hpay : z = y := by
    apply List.ext_getElem?
    intro i
    by_cases hi : i < frame.hdr.n_elem
    · rw [hzvals i hi, hyvals i hi]
      have hyi : y.getD i (Fp.fin 0) = relu (frame.payload.getD i (Fp.fin 0)) := by
        rw [List.getD_eq_getElem?_getD, hyvals i hi]
        rfl
      rw [hyi, relu_relu]
    · exact hzrest i (not_lt.mp hi)
  refine ⟨_, _, hff, hff2, hpay, rfl, ?_, rfl⟩
  simp only [wrap64_succ_succ]

/-- Scenario 1 run twice: C10 applied to the frame of scenario 1. -/
theorem filter_frame_twice_witness :
    ∃ f1 f2,
      filter_frame test_alloc (AVFilterLink.idle []) relu_in =
        some { ret := 0,
               outlink := { AVFilterLink.idle [] with
                 fifo := (AVFilterLink.idle []).fifo ++ [f1] },
               freed := none } ∧
      filter_frame test_alloc (AVFilterLink.idle []) f1 =
        some { ret := 0,
               outlink := { AVFilterLink.idle [] with
                 fifo := (AVFilterLink.idle []).fifo ++ [f2] },
               freed := none } ∧
      f2.payload = f1.payload ∧
      f1.hdr = { relu_in.hdr with generation_id := wrap64 (relu_in.hdr.generation_id + 1) } ∧
      f2.hdr = { relu_in.hdr with generation_id := wrap64 (relu_in.hdr.generation_id + 2) } ∧
      f2.pts = f1.pts :=
  filter_frame_twice test_alloc test_alloc (AVFilterLink.idle []) (AVFilterLink.idle []) relu_in
    (Or.inl rfl) rfl (by decide)

end vf_tensor_relu

/-! ## Allocation failure -/

theorem forward_status_fix {P : Type} (c : AVFilterContext P)
    (h0 : c.out0.status_in ≠ 0 → c.in0.status_out = c.out0.status_in)
    (h1 : c.out0.status_in ≠ 0 → c.in1.status_out = c.out0.status_in) :
    FF_FILTER_FORWARD_STATUS_BACK_ALL c = c := by
  unfold FF_FILTER_FORWARD_STATUS_BACK_ALL
  by_cases hs : c.out0.status_in ≠ 0
  · rw [if_pos hs]
    rcases c with ⟨priv, ⟨f0, si0, sp0, so0, fl0, w0⟩, ⟨f1, si1, sp1, so1, fl1, w1⟩, out0⟩
    have e0 := h0 hs
    have e1 := h1 hs
    simp only at e0 e1 ⊢
    rw [← e0]
    nth_rewrite 2 [e0]
    rw [← e1]
  · rw [if_neg hs]

theorem forward_status_links {P : Type} (c : AVFilterContext P) :
    (c.out0.status_in ≠ 0 →
      (FF_FILTER_FORWARD_STATUS_BACK_ALL c).in0.status_out = c.out0.status_in ∧
      (FF_FILTER_FORWARD_STATUS_BACK_ALL c).in1.status_out = c.out0.status_in) ∧
    (FF_FILTER_FORWARD_STATUS_BACK_ALL c).in0.fifo = c.in0.fifo ∧
    (FF_FILTER_FORWARD_STATUS_BACK_ALL c).in1.fifo = c.in1.fifo ∧
    (FF_FILTER_FORWARD_STATUS_BACK_ALL c).in0.status_in = c.in0.status_in ∧
    (FF_FILTER_FORWARD_STATUS_BACK_ALL c).in1.status_in = c.in1.status_in ∧
    (FF_FILTER_FORWARD_STATUS_BACK_ALL c).in0.fault = c.in0.fault ∧
    (FF_FILTER_FORWARD_STATUS_BACK_ALL c).in1.fault = c.in1.fault := by
  unfold FF_FILTER_FORWARD_STATUS_BACK_ALL
  by_cases hs : c.out0.status_in ≠ 0
  · simp only [hs, if_true, ne_eq, not_false_eq_true, and_self, imp_self]
  · simp only [hs, if_false, false_imp_iff, and_self]

theorem consume_slot_link (slot : Option AVFrame) (l : AVFilterLink) :
    (consume_slot slot l).2.2.status_out = l.status_out ∧
    (consume_slot slot l).2.2.status_in = l.status_in ∧
    (consume_slot slot l).2.2.status_in_pts = l.status_in_pts ∧
    (consume_slot slot l).2.2.fault = l.fault ∧
    (consume_slot slot l).2.2.frame_wanted_out = l.frame_wanted_out := by
  unfold consume_slot
  cases slot with
  | some f => exact ⟨rfl, rfl, rfl, rfl, rfl⟩
  | none =>
    simp only [ff_inlink_consume_frame]
    split
    · exact ⟨rfl, rfl, rfl, rfl, rfl⟩
    · split <;> exact ⟨rfl, rfl, rfl, rfl, rfl⟩

namespace vf_tensor_matmul

theorem at_pair_test_of_full (c : AVFilterContext TensorMatMulContext) (fa fb : AVFrame)
    (ha : c.priv.pending_a = some fa) (hb : c.priv.pending_b = some fb) :
    at_pair_test c = FF_FILTER_FORWARD_STATUS_BACK_ALL c := by
  have hp := forward_status_priv c
  unfold at_pair_test
  simp only [hp, ha, hb, consume_slot]
  rcases hc : FF_FILTER_FORWARD_STATUS_BACK_ALL c with ⟨priv, in0, in1, out0⟩
  rw [hc] at hp
  simp only at hp ⊢
  rw [hp]
  rcases c with ⟨⟨pa, pb⟩, i0, i1, o0⟩
  simp only at ha hb ⊢
  rw [ha, hb]

/-- Re-entering `activate` with both slots full: the state at the pair test is
the state the node was left in. -/
theorem at_pair_test_idem (ctx : AVFilterContext TensorMatMulContext) (fa fb : AVFrame)
    (ha : (at_pair_test ctx).priv.pending_a = some fa)
    (hb : (at_pair_test ctx).priv.pending_b = some fb) :
    at_pair_test (at_pair_test ctx) = at_pair_test ctx := by
  rw [at_pair_test_of_full (at_pair_test ctx) fa fb ha hb]
  apply forward_status_fix
  · intro hs
    have hout : (at_pair_test ctx).out0 = ctx.out0 := by
      simp only [at_pair_test, forward_status_out0]
    rw [hout] at hs ⊢
    simp only [at_pair_test]
    rw [(consume_slot_link _ _).1]
    exact ((forward_status_links ctx).1 hs).1
  · intro hs
    have hout : (at_pair_test ctx).out0 = ctx.out0 := by
      simp only [at_pair_test, forward_status_out0]
    rw [hout] at hs ⊢
    simp only [at_pair_test]
    rw [(consume_slot_link _ _).1]
    exact ((forward_status_links ctx).1 hs).2

theorem activate_reentry (al : Allocator) (ctx : AVFilterContext TensorMatMulContext)
    (fa fb : AVFrame)
    (ha : (at_pair_test ctx).priv.pending_a = some fa)
    (hb : (at_pair_test ctx).priv.pending_b = some fb) :
    activate al (at_pair_test ctx) = activate al ctx := by
  have hi := at_pair_test_idem ctx fa fb ha hb
  rw [matmul_activate_eq_fire al ctx fa fb ha hb,
    matmul_activate_eq_fire al (at_pair_test ctx) fa fb (by rw [hi]; exact ha)
      (by rw [hi]; exact hb), hi]

theorem fire_alloc_failure (al : Allocator) (c : AVFilterContext TensorMatMulContext)
    (fa fb : AVFrame)
    (hma : fa.hdr.magic = TENSOR_MAGIC) (hmb : fb.hdr.magic = TENSOR_MAGIC)
    (hra : fa.hdr.n_dims = 2) (hrb : fb.hdr.n_dims = 2)
    (hsh : fa.hdr.shape 1 = fb.hdr.shape 0)
    (hfail : al.frame_ok = false ∨ al.buffer_ok = false) :
    fire al c fa fb = some (AVERROR ENOMEM, c) := by
  unfold fire
  simp only [hma, hmb, hra, hrb, hsh, ne_eq, not_true_eq_false, or_self, if_false]
  rcases hfail with h | h
  · simp only [h, Bool.not_false, if_true]
  · cases hf : al.frame_ok <;> simp only [h, Bool.not_false, Bool.not_true, if_true,
      Bool.false_eq_true, if_false]

end vf_tensor_matmul

namespace vf_tensor_update

theorem update_at_pair_test_of_full (c : AVFilterContext TensorUpdateContext) (fw fg : AVFrame)
    (hw : c.priv.pending_w = some fw) (hg : c.priv.pending_g = some fg) :
    at_pair_test c = FF_FILTER_FORWARD_STATUS_BACK_ALL c := by
  have hp := forward_status_priv c
  unfold at_pair_test
  simp only [hp, hw, hg, consume_slot]
  rcases hc : FF_FILTER_FORWARD_STATUS_BACK_ALL c with ⟨priv, in0, in1, out0⟩
  rw [hc] at hp
  simp only at hp ⊢
  rw [hp]
  rcases c with ⟨⟨lr, gm, gv, uc, sc, pw, pg⟩, i0, i1, o0⟩
  simp only at hw hg ⊢
  rw [hw, hg]

theorem update_at_pair_test_idem (ctx : AVFilterContext TensorUpdateContext) (fw fg : AVFrame)
    (hw : (at_pair_test ctx).priv.pending_w = some fw)
    (hg : (at_pair_test ctx).priv.pending_g = some fg) :
    at_pair_test (at_pair_test ctx) = at_pair_test ctx := by
  rw [update_at_pair_test_of_full (at_pair_test ctx) fw fg hw hg]
  have hout : (at_pair_test ctx).out0 = ctx.out0 := (at_pair_test_priv ctx).2.2.2.2.2
  apply forward_status_fix
  · intro hs
    rw [hout] at hs ⊢
    simp only [at_pair_test]
    rw [(consume_slot_link _ _).1]
    exact ((forward_status_links ctx).1 hs).1
  · intro hs
    rw [hout] at hs ⊢
    simp only [at_pair_test]
    rw [(consume_slot_link _ _).1]
    exact ((forward_status_links ctx).1 hs).2

theorem update_activate_reentry (al : Allocator) (ctx : AVFilterContext TensorUpdateContext)
    (fw fg : AVFrame)
    (hw : (at_pair_test ctx).priv.pending_w = some fw)
    (hg : (at_pair_test ctx).priv.pending_g = some fg) :
    activate al (at_pair_test ctx) = activate al ctx := by
  have hi := update_at_pair_test_idem ctx fw fg hw hg
  rw [update_activate_eq_fire al ctx fw fg hw hg,
    update_activate_eq_fire al (at_pair_test ctx) fw fg (by rw [hi]; exact hw)
      (by rw [hi]; exact hg), hi]

theorem update_fire_alloc_failure (al : Allocator) (c : AVFilterContext TensorUpdateContext)
    (fw fg : AVFrame) (hfail : al.frame_ok = false ∨ al.buffer_ok = false) :
    fire al c fw fg = some (AVERROR ENOMEM, c) := by
  unfold fire
  rcases hfail with h | h
  · simp only [h, Bool.not_false, if_true]
  · cases hf : al.frame_ok <;> simp only [h, Bool.not_false, Bool.not_true, if_true,
      Bool.false_eq_true, if_false]

end vf_tensor_update

/-- C12 (Allocation failure is atomic).  In every activation of the MatMul node
in which both pending slots are full, the pair passes the node's checks (so
that the allocation is reached) and the allocation of the output frame or of
its buffer fails, and in every activation of the Update node in which both
pending slots are full and one of the two allocations fails: the activation
returns `AVERROR(ENOMEM)`, the output link is as it was (no frame emitted), both
pending slots hold the same two frames, `update_count` and `skip_count` are
unchanged, and any later activation from the state left behind gives exactly
the result it would have given had the failed activation not happened. -/
theorem activate_alloc_failure :
    (∀ (al : Allocator) (ctx : AVFilterContext vf_tensor_matmul.TensorMatMulContext)
        (fa fb : AVFrame),
      (vf_tensor_matmul.at_pair_test ctx).priv.pending_a = some fa →
      (vf_tensor_matmul.at_pair_test ctx).priv.pending_b = some fb →
      fa.hdr.magic = TENSOR_MAGIC → fb.hdr.magic = TENSOR_MAGIC →
      fa.hdr.n_dims = 2 → fb.hdr.n_dims = 2 → fa.hdr.shape 1 = fb.hdr.shape 0 →
      (al.frame_ok = false ∨ al.buffer_ok = false) →
      ∃ ctx', vf_tensor_matmul.activate al ctx = some (AVERROR ENOMEM, ctx') ∧
        ctx'.out0 = ctx.out0 ∧
        ctx'.priv.pending_a = some fa ∧ ctx'.priv.pending_b = some fb ∧
        ∀ al2, vf_tensor_matmul.activate al2 ctx' = vf_tensor_matmul.activate al2 ctx) ∧
    (∀ (al : Allocator) (ctx : AVFilterContext vf_tensor_update.TensorUpdateContext)
        (fw fg : AVFrame),
      (vf_tensor_update.at_pair_test ctx).priv.pending_w = some fw →
      (vf_tensor_update.at_pair_test ctx).priv.pending_g = some fg →
      (al.frame_ok = false ∨ al.buffer_ok = false) →
      ∃ ctx', vf_tensor_update.activate al ctx = some (AVERROR ENOMEM, ctx') ∧
        ctx'.out0 = ctx.out0 ∧
        ctx'.priv.pending_w = some fw ∧ ctx'.priv.pending_g = some fg ∧
        ctx'.priv.update_count = ctx.priv.update_count ∧
        ctx'.priv.skip_count = ctx.priv.skip_count ∧
        ∀ al2, vf_tensor_update.activate al2 ctx' = vf_tensor_update.activate al2 ctx) := by
  constructor
  · intro al ctx fa fb ha hb hma hmb hra hrb hsh hfail
    refine ⟨vf_tensor_matmul.at_pair_test ctx, ?_, ?_, ha, hb, ?_⟩
    · rw [vf_tensor_matmul.matmul_activate_eq_fire al ctx fa fb ha hb]
      exact vf_tensor_matmul.fire_alloc_failure al _ fa fb hma hmb hra hrb hsh hfail
    · simp only [vf_tensor_matmul.at_pair_test, forward_status_out0]
    · intro al2
      exact vf_tensor_matmul.activate_reentry al2 ctx fa fb ha hb
  · intro al ctx fw fg hw hg hfail
    obtain ⟨-, -, -, huc, hsc, hout⟩ := vf_tensor_update.at_pair_test_priv ctx
    refine ⟨vf_tensor_update.at_pair_test ctx, ?_, hout, hw, hg, huc, hsc, ?_⟩
    · rw [vf_tensor_update.update_activate_eq_fire al ctx fw fg hw hg]
      exact vf_tensor_update.update_fire_alloc_failure al _ fw fg hfail
    · intro al2
      exact vf_tensor_update.update_activate_reentry al2 ctx fw fg hw hg

/-- Scenarios 2 and 5 with a failing allocator: C12 applied to both nodes. -/
theorem activate_alloc_failure_witness :
    (∃ ctx', vf_tensor_matmul.activate failing_alloc gemm_ctx = some (AVERROR ENOMEM, ctx') ∧
        ctx'.out0 = gemm_ctx.out0 ∧
        ctx'.priv.pending_a = some gemm_a ∧ ctx'.priv.pending_b = some gemm_b ∧
        ∀ al2, vf_tensor_matmul.activate al2 ctx' = vf_tensor_matmul.activate al2 gemm_ctx) ∧
    (∃ ctx', vf_tensor_update.activate failing_alloc (upd_ctx upd_g_above (1 / 2))
          = some (AVERROR ENOMEM, ctx') ∧
        ctx'.out0 = (upd_ctx upd_g_above (1 / 2)).out0 ∧
        ctx'.priv.pending_w = some upd_w ∧ ctx'.priv.pending_g = some upd_g_above ∧
        ctx'.priv.update_count = (upd_ctx upd_g_above (1 / 2)).priv.update_count ∧
        ctx'.priv.skip_count = (upd_ctx upd_g_above (1 / 2)).priv.skip_count ∧
        ∀ al2, vf_tensor_update.activate al2 ctx'
          = vf_tensor_update.activate al2 (upd_ctx upd_g_above (1 / 2))) :=
  ⟨activate_alloc_failure.1 failing_alloc gemm_ctx gemm_a gemm_b rfl rfl rfl rfl rfl rfl rfl
      (Or.inl rfl),
   activate_alloc_failure.2 failing_alloc (upd_ctx upd_g_above (1 / 2)) upd_w upd_g_above
      rfl rfl (Or.inl rfl)⟩

/-! ## Floating-point facts -/

theorem round_half_even_int (m : ℤ) : round_half_even (m : ℚ) = m := by
  unfold round_half_even
  simp only [Int.floor_intCast, sub_self]
  rw [if_pos (by norm_num)]

/-- A rounding leaves a number `q ≠ 0` as it is exactly when `q` is a multiple
of the unit in the last place and below the overflow threshold. -/
theorem round_ne_eq_self_iff (prec : ℕ) (emin emax : ℤ) (q : ℚ) (hq : q ≠ 0) :
    round_ne prec emin emax q = Fp.fin q ↔
      (∃ m : ℤ, |q| = m * 2 ^ (max (ilog2 q - ((prec : ℤ) - 1)) emin)) ∧ |q| < 2 ^ emax := by
  unfold round_ne
  rw [if_neg hq]
  simp only []
  generalize max (ilog2 q - ((prec : ℤ) - 1)) emin = e
  have h2 : (0 : ℚ) < 2 ^ e := zpow_pos (by norm_num) e
  constructor
  · intro h
    generalize round_half_even (|q| / 2 ^ e) = M at h
    by_cases hov : (2 : ℚ) ^ emax ≤ M * 2 ^ e
    · rw [if_pos hov] at h
      exact Fp.noConfusion h
    · rw [if_neg hov] at h
      simp only [Fp.fin.injEq] at h
      have hv : |q| = M * (2 : ℚ) ^ e := by
        by_cases hneg : q < 0
        · rw [if_pos hneg] at h
          rw [abs_of_neg hneg, ← h, neg_neg]
        · rw [if_neg hneg] at h
          rw [abs_of_nonneg (not_lt.mp hneg), ← h]
      refine ⟨⟨_, hv⟩, ?_⟩
      rw [hv]
      exact not_le.mp hov
  · rintro ⟨⟨m, hm⟩, hlt⟩
    have ht : |q| / 2 ^ e = (m : ℚ) := by
      rw [hm]
      field_simp
    rw [ht, round_half_even_int, ← hm, if_neg (not_le.mpr hlt)]
    congr 1
    by_cases hneg : q < 0
    · rw [if_pos hneg, abs_of_neg hneg, neg_neg]
    · rw [if_neg hneg, abs_of_nonneg (not_lt.mp hneg)]

/-- A `float` is a `double`: a number that the rounding to `float` leaves as it
is, is left as it is by the rounding to `double`. -/
theorem to_double_of_float (q : ℚ) (h : to_float q = Fp.fin q) : to_double q = Fp.fin q := by
  by_cases hq : q = 0
  · subst hq
    rfl
  obtain ⟨⟨m, hm⟩, hlt⟩ := (round_ne_eq_self_iff 24 (-149) 128 q hq).1 h
  refine (round_ne_eq_self_iff 53 (-1074) 1024 q hq).2 ⟨?_, lt_trans hlt (by norm_num)⟩
  have hle : max (ilog2 q - (((53 : ℕ) : ℤ) - 1)) (-1074)
      ≤ max (ilog2 q - (((24 : ℕ) : ℤ) - 1)) (-149) :=
    max_le_max (by push_cast; omega) (by norm_num)
  generalize max (ilog2 q - (((53 : ℕ) : ℤ) - 1)) (-1074) = e2 at hle ⊢
  generalize max (ilog2 q - (((24 : ℕ) : ℤ) - 1)) (-149) = e1 at hle hm
  obtain ⟨d, hd⟩ := Int.eq_ofNat_of_zero_le (sub_nonneg.mpr hle)
  refine ⟨m * 2 ^ d, ?_⟩
  have he : e1 = (d : ℤ) + e2 := by omega
  rw [hm, he, zpow_add₀ (by norm_num : (2 : ℚ) ≠ 0), zpow_natCast]
  push_cast
  ring

/-- A finite `float` is a finite number that neither rounding changes. -/
theorem is_float_spec (x : Fp) (h : x.is_float = true) :
    ∃ q, x = Fp.fin q ∧ to_float q = Fp.fin q ∧ to_double q = Fp.fin q := by
  cases x with
  | fin q =>
    simp only [Fp.is_float, decide_eq_true_eq] at h
    exact ⟨q, rfl, h, to_double_of_float q h⟩
  | inf s => exact absurd h (by simp [Fp.is_float])
  | nan => exact absurd h (by simp [Fp.is_float])

/-! ## GEMM laws -/

namespace vf_tensor_matmul

/-- The kernel in exact arithmetic on buffers that hold the shapes and finite
values: it returns, every entry of the product is in place, the buffer keeps
its length and the header describes the shape `[m,p]`. -/
theorem execute_matmul_spec (out a b : AVFrame) (m n p : Nat)
    (hA : m * n ≤ a.payload.length) (hB : n * p ≤ b.payload.length)
    (hC : m * p ≤ out.payload.length)
    (hAsz : a.payload.length ≤ 2 ^ 64) (hBsz : b.payload.length ≤ 2 ^ 64)
    (hCsz : out.payload.length ≤ 2 ^ 64)
    (hfA : ∀ idx, idx < m * n → ∀ x, a.payload[idx]? = some x → x = Fp.fin x.val)
    (hfB : ∀ idx, idx < n * p → ∀ y, b.payload[idx]? = some y → y = Fp.fin y.val) :
    ∃ res, execute_matmul Arith.exact out a b m n p = some res ∧
      res.payload.length = out.payload.length ∧
      (∀ i, i < m → ∀ j, j < p →
        res.payload[i * p + j]? =
          some (Fp.fin (gemm_entry (a.payload.map Fp.val) (b.payload.map Fp.val) i j n p))) ∧
      res.hdr.n_dims = 2 ∧ res.hdr.shape 0 = m ∧ res.hdr.shape 1 = p := by
  obtain ⟨D, hD, hlen, hrows⟩ :=
    gemm_loops_spec a.payload b.payload m n p out.payload hA hB hC hAsz hBsz hCsz hfA hfB
  have he : execute_matmul Arith.exact out a b m n p = some
      { out with
        payload := D
        hdr := { out.hdr with
          magic := TENSOR_MAGIC
          n_dims := 2
          n_elem := wrap64 (m * p)
          shape := Function.update (Function.update out.hdr.shape 0 m) 1 p
          byte_size := wrap64 (wrap64 (m * p) * sizeof_float) } } := by
    rw [execute_matmul, hD]
  obtain ⟨-, h2, h3, h4, -⟩ := execute_matmul_hdr _ out _ a b m n p he
  exact ⟨_, he, hlen, hrows, h2, h3, h4⟩

/-- Every position below `m * p` is a row-major position of an `m`-by-`p`
matrix. -/
theorem row_major_index (m p idx : Nat) (h : idx < m * p) :
    ∃ i j, i < m ∧ j < p ∧ idx = i * p + j := by
  have hp : 0 < p := by
    rcases Nat.eq_zero_or_pos p with h0 | h0
    · rw [h0] at h; simp at h
    · exact h0
  refine ⟨idx / p, idx % p, (Nat.div_lt_iff_lt_mul hp).2 h, Nat.mod_lt _ hp, ?_⟩
  rw [Nat.mul_comm, Nat.div_add_mod]

/-- Two buffers that agree at every row-major position of an `m`-by-`p` matrix
agree on the first `m * p` elements. -/
theorem row_major_all (f g : List Fp) (m p : Nat)
    (h : ∀ i, i < m → ∀ j, j < p → f[i * p + j]? = g[i * p + j]?) :
    ∀ idx, idx < m * p → f[idx]? = g[idx]? := by
  intro idx hidx
  obtain ⟨i, j, hi, hj, rfl⟩ := row_major_index m p idx hidx
  exact h i hi j hj

/-- A row of `A` against a column of a diagonal matrix `α·I`. -/
theorem gemm_entry_diag_right (A D : List ℚ) (α : ℚ) (i j n : Nat) (hj : j < n)
    (hD : ∀ k, k < n → ∀ l, l < n → D.getD (k * n + l) 0 = if k = l then α else 0) :
    gemm_entry A D i j n n = A.getD (i * n + j) 0 * α := by
  unfold gemm_entry
  rw [Finset.sum_eq_single j]
  · rw [hD j hj j hj, if_pos rfl]
  · intro k hk hkj
    rw [hD k (Finset.mem_range.mp hk) j hj, if_neg hkj, mul_zero]
  · intro h
    exact absurd (Finset.mem_range.mpr hj) h

/-- A row of a diagonal matrix `α·I` against a column of `B`. -/
theorem gemm_entry_diag_left (D B : List ℚ) (α : ℚ) (k j n p : Nat) (hk : k < n)
    (hD : ∀ k, k < n → ∀ l, l < n → D.getD (k * n + l) 0 = if k = l then α else 0) :
    gemm_entry D B k j n p = α * B.getD (k * p + j) 0 := by
  unfold gemm_entry
  rw [Finset.sum_eq_single k]
  · rw [hD k hk k hk, if_pos rfl]
  · intro l hl hlk
    rw [hD k hk l (Finset.mem_range.mp hl), if_neg (Ne.symm hlk), zero_mul]
  · intro h
    exact absurd (Finset.mem_range.mpr hk) h

/-- The inner loop of the compiled kernel on a row of finite `float`s against
column `j` of the identity matrix delivers the `j`-th element of the row: every
product and every sum is exact. -/
theorem dot_loop_identity (A I : List Fp) (i j n : Nat) (hj : j < n)
    (hA : ∀ k, k < n → i * n + k < A.length) (hIlen : n * n ≤ I.length)
    (hAsz : A.length ≤ 2 ^ 64) (hIsz : I.length ≤ 2 ^ 64)
    (hI : ∀ k, k < n → ∀ l, l < n →
      I.getD (k * n + l) (Fp.fin 0) = if k = l then Fp.fin 1 else Fp.fin 0)
    (hF : ∀ k, k < n → (A.getD (i * n + k) Fp.nan).is_float = true) :
    ∃ q, A[i * n + j]? = some (Fp.fin q) ∧ to_float q = Fp.fin q ∧
      dot_loop Arith.ieee A I i j n n = some (Fp.fin q) := by
  have hjA := hA j hj
  obtain ⟨q, hq, hq32, hq64⟩ := is_float_spec _ (hF j hj)
  rw [List.getD_eq_getElem _ _ hjA] at hq
  refine ⟨q, by rw [List.getElem?_eq_getElem hjA, hq], hq32, ?_⟩
  have hz : to_double 0 = Fp.fin 0 := rfl
  unfold dot_loop
  obtain ⟨t, ht, hIt⟩ := forLoop_inv
    (fun k sum =>
      match A[wrap64 (i * n + k)]?, I[wrap64 (k * n + j)]? with
      | some x, some y => some (Fp.add Arith.ieee.dbl sum (Fp.mul Arith.ieee.dbl x y))
      | _, _ => none)
    (fun k sum => sum = if j < k then Fp.fin q else Fp.fin 0)
    n (Fp.fin 0) (by simp)
    (by
      intro k hk t hIt
      have h1 := hA k hk
      have h2 : k * n + j < I.length := lt_of_lt_of_le (row_major_lt hk hj) hIlen
      obtain ⟨a, ha, -, ha64⟩ := is_float_spec _ (hF k hk)
      rw [List.getD_eq_getElem _ _ h1] at ha
      have hy := hI k hk j hj
      rw [List.getD_eq_getElem _ _ h2] at hy
      dsimp only
      rw [wrap64_of_lt (lt_of_lt_of_le h1 hAsz), wrap64_of_lt (lt_of_lt_of_le h2 hIsz)]
      rw [List.getElem?_eq_getElem h1, List.getElem?_eq_getElem h2]
      refine ⟨_, rfl, ?_⟩
      rw [hIt, ha, hy]
      show Fp.add to_double _ (Fp.mul to_double _ _) = _
      by_cases hkj : k = j
      · subst hkj
        rw [hq] at ha
        simp only [Fp.fin.injEq] at ha
        subst ha
        rw [if_pos rfl, if_neg (lt_irrefl _), if_pos (Nat.lt_succ_self _)]
        show Fp.add to_double (Fp.fin 0) (to_double (q * 1)) = _
        rw [mul_one, hq64]
        show to_double (0 + q) = _
        rw [zero_add, hq64]
      · rw [if_neg hkj]
        have hm : Fp.mul to_double (Fp.fin a) (Fp.fin 0) = Fp.fin 0 := by
          show to_double (a * 0) = _
          rw [mul_zero, hz]
        rw [hm]
        by_cases hjk : j < k
        · rw [if_pos hjk, if_pos (Nat.lt_succ_of_lt hjk)]
          show to_double (q + 0) = _
          rw [add_zero, hq64]
        · rw [if_neg hjk, if_neg (by omega)]
          show to_double (0 + 0) = _
          rw [add_zero, hz])
  refine ht.trans ?_
  rw [hIt, if_pos hj]

/-- C17 as stated fails: `A = [[+inf, 1]]` times the 2-by-2 identity is
`[+inf, NaN]` in the compiled kernel (`inf * 0` is a NaN, which the whole sum
then is), not `A`. -/
theorem execute_matmul_identity_counterexample :
    inf_a.payload = [Fp.inf false, Fp.fin 1] ∧
    eye2.payload = [1, 0, 0, 1].map Fp.fin ∧
    (execute_matmul Arith.ieee (scratch_out 2) inf_a eye2 1 2 2).map AVFrame.payload
      = some [Fp.inf false, Fp.nan] ∧
    (execute_matmul Arith.ieee (scratch_out 2) inf_a eye2 1 2 2).map AVFrame.payload
      ≠ some inf_a.payload := by
  refine ⟨rfl, by decide!, by decide!, by decide!⟩

/-- C17, amended.  For `A` of shape `[m,n]` whose `m * n` entries are finite
`float` values and the `n`-by-`n` identity matrix `I` (ones on the diagonal,
zeros elsewhere), `execute_matmul` as compiled (double accumulator, every
operation rounded, cast to `float` at the store) on `(A, I)` returns, its
payload equals `A`'s payload element for element on the `m * n` elements, and
the output shape is `[m,n]`. -/
theorem execute_matmul_identity (out a b : AVFrame) (m n : Nat)
    (hA : m * n ≤ a.payload.length) (hB : n * n ≤ b.payload.length)
    (hI : ∀ k, k < n → ∀ l, l < n →
      b.payload.getD (k * n + l) (Fp.fin 0) = if k = l then Fp.fin 1 else Fp.fin 0)
    (hF : ∀ idx, idx < m * n → (a.payload.getD idx Fp.nan).is_float = true)
    (hC : m * n ≤ out.payload.length)
    (hAsz : a.payload.length ≤ 2 ^ 64) (hBsz : b.payload.length ≤ 2 ^ 64)
    (hCsz : out.payload.length ≤ 2 ^ 64) :
    ∃ res, execute_matmul Arith.ieee out a b m n n = some res ∧
      (∀ idx, idx < m * n → res.payload[idx]? = a.payload[idx]?) ∧
      (∀ i, i < m → ∀ j, j < n → res.payload[i * n + j]? = a.payload[i * n + j]?) ∧
      res.hdr.n_dims = 2 ∧ res.hdr.shape 0 = m ∧ res.hdr.shape 1 = n := by
  obtain ⟨D, hD, -, hrows⟩ := gemm_loops_of_dot Arith.ieee a.payload b.payload m n n
    out.payload (fun i j => a.payload.getD (i * n + j) Fp.nan)
    (by
      intro i hi j hj
      obtain ⟨q, hq, hq32, hdot⟩ := dot_loop_identity a.payload b.payload i j n hj
        (fun k hk => lt_of_lt_of_le (row_major_lt hi hk) hA) hB hAsz hBsz hI
        (fun k hk => hF _ (row_major_lt hi hk))
      refine ⟨_, hdot, ?_⟩
      show to_float q = a.payload.getD (i * n + j) Fp.nan
      rw [List.getD_eq_getElem?_getD, hq]
      exact hq32)
    hC hCsz
  have he : execute_matmul Arith.ieee out a b m n n = some
      { out with
        payload := D
        hdr := { out.hdr with
          magic := TENSOR_MAGIC
          n_dims := 2
          n_elem := wrap64 (m * n)
          shape := Function.update (Function.update out.hdr.shape 0 m) 1 n
          byte_size := wrap64 (wrap64 (m * n) * sizeof_float) } } := by
    rw [execute_matmul, hD]
  obtain ⟨-, h2, h3, h4, -⟩ := execute_matmul_hdr _ out _ a b m n n he
  have hij : ∀ i, i < m → ∀ j, j < n → D[i * n + j]? = a.payload[i * n + j]? := by
    intro i hi j hj
    have hlt : i * n + j < a.payload.length := lt_of_lt_of_le (row_major_lt hi hj) hA
    rw [hrows i hi j hj, List.getD_eq_getElem _ _ hlt, List.getElem?_eq_getElem hlt]
  exact ⟨_, he, row_major_all _ _ m n hij, hij, h2, h3, h4⟩

/-- The frame of scenario 2's left operand times the 3-by-3 identity gives its
payload `[1,2,3,4,5,6]` back, and the amended C17 applied to the same frames. -/
theorem execute_matmul_identity_witness :
    (execute_matmul Arith.ieee (scratch_out 6) gemm_a eye3 2 3 3).map AVFrame.payload
      = some ([1, 2, 3, 4, 5, 6].map Fp.fin) ∧
    ∃ res, execute_matmul Arith.ieee (scratch_out 6) gemm_a eye3 2 3 3 = some res ∧
      (∀ idx, idx < 2 * 3 → res.payload[idx]? = gemm_a.payload[idx]?) ∧
      (∀ i, i < 2 → ∀ j, j < 3 → res.payload[i * 3 + j]? = gemm_a.payload[i * 3 + j]?) ∧
      res.hdr.n_dims = 2 ∧ res.hdr.shape 0 = 2 ∧ res.hdr.shape 1 = 3 :=
  ⟨by decide!,
   execute_matmul_identity (scratch_out 6) gemm_a eye3 2 3 (by decide) (by decide)
     (by decide!) (by decide!) (by decide) (by decide) (by decide) (by decide)⟩

theorem getD_map_val_of (L : List Fp) (idx : Nat) (v : ℚ) (h : L[idx]? = some (Fp.fin v)) :
    (L.map Fp.val).getD idx 0 = v := by
  rw [List.getD_eq_getElem?_getD, List.getElem?_map, h]
  rfl

/-- C18 (GEMM scalar law).  For real matrices `A` of shape `[m,n]`, `B` of shape
`[n,p]`, a scalar `α` and `D` the `n`-by-`n` diagonal matrix `α·I`, held in the
frames `a`, `b`, `d`, the four kernel runs in exact arithmetic return and
`execute_matmul` on `(matmul(A, D), B)` gives the same payload as on
`(A, matmul(D, B))`: entry `i*p+j` is the same for every `i < m`, `j < p`. -/
theorem execute_matmul_scalar (o1 o2 o3 o4 a d b : AVFrame) (A D B : List ℚ) (α : ℚ)
    (m n p : Nat)
    (ha : a.payload = A.map Fp.fin) (hd : d.payload = D.map Fp.fin)
    (hb : b.payload = B.map Fp.fin)
    (hA : m * n ≤ a.payload.length) (hDl : n * n ≤ d.payload.length)
    (hB : n * p ≤ b.payload.length)
    (hD : ∀ k, k < n → ∀ l, l < n → D.getD (k * n + l) 0 = if k = l then α else 0)
    (h1 : m * n ≤ o1.payload.length) (h2 : n * p ≤ o2.payload.length)
    (h3 : m * p ≤ o3.payload.length) (h4 : m * p ≤ o4.payload.length)
    (hAsz : a.payload.length ≤ 2 ^ 64) (hDsz : d.payload.length ≤ 2 ^ 64)
    (hBsz : b.payload.length ≤ 2 ^ 64)
    (h1sz : o1.payload.length ≤ 2 ^ 64) (h2sz : o2.payload.length ≤ 2 ^ 64)
    (h3sz : o3.payload.length ≤ 2 ^ 64) (h4sz : o4.payload.length ≤ 2 ^ 64) :
    ∃ ad db r1 r2,
      execute_matmul Arith.exact o1 a d m n n = some ad ∧
      execute_matmul Arith.exact o2 d b n n p = some db ∧
      execute_matmul Arith.exact o3 ad b m n p = some r1 ∧
      execute_matmul Arith.exact o4 a db m n p = some r2 ∧
      (∀ i, i < m → ∀ j, j < p → r1.payload[i * p + j]? = r2.payload[i * p + j]?) ∧
      (∀ idx, idx < m * p → r1.payload[idx]? = r2.payload[idx]?) := by
  have hfa : ∀ idx, idx < m * n → ∀ x, a.payload[idx]? = some x → x = Fp.fin x.val :=
    fun idx _ x hx => by rw [ha] at hx; exact (map_fin_finite A).1 idx x hx
  have hfd : ∀ idx, idx < n * n → ∀ x, d.payload[idx]? = some x → x = Fp.fin x.val :=
    fun idx _ x hx => by rw [hd] at hx; exact (map_fin_finite D).1 idx x hx
  have hfb : ∀ idx, idx < n * p → ∀ x, b.payload[idx]? = some x → x = Fp.fin x.val :=
    fun idx _ x hx => by rw [hb] at hx; exact (map_fin_finite B).1 idx x hx
  have hva : a.payload.map Fp.val = A := by rw [ha]; exact (map_fin_finite A).2
  have hvd : d.payload.map Fp.val = D := by rw [hd]; exact (map_fin_finite D).2
  have hvb : b.payload.map Fp.val = B := by rw [hb]; exact (map_fin_finite B).2
  obtain ⟨ad, had, hadlen, hadv, -⟩ :=
    execute_matmul_spec o1 a d m n n hA hDl h1 hAsz hDsz h1sz hfa hfd
  obtain ⟨db, hdb, hdblen, hdbv, -⟩ :=
    execute_matmul_spec o2 d b n n p hDl hB h2 hDsz hBsz h2sz hfd hfb
  rw [hva, hvd] at hadv
  rw [hvd, hvb] at hdbv
  have hfad : ∀ idx, idx < m * n → ∀ x, ad.payload[idx]? = some x → x = Fp.fin x.val := by
    intro idx hidx x hx
    obtain ⟨i, k, hi, hk, rfl⟩ := row_major_index m n idx hidx
    rw [hadv i hi k hk] at hx
    simp only [Option.some.injEq] at hx
    rw [← hx]
    rfl
  have hfdb : ∀ idx, idx < n * p → ∀ x, db.payload[idx]? = some x → x = Fp.fin x.val := by
    intro idx hidx x hx
    obtain ⟨k, j, hk, hj, rfl⟩ := row_major_index n p idx hidx
    rw [hdbv k hk j hj] at hx
    simp only [Option.some.injEq] at hx
    rw [← hx]
    rfl
  obtain ⟨r1, hr1, -, hr1v, -⟩ :=
    execute_matmul_spec o3 ad b m n p (by rw [hadlen]; exact h1) hB h3
      (by rw [hadlen]; exact h1sz) hBsz h3sz hfad hfb
  obtain ⟨r2, hr2, -, hr2v, -⟩ :=
    execute_matmul_spec o4 a db m n p hA (by rw [hdblen]; exact h2) h4 hAsz
      (by rw [hdblen]; exact h2sz) h4sz hfa hfdb
  have hij : ∀ i, i < m → ∀ j, j < p → r1.payload[i * p + j]? = r2.payload[i * p + j]? := ?_
  · exact ⟨ad, db, r1, r2, had, hdb, hr1, hr2, hij, row_major_all _ _ m p hij⟩
  intro i hi j hj
  rw [hr1v i hi j hj, hr2v i hi j hj, hva, hvb]
  congr 2
  unfold gemm_entry
  apply Finset.sum_congr rfl
  intro k hk
  have hk' : k < n := Finset.mem_range.mp hk
  have e1 : (ad.payload.map Fp.val).getD (i * n + k) 0 = A.getD (i * n + k) 0 * α := by
    rw [getD_map_val_of _ _ _ (hadv i hi k hk')]
    exact gemm_entry_diag_right A D α i k n hk' hD
  have e2 : (db.payload.map Fp.val).getD (k * p + j) 0 = α * B.getD (k * p + j) 0 := by
    rw [getD_map_val_of _ _ _ (hdbv k hk' j hj)]
    exact gemm_entry_diag_left D B α k j n p hk' hD
  rw [e1, e2]
  ring

/-- Scenario 2 with the diagonal `2·I` in between: C18 applied to
`A = [[1,2,3],[4,5,6]]`, `D = 2·I`, `B = [[7,8],[9,10],[11,12]]`. -/
theorem execute_matmul_scalar_witness :
    ∃ ad db r1 r2,
      execute_matmul Arith.exact (scratch_out 6) gemm_a diag3 2 3 3 = some ad ∧
      execute_matmul Arith.exact (scratch_out 6) diag3 gemm_b 3 3 2 = some db ∧
      execute_matmul Arith.exact (scratch_out 4) ad gemm_b 2 3 2 = some r1 ∧
      execute_matmul Arith.exact (scratch_out 4) gemm_a db 2 3 2 = some r2 ∧
      (∀ i, i < 2 → ∀ j, j < 2 → r1.payload[i * 2 + j]? = r2.payload[i * 2 + j]?) ∧
      (∀ idx, idx < 2 * 2 → r1.payload[idx]? = r2.payload[idx]?) :=
  execute_matmul_scalar (scratch_out 6) (scratch_out 6) (scratch_out 4) (scratch_out 4)
    gemm_a diag3 gemm_b [1, 2, 3, 4, 5, 6] [2, 0, 0, 0, 2, 0, 0, 0, 2] [7, 8, 9, 10, 11, 12]
    2 2 3 2 (by decide!) (by decide!) (by decide!) (by decide) (by decide) (by decide)
    (by decide!)
    (by decide) (by decide) (by decide) (by decide) (by decide) (by decide) (by decide)
    (by decide) (by decide) (by decide) (by decide)

end vf_tensor_matmul

namespace vf_tensor_matmul

/-! ### Buffer bounds -/

/-- A pair that passes the checks of the node and whose element count `m * p`
reaches `2 ^ 62` has no defined fire: the kernel leaves the buffer the node
allocated. -/
theorem fire_undefined_of_wrap (al : Allocator) (c : AVFilterContext TensorMatMulContext)
    (fa fb : AVFrame)
    (hma : fa.hdr.magic = TENSOR_MAGIC) (hmb : fb.hdr.magic = TENSOR_MAGIC)
    (hra : fa.hdr.n_dims = 2) (hrb : fb.hdr.n_dims = 2)
    (hsh : fa.hdr.shape 1 = fb.hdr.shape 0)
    (hfo : al.frame_ok = true) (hbo : al.buffer_ok = true)
    (hbig : 2 ^ 62 ≤ fa.hdr.shape 0 * fb.hdr.shape 1) :
    fire al c fa fb = none := by
  unfold fire
  simp only [hma, hmb, hra, hrb, hsh, hfo, hbo, ne_eq, not_true_eq_false, or_self,
    if_false, Bool.not_true, Bool.false_eq_true]
  cases hf : fresh_frame al
      (wrap64 (sizeof_TensorHeader +
        wrap64 (wrap64 (fa.hdr.shape 0 * fb.hdr.shape 1) * sizeof_float)))
      (max fa.pts fb.pts) with
  | none => rfl
  | some out0 =>
    simp only
    cases he : execute_matmul Arith.ieee out0 fa fb (fa.hdr.shape 0) (fb.hdr.shape 0) (fb.hdr.shape 1) with
    | none => rfl
    | some out =>
      exact absurd (no_wrap_of_success Arith.ieee al _ _ _ _ out0 out fa fb hf he) (not_lt.mpr hbig)

/-- C20, the code at the failing input.  `A` of shape `[2^31, 0]` and `B` of
shape `[0, 2^31]` have valid envelopes and pass the node's checks.  The buffer
the node allocates has `128 + (2^31 * 2^31 * 4 mod 2^64) = 128` bytes, fewer
than the `128 + 4 * 2^31 * 2^31` bytes the kernel writes; the fresh frame has no
payload element, already the store at index `0*p+0` is outside it, and the
activation has no defined result. -/
theorem activate_buffer_overflow :
    envelope_valid wide_a.hdr = true ∧ envelope_valid wide_b.hdr = true ∧
    wide_a.hdr.magic = TENSOR_MAGIC ∧ wide_b.hdr.magic = TENSOR_MAGIC ∧
    wide_a.hdr.n_dims = 2 ∧ wide_b.hdr.n_dims = 2 ∧
    wide_a.hdr.shape 1 = wide_b.hdr.shape 0 ∧
    wrap64 (sizeof_TensorHeader +
      wrap64 (wrap64 (wide_a.hdr.shape 0 * wide_b.hdr.shape 1) * sizeof_float)) = 128 ∧
    128 < 128 + 4 * (wide_a.hdr.shape 0 * wide_b.hdr.shape 1) ∧
    (fresh_frame test_alloc 128 0).map AVFrame.payload = some [] ∧
    store [] (wrap64 (0 * wide_b.hdr.shape 1 + 0)) (Fp.fin 0) = none ∧
    activate test_alloc wide_ctx = none := by
  have hm : wide_a.hdr.shape 0 = 2 ^ 31 := rfl
  have hp : wide_b.hdr.shape 1 = 2 ^ 31 := rfl
  have hv : ∀ r c : Nat, envelope_valid (frame2d r c 0 [] 0).hdr = true := by
    intro r c
    have h2 : (List.finRange 8).filter (fun i => decide (i.val < 2)) = [0, 1] := by decide
    simp [envelope_valid, frame2d, shape_product, zero_hdr, sizeof_float, h2]
  refine ⟨hv _ _, hv _ _, rfl, rfl, rfl, rfl, rfl, ?_, ?_, ?_, ?_, ?_⟩
  · rw [hm, hp]
    norm_num [wrap64, sizeof_TensorHeader, sizeof_float]
  · rw [hm, hp]
    norm_num
  · norm_num [fresh_frame, sizeof_TensorHeader, sizeof_float]
  · simp [store]
  · rw [matmul_activate_eq_fire test_alloc wide_ctx wide_a wide_b rfl rfl]
    exact fire_undefined_of_wrap test_alloc _ wide_a wide_b rfl rfl rfl rfl rfl rfl rfl
      (by rw [hm, hp]; norm_num)

/-! ### Header fields the kernel does not write -/

/-- The header fields `dtype`, `flags` and `generation_id` of a published frame
are those the fresh buffer happened to hold. -/
theorem fire_header_unset (al : Allocator) (ctx ctx' : AVFilterContext TensorMatMulContext)
    (fa fb : AVFrame) (h : fire al ctx fa fb = some (0, ctx')) :
    ∃ out, ctx'.out0.fifo = ctx.out0.fifo ++ [out] ∧
      out.hdr.dtype = al.junk_hdr.dtype ∧ out.hdr.flags = al.junk_hdr.flags ∧
      out.hdr.generation_id = al.junk_hdr.generation_id ∧
      out.pts = max fa.pts fb.pts := by
  obtain ⟨out0, out, hf, he, hctx, -⟩ := fire_success al ctx ctx' fa fb h
  obtain ⟨-, hj, hpts, -⟩ := fresh_frame_eq_some hf
  obtain ⟨-, -, -, -, -, -, h7, h8, h9, h10⟩ := execute_matmul_hdr _ out0 out fa fb _ _ _ he
  refine ⟨out, by rw [hctx], ?_, ?_, ?_, ?_⟩
  · rw [h7, hj]
  · rw [h8, hj]
  · rw [h9, hj]
  · rw [h10, hpts]

theorem gemm_ctx_eval_zero : activate zero_alloc gemm_ctx = some (0, gemm_ctx_after_zero) := by
  decide!

/-- C16, the code at the failing input.  Scenario 2 fired twice on the same two
input frames, once on fresh memory that holds `dtype = 77`, `flags = 5`,
`generation_id = 99` and once on all-zero fresh memory: the two published
headers differ, and the first has `flags ≠ 0` and a `generation_id` that is
neither 0 nor `max(gen_a, gen_b) + 1`. -/
theorem activate_header_not_initialised :
    activate test_alloc gemm_ctx = some (0, gemm_ctx_after) ∧
    gemm_ctx_after.out0.fifo = [gemm_result] ∧
    activate zero_alloc gemm_ctx = some (0, gemm_ctx_after_zero) ∧
    gemm_ctx_after_zero.out0.fifo = [gemm_result_zero] ∧
    gemm_result.hdr ≠ gemm_result_zero.hdr ∧
    gemm_result.hdr.dtype = 77 ∧ gemm_result_zero.hdr.dtype = 0 ∧
    gemm_result.hdr.flags = 5 ∧
    gemm_result.hdr.generation_id = 99 ∧
    gemm_result.hdr.generation_id ≠ 0 ∧
    gemm_result.hdr.generation_id
      ≠ max gemm_a.hdr.generation_id gemm_b.hdr.generation_id + 1 := by
  refine ⟨gemm_ctx_eval, rfl, gemm_ctx_eval_zero, rfl, ?_, rfl, rfl, rfl, rfl, by decide,
    by decide⟩
  intro h
  have : gemm_result.hdr.dtype = gemm_result_zero.hdr.dtype := by rw [h]
  exact absurd this (by decide)

end vf_tensor_matmul

/-! ## Generation monotonicity -/

namespace vf_tensor_update

/-- The two ways `process_update` returns: the update was applied and the
generation went up by one (in `uint64_t`), or it was skipped and the generation
is that of the weights. -/
theorem process_update_cases (s : TensorUpdateContext) (out w g : AVFrame)
    (r : TensorUpdateContext × AVFrame) (h : process_update s out w g = some r) :
    (r.1 = { s with update_count := wrap64 (s.update_count + 1) } ∧
      r.2.hdr = { out.hdr with generation_id := wrap64 (w.hdr.generation_id + 1) }) ∨
    (r.1 = { s with skip_count := wrap64 (s.skip_count + 1) } ∧
      r.2.hdr = { out.hdr with generation_id := w.hdr.generation_id }) := by
  unfold process_update at h
  simp only at h
  split at h
  · simp at h
  · rename_i ap _
    cases ap with
    | true =>
      simp only [if_true] at h
      split at h
      · simp at h
      · simp only [Option.some.injEq] at h
        subst h
        exact Or.inl ⟨rfl, rfl⟩
    | false =>
      simp only [Bool.false_eq_true, if_false] at h
      split at h
      · simp at h
      · simp only [Option.some.injEq] at h
        subst h
        exact Or.inr ⟨rfl, rfl⟩

/-- A fire of the Update node that returns 0 published the frame the kernel
produced on a copy of the weights header. -/
theorem update_fire_success (al : Allocator) (ctx ctx' : AVFilterContext TensorUpdateContext)
    (fw fg : AVFrame) (h : fire al ctx fw fg = some (0, ctx')) :
    ∃ out0 s out,
      fresh_frame al (wrap64 (sizeof_TensorHeader + fw.hdr.byte_size)) fw.pts = some out0 ∧
      process_update ctx.priv { out0 with hdr := fw.hdr } fw fg = some (s, out) ∧
      ctx' = { ctx with priv := { s with pending_w := none, pending_g := none },
                        out0 := { ctx.out0 with fifo := ctx.out0.fifo ++ [out] } } := by
  unfold fire at h
  simp only [AVERROR, ENOMEM] at h
  split at h
  · simp at h
  split at h
  · simp at h
  cases hf : fresh_frame al (wrap64 (sizeof_TensorHeader + fw.hdr.byte_size)) fw.pts with
  | none => rw [hf] at h; simp at h
  | some out0 =>
    rw [hf] at h
    simp only at h
    cases hp : process_update ctx.priv { out0 with hdr := fw.hdr } fw fg with
    | none => rw [hp] at h; simp at h
    | some r =>
      obtain ⟨s, out⟩ := r
      rw [hp] at h
      simp only [ff_filter_frame, Option.some.injEq, Prod.mk.injEq, true_and] at h
      exact ⟨out0, s, out, rfl, hp, h.symm⟩

theorem upd_last_eval :
    activate test_alloc upd_ctx_last = some (0, upd_ctx_after (1 / 2) 1 0 upd_result_last) := by
  decide!

end vf_tensor_update

namespace vf_tensor_relu

theorem relu_last_gen_eval :
    filter_frame test_alloc (AVFilterLink.idle []) relu_last_gen
      = some { ret := 0, outlink := AVFilterLink.idle [relu_last_gen_out], freed := none } := by
  decide!

end vf_tensor_relu

/-- C15 as stated fails at generation `2^64 - 1`.  The ReLU node forwards the
frame of scenario 1 taken at that generation with generation 0, which is not
greater; the Update node applies the update of scenario 5 to weights at that
generation (`update_count` goes from 0 to 1) and publishes generation 0, which
is below the weights' generation. -/
theorem generation_monotone_counterexample :
    relu_last_gen.hdr.generation_id = 2 ^ 64 - 1 ∧
    vf_tensor_relu.filter_frame test_alloc (AVFilterLink.idle []) relu_last_gen
      = some { ret := 0, outlink := AVFilterLink.idle [relu_last_gen_out], freed := none } ∧
    relu_last_gen_out.hdr.generation_id = 0 ∧
    ¬ relu_last_gen.hdr.generation_id < relu_last_gen_out.hdr.generation_id ∧
    upd_w_last.hdr.generation_id = 2 ^ 64 - 1 ∧
    vf_tensor_update.activate test_alloc upd_ctx_last
      = some (0, upd_ctx_after (1 / 2) 1 0 upd_result_last) ∧
    upd_ctx_last.priv.update_count = 0 ∧
    upd_result_last.hdr.generation_id = 0 ∧
    ¬ upd_w_last.hdr.generation_id ≤ upd_result_last.hdr.generation_id := by
  refine ⟨rfl, vf_tensor_relu.relu_last_gen_eval, rfl, ?_, rfl, vf_tensor_update.upd_last_eval,
    rfl, rfl, ?_⟩
  · show ¬ (2 ^ 64 - 1 < 0)
    norm_num
  · show ¬ (2 ^ 64 - 1 ≤ 0)
    norm_num

/-- C15, amended.  For every input frame whose `generation_id` is below
`2^64 - 1` (writable or copied, right magic, buffer holding its elements) the
frame the ReLU node forwards has a strictly greater `generation_id`.  For every
pair `(W, G)` on which the Update node fires with `W.generation_id` below
`2^64 - 1`, the published `generation_id` is at least `W.generation_id`, and
strictly greater whenever the update is applied. -/
theorem generation_monotone :
    (∀ (al : Allocator) (outlink : AVFilterLink) (frame : AVFrame),
      (frame.writable = true ∨ (al.frame_ok = true ∧ al.buffer_ok = true)) →
      frame.hdr.magic = TENSOR_MAGIC →
      frame.hdr.n_elem ≤ frame.payload.length →
      frame.hdr.generation_id + 1 < 2 ^ 64 →
      ∃ out, vf_tensor_relu.filter_frame al outlink frame =
          some { ret := 0, outlink := { outlink with fifo := outlink.fifo ++ [out] },
                 freed := none } ∧
        frame.hdr.generation_id < out.hdr.generation_id) ∧
    (∀ (al : Allocator) (ctx ctx' : AVFilterContext vf_tensor_update.TensorUpdateContext)
        (fw fg : AVFrame),
      (vf_tensor_update.at_pair_test ctx).priv.pending_w = some fw →
      (vf_tensor_update.at_pair_test ctx).priv.pending_g = some fg →
      vf_tensor_update.activate al ctx = some (0, ctx') →
      fw.hdr.generation_id + 1 < 2 ^ 64 →
      ∃ out, ctx'.out0.fifo = ctx.out0.fifo ++ [out] ∧
        fw.hdr.generation_id ≤ out.hdr.generation_id ∧
        (vf_tensor_update.update_applied ctx.priv ctx'.priv →
          fw.hdr.generation_id < out.hdr.generation_id)) := by
  constructor
  · intro al outlink frame hmw hmagic hlen hgen
    obtain ⟨y, -, hff⟩ := vf_tensor_relu.filter_frame_ok al outlink frame hmw hmagic hlen
    refine ⟨_, hff, ?_⟩
    show frame.hdr.generation_id < wrap64 (frame.hdr.generation_id + 1)
    rw [wrap64_of_lt hgen]
    exact Nat.lt_succ_self _
  · intro al ctx ctx' fw fg hw hg hact hgen
    obtain ⟨-, -, -, huc, hsc, hout⟩ := vf_tensor_update.at_pair_test_priv ctx
    rw [vf_tensor_update.update_activate_eq_fire al ctx fw fg hw hg] at hact
    obtain ⟨out0, s, out, -, hpu, hctx⟩ :=
      vf_tensor_update.update_fire_success al _ ctx' fw fg hact
    refine ⟨out, by rw [hctx, ← hout], ?_⟩
    rcases vf_tensor_update.process_update_cases _ _ fw fg _ hpu with ⟨hs, hh⟩ | ⟨hs, hh⟩
    · have hg' : out.hdr.generation_id = fw.hdr.generation_id + 1 := by
        simp only at hh
        rw [hh]
        exact wrap64_of_lt hgen
      exact ⟨by omega, fun _ => by omega⟩
    · have hg' : out.hdr.generation_id = fw.hdr.generation_id := by
        simp only at hh
        rw [hh]
      refine ⟨by omega, ?_⟩
      rintro ⟨happ, -⟩
      exfalso
      simp only at hs
      rw [hctx, hs] at happ
      simp only at happ
      rw [huc] at happ
      exact vf_tensor_update.wrap64_succ_ne _ happ.symm

/-- Scenarios 1 and 5: the amended C15 applied to the ReLU frame at generation
5 and to the Update node with weights at generation 7. -/
theorem generation_monotone_witness :
    (∃ out, vf_tensor_relu.filter_frame test_alloc (AVFilterLink.idle []) relu_in =
          some { ret := 0,
                 outlink := { AVFilterLink.idle [] with
                   fifo := (AVFilterLink.idle []).fifo ++ [out] },
                 freed := none } ∧
        relu_in.hdr.generation_id < out.hdr.generation_id) ∧
    (∃ out, (upd_ctx_after (1 / 2) 1 0 upd_result_above).out0.fifo
          = (upd_ctx upd_g_above (1 / 2)).out0.fifo ++ [out] ∧
        upd_w.hdr.generation_id ≤ out.hdr.generation_id ∧
        (vf_tensor_update.update_applied (upd_ctx upd_g_above (1 / 2)).priv
            (upd_ctx_after (1 / 2) 1 0 upd_result_above).priv →
          upd_w.hdr.generation_id < out.hdr.generation_id)) :=
  ⟨generation_monotone.1 test_alloc (AVFilterLink.idle []) relu_in (Or.inl rfl) rfl
      (by decide) (by decide),
   generation_monotone.2 test_alloc (upd_ctx upd_g_above (1 / 2))
      (upd_ctx_after (1 / 2) 1 0 upd_result_above) upd_w upd_g_above rfl rfl
      vf_tensor_update.upd_above_eval (by decide)⟩

/-! ## Header layout -/

/-- C19 (Header layout).  Whatever implicit padding a compiler inserts in front
of the nine fields and at the end of `TensorHeader`, if the `_Static_assert` of
the header passes (`sizeof(TensorHeader) == 128`) then there is no implicit
padding at all, the fields lie at offsets 0, 4, 8, 12, 16, 24, 32, 40, 104 in
declaration order and fill exactly 128 bytes; `av_tensor_payload` returns the
data pointer plus 128, and element `i` of a float32 payload lies at byte offset
`128 + 4*i` from the data pointer. -/
theorem header_layout (p0 p1 p2 p3 p4 p5 p6 p7 p8 tail : Nat)
    (hassert : struct_sizeof TensorHeader_field_sizes
      [p0, p1, p2, p3, p4, p5, p6, p7, p8] tail = 128) :
    [p0, p1, p2, p3, p4, p5, p6, p7, p8] = [0, 0, 0, 0, 0, 0, 0, 0, 0] ∧ tail = 0 ∧
    struct_offsets 0 TensorHeader_field_sizes [p0, p1, p2, p3, p4, p5, p6, p7, p8]
      = [0, 4, 8, 12, 16, 24, 32, 40, 104] ∧
    TensorHeader_field_sizes.sum = 128 ∧
    sizeof_TensorHeader = 128 ∧
    (∀ data, av_tensor_payload data = data + 128) ∧
    (∀ data i, av_tensor_payload data + sizeof_float * i = data + (128 + 4 * i)) := by
  simp only [struct_sizeof, TensorHeader_field_sizes, List.zipWith_cons_cons,
    List.zipWith_nil_right, List.sum_cons, List.sum_nil] at hassert
  have h0 : p0 = 0 := by omega
  have h1 : p1 = 0 := by omega
  have h2 : p2 = 0 := by omega
  have h3 : p3 = 0 := by omega
  have h4 : p4 = 0 := by omega
  have h5 : p5 = 0 := by omega
  have h6 : p6 = 0 := by omega
  have h7 : p7 = 0 := by omega
  have h8 : p8 = 0 := by omega
  have ht : tail = 0 := by omega
  subst h0 h1 h2 h3 h4 h5 h6 h7 h8 ht
  refine ⟨rfl, rfl, by decide, by decide, by decide, ?_, ?_⟩
  · intro data
    simp only [av_tensor_payload, sizeof_TensorHeader]
  · intro data i
    simp only [av_tensor_payload, sizeof_TensorHeader, sizeof_float]
    omega

/-- The layout without any implicit padding passes the static assertion, and
C19 applied to it. -/
theorem header_layout_witness :
    struct_sizeof TensorHeader_field_sizes [0, 0, 0, 0, 0, 0, 0, 0, 0] 0 = 128 ∧
    ([0, 0, 0, 0, 0, 0, 0, 0, 0] = [0, 0, 0, 0, 0, 0, 0, 0, 0] ∧ 0 = 0 ∧
    struct_offsets 0 TensorHeader_field_sizes [0, 0, 0, 0, 0, 0, 0, 0, 0]
      = [0, 4, 8, 12, 16, 24, 32, 40, 104] ∧
    TensorHeader_field_sizes.sum = 128 ∧
    sizeof_TensorHeader = 128 ∧
    (∀ data, av_tensor_payload data = data + 128) ∧
    (∀ data i, av_tensor_payload data + sizeof_float * i = data + (128 + 4 * i))) :=
  ⟨by decide, header_layout 0 0 0 0 0 0 0 0 0 0 (by decide)⟩

/-! ## Terminal status -/

/-- C13, the code at the failing inputs.  (1) The MatMul node holds a frame
with pts 10 in slot `a`, slot `b` is empty and link `b` reports end of stream:
the activation returns 0 and changes nothing, no status reaches the output
link and the frame stays in its slot.  (2) The Update node holds the weights
(pts 5), the gradients slot is empty and the gradients link reports end of
stream with link timestamp 0: the status is set on the output link with pts 0,
not 5, and the weights frame stays in its slot.  (3) The same with link
timestamp 30: the activation has no defined result. -/
theorem terminal_status_not_propagated :
    eof_matmul_ctx.in1.status_in = AVERROR_EOF ∧
    vf_tensor_matmul.activate test_alloc eof_matmul_ctx = some (0, eof_matmul_ctx) ∧
    eof_matmul_ctx.out0.status_in = 0 ∧
    eof_matmul_ctx.priv.pending_a = some gemm_a ∧
    gemm_a.pts = 10 ∧
    vf_tensor_update.activate test_alloc (eof_update_ctx 0) = some (0, eof_update_ctx_after) ∧
    eof_update_ctx_after.out0.status_in = AVERROR_EOF ∧
    eof_update_ctx_after.out0.status_in_pts = 0 ∧
    eof_update_ctx_after.priv.pending_w = some upd_w ∧
    upd_w.pts = 5 ∧
    vf_tensor_update.activate test_alloc (eof_update_ctx 30) = none := by
  refine ⟨rfl, ?_, rfl, rfl, rfl, ?_, rfl, rfl, rfl, rfl, ?_⟩
  · simp [vf_tensor_matmul.activate, vf_tensor_matmul.demand, eof_matmul_ctx,
      FF_FILTER_FORWARD_STATUS_BACK_ALL, consume_slot, ff_inlink_consume_frame,
      ff_outlink_frame_wanted, AVFilterLink.idle]
  · simp [vf_tensor_update.activate, vf_tensor_update.signal_logic, eof_update_ctx,
      eof_update_ctx_after, FF_FILTER_FORWARD_STATUS_BACK_ALL, consume_slot,
      ff_inlink_consume_frame, ff_inlink_acknowledge_status, ff_outlink_set_status,
      ff_outlink_frame_wanted, AVFilterLink.idle, AVERROR_EOF, upd_ctx]
  · simp [vf_tensor_update.activate, vf_tensor_update.signal_logic, eof_update_ctx,
      FF_FILTER_FORWARD_STATUS_BACK_ALL, consume_slot, ff_inlink_consume_frame,
      ff_inlink_acknowledge_status, AVFilterLink.idle, AVERROR_EOF, upd_ctx]

/-! ## Runs: pairing order and timestamps -/

theorem run_inv {P : Type}
    (activate : Allocator → AVFilterContext P → Option (Int × AVFilterContext P))
    (I : Trace P → Prop)
    (hstep : ∀ t e t', I t → step activate t e = some t' → I t') :
    ∀ es t t', I t → run activate es t = some t' → I t' := by
  intro es
  induction es with
  | nil =>
    intro t t' hI h
    simp only [run, Option.some.injEq] at h
    subst h
    exact hI
  | cons e es ih =>
    intro t t' hI h
    simp only [run] at h
    cases hs : step activate t e with
    | none => rw [hs] at h; simp at h
    | some t1 =>
      rw [hs] at h
      simp only [Option.some_bind] at h
      exact ih t1 t' (hstep t e t1 hI hs) h

theorem taken_self (q : List AVFrame) : taken q q = [] := by
  simp [taken]

/-- A consume takes from the queue exactly what the slot gains. -/
theorem consume_slot_taken (slot : Option AVFrame) (l : AVFilterLink) :
    slot.toList ++ taken l.fifo (consume_slot slot l).2.2.fifo
      = (consume_slot slot l).2.1.toList := by
  unfold consume_slot
  cases slot with
  | some f => simp [taken]
  | none =>
    simp only [ff_inlink_consume_frame]
    split
    · simp [taken]
    · cases hq : l.fifo with
      | nil => simp [taken]
      | cons a as => simp [taken]

theorem forward_status_out_ne {P : Type} (c : AVFilterContext P) :
    (c.in0.status_out ≠ 0 → (FF_FILTER_FORWARD_STATUS_BACK_ALL c).in0.status_out ≠ 0) ∧
    (c.in1.status_out ≠ 0 → (FF_FILTER_FORWARD_STATUS_BACK_ALL c).in1.status_out ≠ 0) := by
  unfold FF_FILTER_FORWARD_STATUS_BACK_ALL
  by_cases hs : c.out0.status_in ≠ 0
  · simp only [hs, if_true, ne_eq, not_false_eq_true, implies_true, and_self]
  · simp only [hs, if_false, imp_self, and_self]

theorem consume_slot_fifo_nil (slot : Option AVFrame) (l : AVFilterLink) (h : l.fifo = []) :
    (consume_slot slot l).2.2.fifo = [] := by
  unfold consume_slot
  cases slot with
  | some f => exact h
  | none =>
    simp only [ff_inlink_consume_frame]
    split
    · exact h
    · rw [h]; exact h

/-- The acknowledge primitive never touches the queue or the incoming status;
a link whose status was passed on before is left alone; a link that reports
its status now is drained. -/
theorem acknowledge_effect (l : AVFilterLink) :
    (ff_inlink_acknowledge_status l).2.fifo = l.fifo ∧
    (ff_inlink_acknowledge_status l).2.status_in = l.status_in ∧
    (l.status_out ≠ 0 → (ff_inlink_acknowledge_status l).2.status_out ≠ 0) ∧
    ((ff_inlink_acknowledge_status l).1 = none → (ff_inlink_acknowledge_status l).2 = l) ∧
    ((ff_inlink_acknowledge_status l).1 ≠ none →
      link_drained (ff_inlink_acknowledge_status l).2) := by
  unfold ff_inlink_acknowledge_status
  by_cases h1 : l.status_out ≠ 0
  · simp only [h1, if_true, ne_eq, not_false_eq_true, not_true_eq_false, implies_true,
      false_imp_iff, and_self]
  · by_cases h2 : l.fifo ≠ []
    · simp only [h1, h2, if_true, if_false, ne_eq, not_false_eq_true, not_true_eq_false,
        imp_self, implies_true, false_imp_iff, and_self]
    · by_cases h3 : l.status_in = 0
      · simp only [h1, h2, h3, if_true, if_false, ne_eq, not_false_eq_true, not_true_eq_false,
          imp_self, implies_true, false_imp_iff, and_self]
      · simp only [h1, h2, h3, if_false, ne_eq, not_false_eq_true, implies_true, true_and,
          false_imp_iff, link_drained, reduceCtorEq]
        push_neg at h2
        exact fun _ => h2

namespace vf_tensor_matmul

/-- The ways the fire branch returns: an error code with the state untouched,
or 0 with both slots emptied and one frame published. -/
theorem fire_cases (al : Allocator) (c c' : AVFilterContext TensorMatMulContext)
    (fa fb : AVFrame) (r : Int) (h : fire al c fa fb = some (r, c')) :
    (r < 0 ∧ c' = c) ∨
    (r = 0 ∧ ∃ out, c' = { c with priv := { pending_a := none, pending_b := none },
                                  out0 := { c.out0 with fifo := c.out0.fifo ++ [out] } }) := by
  have herr : ∀ e : Int, e = AVERROR EINVAL ∨ e = AVERROR ENOMEM → e < 0 := by
    rintro e (he | he) <;> rw [he] <;> decide
  unfold fire at h
  simp only at h
  split at h
  · simp only [Option.some.injEq, Prod.mk.injEq] at h
    exact Or.inl ⟨herr r (Or.inl h.1.symm), h.2.symm⟩
  split at h
  · simp only [Option.some.injEq, Prod.mk.injEq] at h
    exact Or.inl ⟨herr r (Or.inl h.1.symm), h.2.symm⟩
  split at h
  · simp only [Option.some.injEq, Prod.mk.injEq] at h
    exact Or.inl ⟨herr r (Or.inl h.1.symm), h.2.symm⟩
  split at h
  · simp only [Option.some.injEq, Prod.mk.injEq] at h
    exact Or.inl ⟨herr r (Or.inr h.1.symm), h.2.symm⟩
  split at h
  · simp only [Option.some.injEq, Prod.mk.injEq] at h
    exact Or.inl ⟨herr r (Or.inr h.1.symm), h.2.symm⟩
  split at h
  · simp at h
  split at h
  · simp at h
  · rename_i out _
    simp only [ff_filter_frame, Option.some.injEq, Prod.mk.injEq] at h
    exact Or.inr ⟨h.1.symm, out, h.2.symm⟩

theorem demand_effect (c c' : AVFilterContext TensorMatMulContext) (r : Int)
    (h : demand c = some (r, c')) :
    r = 0 ∧ c'.priv = c.priv ∧ c'.out0 = c.out0 ∧ c'.in0.fifo = c.in0.fifo ∧
      c'.in1.fifo = c.in1.fifo := by
  unfold demand at h
  split at h
  · simp only [Option.some.injEq, Prod.mk.injEq] at h
    obtain ⟨hr, hc⟩ := h
    subst hc
    refine ⟨hr.symm, rfl, rfl, ?_, ?_⟩
    · simp only; split <;> rfl
    · simp only; split <;> rfl
  · simp only [Option.some.injEq, Prod.mk.injEq] at h
    obtain ⟨hr, hc⟩ := h
    subst hc
    exact ⟨hr.symm, rfl, rfl, rfl, rfl⟩

/-- What one activation of the MatMul node does to slots, queues and output:
either nothing is published and each slot gained exactly what was taken from
its queue, or both slots were full at the pair test, their two frames were
fired, one frame was published and both slots are empty. -/
theorem activate_effect (al : Allocator) (ctx c' : AVFilterContext TensorMatMulContext)
    (r : Int) (h : activate al ctx = some (r, c')) :
    (c'.out0.fifo = ctx.out0.fifo ∧
      ctx.priv.pending_a.toList ++ taken ctx.in0.fifo c'.in0.fifo
        = c'.priv.pending_a.toList ∧
      ctx.priv.pending_b.toList ++ taken ctx.in1.fifo c'.in1.fifo
        = c'.priv.pending_b.toList) ∨
    (∃ a b out,
      (at_pair_test ctx).priv.pending_a = some a ∧
      (at_pair_test ctx).priv.pending_b = some b ∧
      ctx.priv.pending_a.toList ++ taken ctx.in0.fifo c'.in0.fifo = [a] ∧
      ctx.priv.pending_b.toList ++ taken ctx.in1.fifo c'.in1.fifo = [b] ∧
      c'.priv.pending_a = none ∧ c'.priv.pending_b = none ∧
      c'.out0.fifo = ctx.out0.fifo ++ [out] ∧ fired out a b ∧ r = 0) := by
  have hp := forward_status_priv ctx
  have ho := forward_status_out0 ctx
  obtain ⟨-, hf0, hf1, -⟩ := forward_status_links ctx
  have ht0 := consume_slot_taken (FF_FILTER_FORWARD_STATUS_BACK_ALL ctx).priv.pending_a
    (FF_FILTER_FORWARD_STATUS_BACK_ALL ctx).in0
  have ht1 := consume_slot_taken (FF_FILTER_FORWARD_STATUS_BACK_ALL ctx).priv.pending_b
    (FF_FILTER_FORWARD_STATUS_BACK_ALL ctx).in1
  rw [hp, hf0] at ht0
  rw [hp, hf1] at ht1
  unfold activate at h
  simp only at h
  split at h
  · -- the consume on input 0 reports a fault
    rename_i hneg
    simp only [Option.some.injEq, Prod.mk.injEq] at h
    obtain ⟨-, hc⟩ := h
    subst hc
    refine Or.inl ⟨by simp only [ho], ?_, ?_⟩
    · simp only [hp]; exact ht0
    · simp only [hp, hf1, taken_self, List.append_nil]
  split at h
  · -- the consume on input 1 reports a fault
    simp only [Option.some.injEq, Prod.mk.injEq] at h
    obtain ⟨-, hc⟩ := h
    subst hc
    refine Or.inl ⟨by simp only [ho], ?_, ?_⟩
    · simp only [hp]; exact ht0
    · simp only [hp]; exact ht1
  split at h
  · -- both slots are full: the fire branch
    rename_i fa fb hfa hfb
    rcases fire_cases al _ c' fa fb r h with ⟨-, hc⟩ | ⟨hr, out, hc⟩
    · subst hc
      refine Or.inl ⟨by simp only [ho], ?_, ?_⟩
      · simp only [hp]; exact ht0
      · simp only [hp]; exact ht1
    · subst hr
      refine Or.inr ⟨fa, fb, out, by simp only [at_pair_test]; exact hfa,
        by simp only [at_pair_test]; exact hfb, ?_, ?_, ?_, ?_, ?_, ⟨al, _, c', h, ?_⟩, rfl⟩
      · rw [hc]; simp only [hp]; rw [ht0]; rw [hp] at hfa; rw [hfa]; rfl
      · rw [hc]; simp only [hp]; rw [ht1]; rw [hp] at hfb; rw [hfb]; rfl
      · rw [hc]
      · rw [hc]
      · rw [hc]; simp only [ho]
      · rw [hc]
  · -- a slot is empty: the demand branch
    obtain ⟨-, hcp, hco, hc0, hc1⟩ := demand_effect _ c' r h
    refine Or.inl ⟨by rw [hco]; simp only [ho], ?_, ?_⟩
    · rw [hc0, hcp]; simp only [hp]; exact ht0
    · rw [hc1, hcp]; simp only [hp]; exact ht1

/-- The pairing invariant of the MatMul node on a trace: the published frames
are the fires of pairs `(a, b)`, in order, and the frames taken from input 0
(input 1) are the `a` (the `b`) of those pairs followed by what slot `a`
(slot `b`) holds. -/
theorem step_paired (t t' : Trace TensorMatMulContext) (e : Event)
    (hI : ∃ L : List (AVFrame × AVFrame × AVFrame),
      t.ctx.out0.fifo = L.map (fun x => x.1) ∧
      t.taken0 = L.map (fun x => x.2.1) ++ t.ctx.priv.pending_a.toList ∧
      t.taken1 = L.map (fun x => x.2.2) ++ t.ctx.priv.pending_b.toList ∧
      ∀ x ∈ L, fired x.1 x.2.1 x.2.2)
    (h : step activate t e = some t') :
    ∃ L : List (AVFrame × AVFrame × AVFrame),
      t'.ctx.out0.fifo = L.map (fun x => x.1) ∧
      t'.taken0 = L.map (fun x => x.2.1) ++ t'.ctx.priv.pending_a.toList ∧
      t'.taken1 = L.map (fun x => x.2.2) ++ t'.ctx.priv.pending_b.toList ∧
      ∀ x ∈ L, fired x.1 x.2.1 x.2.2 := by
  obtain ⟨L, hout, h0, h1, hL⟩ := hI
  cases e with
  | push side f =>
    cases side <;>
    · simp only [step, Option.some.injEq] at h
      subst h
      exact ⟨L, hout, h0, h1, hL⟩
  | close side st pts =>
    cases side <;>
    · simp only [step, Option.some.injEq] at h
      subst h
      exact ⟨L, hout, h0, h1, hL⟩
  | fault side e =>
    cases side <;>
    · simp only [step, Option.some.injEq] at h
      subst h
      exact ⟨L, hout, h0, h1, hL⟩
  | want =>
    simp only [step, Option.some.injEq] at h
    subst h
    exact ⟨L, hout, h0, h1, hL⟩
  | act al =>
    simp only [step] at h
    cases ha : activate al t.ctx with
    | none => rw [ha] at h; simp at h
    | some rc =>
      obtain ⟨r, c⟩ := rc
      rw [ha] at h
      simp only [Option.some.injEq] at h
      subst h
      rcases activate_effect al t.ctx c r ha with ⟨ho, hk0, hk1⟩ |
        ⟨a, b, out, -, -, hk0, hk1, hpa, hpb, ho, hf, -⟩
      · refine ⟨L, by simp only [ho, hout], ?_, ?_, hL⟩
        · simp only [h0, List.append_assoc, hk0]
        · simp only [h1, List.append_assoc, hk1]
      · refine ⟨L ++ [(out, a, b)], ?_, ?_, ?_, ?_⟩
        · simp only [ho, hout, List.map_append, List.map_cons, List.map_nil]
        · simp only [h0, List.append_assoc, hk0, hpa, List.map_append, List.map_cons,
            List.map_nil, Option.toList_none, List.append_nil]
        · simp only [h1, List.append_assoc, hk1, hpb, List.map_append, List.map_cons,
            List.map_nil, Option.toList_none, List.append_nil]
        · intro x hx
          rcases List.mem_append.mp hx with hx | hx
          · exact hL x hx
          · rw [List.mem_singleton] at hx
            subst hx
            exact hf

/-- Every run of a freshly created MatMul node keeps the pairing invariant. -/
theorem run_paired (evs : List Event) (t : Trace TensorMatMulContext)
    (h : run activate evs (Trace.start { pending_a := none, pending_b := none }) = some t) :
    ∃ L : List (AVFrame × AVFrame × AVFrame),
      t.ctx.out0.fifo = L.map (fun x => x.1) ∧
      t.taken0 = L.map (fun x => x.2.1) ++ t.ctx.priv.pending_a.toList ∧
      t.taken1 = L.map (fun x => x.2.2) ++ t.ctx.priv.pending_b.toList ∧
      ∀ x ∈ L, fired x.1 x.2.1 x.2.2 :=
  run_inv activate _ (fun t e t' hI hs => step_paired t t' e hI hs) evs _ t
    ⟨[], rfl, rfl, rfl, fun x hx => absurd hx (List.not_mem_nil x)⟩ h

end vf_tensor_matmul

namespace vf_tensor_update

/-- The ways the fire branch returns: an error code with the state untouched,
or 0 with both slots emptied and one frame published. -/
theorem update_fire_cases (al : Allocator) (c c' : AVFilterContext TensorUpdateContext)
    (fw fg : AVFrame) (r : Int) (h : fire al c fw fg = some (r, c')) :
    (r < 0 ∧ c' = c) ∨
    (r = 0 ∧ c'.priv.pending_w = none ∧ c'.priv.pending_g = none ∧
      c'.in0 = c.in0 ∧ c'.in1 = c.in1 ∧
      ∃ out, c'.out0.fifo = c.out0.fifo ++ [out]) := by
  have herr : AVERROR ENOMEM < 0 := by decide
  unfold fire at h
  simp only at h
  split at h
  · simp only [Option.some.injEq, Prod.mk.injEq] at h
    exact Or.inl ⟨h.1 ▸ herr, h.2.symm⟩
  split at h
  · simp only [Option.some.injEq, Prod.mk.injEq] at h
    exact Or.inl ⟨h.1 ▸ herr, h.2.symm⟩
  split at h
  · simp at h
  split at h
  · simp at h
  · rename_i s out _
    simp only [ff_filter_frame, Option.some.injEq, Prod.mk.injEq] at h
    obtain ⟨hr, hc⟩ := h
    subst hc
    exact Or.inr ⟨hr.symm, rfl, rfl, rfl, rfl, out, rfl⟩

/-- What the signal logic does: it returns 0, publishes nothing, leaves the
queues and the incoming statuses alone, and on each side either leaves the slot
as it was or empties it on a link that is drained from then on. -/
theorem signal_logic_effect (c c' : AVFilterContext TensorUpdateContext) (r : Int)
    (h : signal_logic c = some (r, c')) :
    r = 0 ∧ c'.out0.fifo = c.out0.fifo ∧
    c'.in0.fifo = c.in0.fifo ∧ c'.in1.fifo = c.in1.fifo ∧
    c'.in0.status_in = c.in0.status_in ∧ c'.in1.status_in = c.in1.status_in ∧
    (c.in0.status_out ≠ 0 → c'.in0.status_out ≠ 0) ∧
    (c.in1.status_out ≠ 0 → c'.in1.status_out ≠ 0) ∧
    (c'.priv.pending_w = c.priv.pending_w ∨
      (c'.priv.pending_w = none ∧ link_drained c'.in0)) ∧
    (c'.priv.pending_g = c.priv.pending_g ∨
      (c'.priv.pending_g = none ∧ link_drained c'.in1)) := by
  obtain ⟨a1, a2, a3, a4, a5⟩ := acknowledge_effect c.in0
  obtain ⟨b1, b2, b3, b4, b5⟩ := acknowledge_effect c.in1
  unfold signal_logic at h
  rcases hack0 : ff_inlink_acknowledge_status c.in0 with ⟨_ | ⟨ret, pts⟩, l0⟩
  · -- input 0 reports nothing
    rw [hack0] at h a1 a2 a3 a4 a5
    simp only at h a1 a2 a3 a4 a5
    have hl0 : l0 = c.in0 := a4 trivial
    subst hl0
    rcases hack1 : ff_inlink_acknowledge_status c.in1 with ⟨_ | ⟨ret, pts⟩, l1⟩
    · rw [hack1] at h b1 b2 b3 b4 b5
      simp only at h b1 b2 b3 b4 b5
      have hl1 : l1 = c.in1 := b4 trivial
      subst hl1
      split at h
      · simp only [Option.some.injEq, Prod.mk.injEq] at h
        obtain ⟨hr, hc⟩ := h
        subst hc
        refine ⟨hr.symm, rfl, ?_, ?_, ?_, ?_, ?_, ?_, Or.inl rfl, Or.inl rfl⟩ <;>
          simp only <;> split <;> first | rfl | exact id
      · simp only [Option.some.injEq, Prod.mk.injEq] at h
        obtain ⟨hr, hc⟩ := h
        subst hc
        exact ⟨hr.symm, rfl, rfl, rfl, rfl, rfl, id, id, Or.inl rfl, Or.inl rfl⟩
    · rw [hack1] at h b1 b2 b3 b4 b5
      simp only at h b1 b2 b3 b4 b5
      split at h
      · simp only [Option.some.injEq, Prod.mk.injEq] at h
        obtain ⟨hr, hc⟩ := h
        subst hc
        refine ⟨hr.symm, ?_, rfl, b1, rfl, b2, id, b3, Or.inl rfl,
          Or.inr ⟨rfl, b5 (by simp)⟩⟩
        simp only [ff_outlink_set_status]
        split <;> rfl
      · simp at h
  · -- input 0 reports its terminal status
    rw [hack0] at h a1 a2 a3 a4 a5
    simp only at h a1 a2 a3 a4 a5
    split at h
    · simp only [Option.some.injEq, Prod.mk.injEq] at h
      obtain ⟨hr, hc⟩ := h
      subst hc
      refine ⟨hr.symm, ?_, a1, rfl, a2, rfl, a3, id, Or.inr ⟨rfl, a5 (by simp)⟩, Or.inl rfl⟩
      simp only [ff_outlink_set_status]
      split <;> rfl
    · simp at h

end vf_tensor_update

/-- The links of a join node after the status forwarding and a consume: the
incoming status is untouched, a status passed on stays passed on, an empty
queue stays empty. -/
theorem consumed_link_facts {P : Type} (ctx : AVFilterContext P) (slot : Option AVFrame) :
    ((consume_slot slot (FF_FILTER_FORWARD_STATUS_BACK_ALL ctx).in0).2.2.status_in
        = ctx.in0.status_in ∧
      (ctx.in0.status_out ≠ 0 →
        (consume_slot slot (FF_FILTER_FORWARD_STATUS_BACK_ALL ctx).in0).2.2.status_out ≠ 0) ∧
      (ctx.in0.fifo = [] →
        (consume_slot slot (FF_FILTER_FORWARD_STATUS_BACK_ALL ctx).in0).2.2.fifo = [])) ∧
    ((consume_slot slot (FF_FILTER_FORWARD_STATUS_BACK_ALL ctx).in1).2.2.status_in
        = ctx.in1.status_in ∧
      (ctx.in1.status_out ≠ 0 →
        (consume_slot slot (FF_FILTER_FORWARD_STATUS_BACK_ALL ctx).in1).2.2.status_out ≠ 0) ∧
      (ctx.in1.fifo = [] →
        (consume_slot slot (FF_FILTER_FORWARD_STATUS_BACK_ALL ctx).in1).2.2.fifo = [])) := by
  obtain ⟨-, hf0, hf1, hs0, hs1, -⟩ := forward_status_links ctx
  obtain ⟨ho0, ho1⟩ := forward_status_out_ne ctx
  obtain ⟨c1, c2, -⟩ := consume_slot_link slot (FF_FILTER_FORWARD_STATUS_BACK_ALL ctx).in0
  obtain ⟨d1, d2, -⟩ := consume_slot_link slot (FF_FILTER_FORWARD_STATUS_BACK_ALL ctx).in1
  refine ⟨⟨by rw [c2, hs0], fun h => by rw [c1]; exact ho0 h,
      fun h => consume_slot_fifo_nil _ _ (by rw [hf0]; exact h)⟩,
    ⟨by rw [d2, hs1], fun h => by rw [d1]; exact ho1 h,
      fun h => consume_slot_fifo_nil _ _ (by rw [hf1]; exact h)⟩⟩

theorem forwarded_link_facts {P : Type} (ctx : AVFilterContext P) :
    (FF_FILTER_FORWARD_STATUS_BACK_ALL ctx).in1.status_in = ctx.in1.status_in ∧
    (ctx.in1.status_out ≠ 0 → (FF_FILTER_FORWARD_STATUS_BACK_ALL ctx).in1.status_out ≠ 0) ∧
    (ctx.in1.fifo = [] → (FF_FILTER_FORWARD_STATUS_BACK_ALL ctx).in1.fifo = []) := by
  obtain ⟨-, -, hf1, -, hs1, -⟩ := forward_status_links ctx
  exact ⟨hs1, (forward_status_out_ne ctx).2, fun h => by rw [hf1]; exact h⟩

namespace vf_tensor_update

/-- The kernel keeps the options of the node. -/
theorem process_update_keeps_options (s : TensorUpdateContext) (out w g : AVFrame)
    (r : TensorUpdateContext × AVFrame) (h : process_update s out w g = some r) :
    same_options r.1 s := by
  rcases process_update_cases s out w g r h with ⟨hs, -⟩ | ⟨hs, -⟩ <;>
    · rw [hs]
      exact ⟨rfl, rfl, rfl⟩

/-- The output frame of the kernel depends on the private context through the
options only. -/
theorem process_update_options (s t : TensorUpdateContext) (out w g : AVFrame)
    (h : same_options s t) :
    (process_update s out w g).map Prod.snd = (process_update t out w g).map Prod.snd := by
  obtain ⟨h1, h2, h3⟩ := h
  unfold process_update
  simp only
  rw [apply_update_congr s t _ _ h2 h3, h1]
  cases apply_update t g.payload w.hdr.n_elem with
  | none => rfl
  | some ap =>
    cases ap with
    | true =>
      simp only [if_true]
      cases sgd_loop t.learning_rate w.payload g.payload w.hdr.n_elem out.payload <;> rfl
    | false =>
      simp only [Bool.false_eq_true, if_false]
      cases memcpy_elems out.payload w.payload w.hdr.byte_size <;> rfl

/-- An activation of the Update node keeps the options of the node. -/
theorem update_activate_options (al : Allocator)
    (ctx c' : AVFilterContext TensorUpdateContext) (r : Int)
    (h : activate al ctx = some (r, c')) : same_options c'.priv ctx.priv := by
  have hp := forward_status_priv ctx
  unfold activate at h
  simp only at h
  split at h
  · simp only [Option.some.injEq, Prod.mk.injEq] at h
    obtain ⟨-, hc⟩ := h
    subst hc
    simp only [same_options, hp, and_self]
  split at h
  · simp only [Option.some.injEq, Prod.mk.injEq] at h
    obtain ⟨-, hc⟩ := h
    subst hc
    simp only [same_options, hp, and_self]
  split at h
  · rename_i fw fg hfw hfg
    unfold fire at h
    simp only at h
    split at h
    · simp only [Option.some.injEq, Prod.mk.injEq] at h
      obtain ⟨-, hc⟩ := h
      subst hc
      simp only [same_options, hp, and_self]
    split at h
    · simp only [Option.some.injEq, Prod.mk.injEq] at h
      obtain ⟨-, hc⟩ := h
      subst hc
      simp only [same_options, hp, and_self]
    split at h
    · simp at h
    split at h
    · simp at h
    · rename_i s out hpu
      simp only [ff_filter_frame, Option.some.injEq, Prod.mk.injEq] at h
      obtain ⟨-, hc⟩ := h
      subst hc
      have hk := process_update_keeps_options _ _ _ _ _ hpu
      simp only [same_options, hp] at hk ⊢
      exact hk
  · unfold signal_logic at h
    simp only at h
    split at h
    · split at h
      · simp only [Option.some.injEq, Prod.mk.injEq] at h
        obtain ⟨-, hc⟩ := h
        subst hc
        simp only [same_options, hp, and_self]
      · simp at h
    · split at h
      · split at h
        · simp only [Option.some.injEq, Prod.mk.injEq] at h
          obtain ⟨-, hc⟩ := h
          subst hc
          simp only [same_options, hp, and_self]
        · simp at h
      · split at h
        · simp only [Option.some.injEq, Prod.mk.injEq] at h
          obtain ⟨-, hc⟩ := h
          subst hc
          simp only [same_options, hp, and_self]
        · simp only [Option.some.injEq, Prod.mk.injEq] at h
          obtain ⟨-, hc⟩ := h
          subst hc
          simp only [same_options, hp, and_self]

/-- What one activation of the Update node does to links, slots, queues and
output.  The incoming statuses are untouched, a status passed on stays passed
on and an empty queue stays empty.  Either nothing is published and on each
side the slot gained exactly what was taken from its queue or was emptied on a
link that is drained; or both slots were full at the pair test, their two
frames were fired, one frame was published and both slots are empty. -/
theorem update_activate_effect (al : Allocator) (ctx c' : AVFilterContext TensorUpdateContext)
    (r : Int) (h : activate al ctx = some (r, c')) :
    (c'.in0.status_in = ctx.in0.status_in ∧ c'.in1.status_in = ctx.in1.status_in ∧
      (ctx.in0.status_out ≠ 0 → c'.in0.status_out ≠ 0) ∧
      (ctx.in1.status_out ≠ 0 → c'.in1.status_out ≠ 0) ∧
      (ctx.in0.fifo = [] → c'.in0.fifo = []) ∧ (ctx.in1.fifo = [] → c'.in1.fifo = [])) ∧
    ((c'.out0.fifo = ctx.out0.fifo ∧
      (ctx.priv.pending_w.toList ++ taken ctx.in0.fifo c'.in0.fifo
          = c'.priv.pending_w.toList ∨
        (c'.priv.pending_w = none ∧ link_drained c'.in0)) ∧
      (ctx.priv.pending_g.toList ++ taken ctx.in1.fifo c'.in1.fifo
          = c'.priv.pending_g.toList ∨
        (c'.priv.pending_g = none ∧ link_drained c'.in1))) ∨
    (∃ w g out,
      (at_pair_test ctx).priv.pending_w = some w ∧
      (at_pair_test ctx).priv.pending_g = some g ∧
      ctx.priv.pending_w.toList ++ taken ctx.in0.fifo c'.in0.fifo = [w] ∧
      ctx.priv.pending_g.toList ++ taken ctx.in1.fifo c'.in1.fifo = [g] ∧
      c'.priv.pending_w = none ∧ c'.priv.pending_g = none ∧
      c'.out0.fifo = ctx.out0.fifo ++ [out] ∧ fired ctx.priv out w g ∧ r = 0)) := by
  have hp := forward_status_priv ctx
  have ho := forward_status_out0 ctx
  obtain ⟨-, hf0, hf1, -⟩ := forward_status_links ctx
  have ht0 := consume_slot_taken (FF_FILTER_FORWARD_STATUS_BACK_ALL ctx).priv.pending_w
    (FF_FILTER_FORWARD_STATUS_BACK_ALL ctx).in0
  have ht1 := consume_slot_taken (FF_FILTER_FORWARD_STATUS_BACK_ALL ctx).priv.pending_g
    (FF_FILTER_FORWARD_STATUS_BACK_ALL ctx).in1
  rw [hp, hf0] at ht0
  rw [hp, hf1] at ht1
  obtain ⟨⟨k1, k2, k3⟩, -⟩ := consumed_link_facts ctx ctx.priv.pending_w
  obtain ⟨-, ⟨m1, m2, m3⟩⟩ := consumed_link_facts ctx ctx.priv.pending_g
  obtain ⟨n1, n2, n3⟩ := forwarded_link_facts ctx
  unfold activate at h
  simp only at h
  split at h
  · -- the consume on input 0 reports a fault
    simp only [Option.some.injEq, Prod.mk.injEq] at h
    obtain ⟨-, hc⟩ := h
    subst hc
    simp only [hp]
    refine ⟨⟨k1, n1, k2, n2, k3, n3⟩, Or.inl ⟨by rw [ho], Or.inl ht0, Or.inl ?_⟩⟩
    simp only [hf1, taken_self, List.append_nil]
  split at h
  · -- the consume on input 1 reports a fault
    simp only [Option.some.injEq, Prod.mk.injEq] at h
    obtain ⟨-, hc⟩ := h
    subst hc
    simp only [hp]
    exact ⟨⟨k1, m1, k2, m2, k3, m3⟩, Or.inl ⟨by rw [ho], Or.inl ht0, Or.inl ht1⟩⟩
  split at h
  · -- both slots are full: the fire branch
    rename_i fw fg hfw hfg
    rcases update_fire_cases al _ c' fw fg r h with ⟨-, hc⟩ | ⟨hr, hpw, hpg, hi0, hi1, out, hout⟩
    · subst hc
      simp only [hp]
      exact ⟨⟨k1, m1, k2, m2, k3, m3⟩, Or.inl ⟨by rw [ho], Or.inl ht0, Or.inl ht1⟩⟩
    · subst hr
      simp only at hi0 hi1 hout
      rw [hp] at hi0 hi1 hfw hfg
      rw [ho] at hout
      refine ⟨by rw [hi0, hi1]; exact ⟨k1, m1, k2, m2, k3, m3⟩,
        Or.inr ⟨fw, fg, out, by simp only [at_pair_test, hp]; exact hfw,
          by simp only [at_pair_test, hp]; exact hfg, ?_, ?_, hpw, hpg, hout,
          ⟨al, _, c', ?_, h, ?_⟩, rfl⟩⟩
      · rw [hi0, ht0, hfw]; rfl
      · rw [hi1, ht1, hfg]; rfl
      · simp only [same_options, hp, and_self]
      · simp only [ho]; exact hout
  · -- a slot is empty: the signal logic
    obtain ⟨-, s1, s2, s3, s4, s5, s6, s7, s8, s9⟩ := signal_logic_effect _ c' r h
    simp only [hp] at s1 s2 s3 s4 s5 s6 s7 s8 s9
    rw [ho] at s1
    refine ⟨⟨by rw [s4]; exact k1, by rw [s5]; exact m1, fun hx => s6 (k2 hx),
        fun hx => s7 (m2 hx), fun hx => by rw [s2]; exact k3 hx,
        fun hx => by rw [s3]; exact m3 hx⟩,
      Or.inl ⟨s1, ?_, ?_⟩⟩
    · rcases s8 with hs | hs
      · exact Or.inl (by rw [s2, hs]; exact ht0)
      · exact Or.inr hs
    · rcases s9 with hs | hs
      · exact Or.inl (by rw [s3, hs]; exact ht1)
      · exact Or.inr hs

end vf_tensor_update

/-- One side of a join node over an activation that publishes nothing: the
frames taken from the queue so far are still the fired ones followed by what
the slot holds, or the side is drained with an empty slot. -/
theorem side_keep (La tk : List AVFrame) (p p' : Option AVFrame) (l l' : AVFilterLink)
    (hold : tk = La ++ p.toList ∨ (link_drained l ∧ p = none ∧ ∃ e, tk = La ++ e))
    (hs : l'.status_in = l.status_in) (hso : l.status_out ≠ 0 → l'.status_out ≠ 0)
    (hq : l.fifo = [] → l'.fifo = [])
    (heff : p.toList ++ taken l.fifo l'.fifo = p'.toList ∨ (p' = none ∧ link_drained l')) :
    tk ++ taken l.fifo l'.fifo = La ++ p'.toList ∨
      (link_drained l' ∧ p' = none ∧ ∃ e, tk ++ taken l.fifo l'.fifo = La ++ e) := by
  rcases hold with halive | ⟨⟨d1, d2, d3⟩, hp, e, he⟩
  · rcases heff with hn | ⟨hp', hd⟩
    · exact Or.inl (by rw [halive, List.append_assoc, hn])
    · exact Or.inr ⟨hd, hp', p.toList ++ taken l.fifo l'.fifo,
        by rw [halive, List.append_assoc]⟩
  · have hdr : link_drained l' := ⟨by rw [hs]; exact d1, hso d2, hq d3⟩
    have hk : taken l.fifo l'.fifo = [] := by rw [d3]; simp [taken]
    refine Or.inr ⟨hdr, ?_, e, by rw [hk, he, List.append_nil]⟩
    rcases heff with hn | ⟨hp', -⟩
    · rw [hp, hk] at hn
      cases hp'' : p' with
      | none => rfl
      | some f => rw [hp''] at hn; simp at hn
    · exact hp'

/-- One side of a join node over an activation that fires: the fired frame is
the next one after those fired before. -/
theorem side_fire (La tk : List AVFrame) (p : Option AVFrame) (l l' : AVFilterLink)
    (w : AVFrame)
    (hold : tk = La ++ p.toList ∨ (link_drained l ∧ p = none ∧ ∃ e, tk = La ++ e))
    (heff : p.toList ++ taken l.fifo l'.fifo = [w]) :
    tk ++ taken l.fifo l'.fifo = (La ++ [w]) ++ (none : Option AVFrame).toList := by
  rcases hold with halive | ⟨⟨-, -, d3⟩, hp, -, -⟩
  · rw [halive, List.append_assoc, heff]; simp
  · rw [hp, d3] at heff
    simp [taken] at heff

namespace vf_tensor_update

/-- The pairing invariant of the Update node is kept by every event. -/
theorem update_step_paired (priv : TensorUpdateContext) (t t' : Trace TensorUpdateContext)
    (e : Event)
    (hI : ∃ L : List (AVFrame × AVFrame × AVFrame),
      t.ctx.out0.fifo = L.map (fun x => x.1) ∧
      (t.taken0 = L.map (fun x => x.2.1) ++ t.ctx.priv.pending_w.toList ∨
        (link_drained t.ctx.in0 ∧ t.ctx.priv.pending_w = none ∧
          ∃ e, t.taken0 = L.map (fun x => x.2.1) ++ e)) ∧
      (t.taken1 = L.map (fun x => x.2.2) ++ t.ctx.priv.pending_g.toList ∨
        (link_drained t.ctx.in1 ∧ t.ctx.priv.pending_g = none ∧
          ∃ e, t.taken1 = L.map (fun x => x.2.2) ++ e)) ∧
      same_options t.ctx.priv priv ∧
      ∀ x ∈ L, fired priv x.1 x.2.1 x.2.2)
    (h : step activate t e = some t') :
    ∃ L : List (AVFrame × AVFrame × AVFrame),
      t'.ctx.out0.fifo = L.map (fun x => x.1) ∧
      (t'.taken0 = L.map (fun x => x.2.1) ++ t'.ctx.priv.pending_w.toList ∨
        (link_drained t'.ctx.in0 ∧ t'.ctx.priv.pending_w = none ∧
          ∃ e, t'.taken0 = L.map (fun x => x.2.1) ++ e)) ∧
      (t'.taken1 = L.map (fun x => x.2.2) ++ t'.ctx.priv.pending_g.toList ∨
        (link_drained t'.ctx.in1 ∧ t'.ctx.priv.pending_g = none ∧
          ∃ e, t'.taken1 = L.map (fun x => x.2.2) ++ e)) ∧
      same_options t'.ctx.priv priv ∧
      ∀ x ∈ L, fired priv x.1 x.2.1 x.2.2 := by
  obtain ⟨L, hout, h0, h1, hso, hL⟩ := hI
  have hpush : ∀ (l : AVFilterLink) (f : AVFrame), link_drained l → link_drained (env_push l f) := by
    intro l f hd
    unfold env_push
    rw [if_pos hd.1]
    exact hd
  have hclose : ∀ (l : AVFilterLink) (st pts : Int),
      link_drained l → link_drained (env_close l st pts) := by
    intro l st pts hd
    unfold env_close
    rw [if_pos hd.1]
    exact hd
  cases e with
  | push side f =>
    cases side
    · simp only [step, Option.some.injEq] at h
      subst h
      exact ⟨L, hout, h0.imp id (fun ⟨hd, hr⟩ => ⟨hpush _ f hd, hr⟩), h1, hso, hL⟩
    · simp only [step, Option.some.injEq] at h
      subst h
      exact ⟨L, hout, h0, h1.imp id (fun ⟨hd, hr⟩ => ⟨hpush _ f hd, hr⟩), hso, hL⟩
  | close side st pts =>
    cases side
    · simp only [step, Option.some.injEq] at h
      subst h
      exact ⟨L, hout, h0.imp id (fun ⟨hd, hr⟩ => ⟨hclose _ st pts hd, hr⟩), h1, hso, hL⟩
    · simp only [step, Option.some.injEq] at h
      subst h
      exact ⟨L, hout, h0, h1.imp id (fun ⟨hd, hr⟩ => ⟨hclose _ st pts hd, hr⟩), hso, hL⟩
  | fault side e =>
    cases side
    · simp only [step, Option.some.injEq] at h
      subst h
      exact ⟨L, hout, h0, h1, hso, hL⟩
    · simp only [step, Option.some.injEq] at h
      subst h
      exact ⟨L, hout, h0, h1, hso, hL⟩
  | want =>
    simp only [step, Option.some.injEq] at h
    subst h
    exact ⟨L, hout, h0, h1, hso, hL⟩
  | act al =>
    simp only [step] at h
    cases ha : activate al t.ctx with
    | none => rw [ha] at h; simp at h
    | some rc =>
      obtain ⟨r, c⟩ := rc
      rw [ha] at h
      simp only [Option.some.injEq] at h
      subst h
      obtain ⟨⟨l1, l2, l3, l4, l5, l6⟩, heff⟩ := update_activate_effect al t.ctx c r ha
      have hso' : same_options c.priv priv := by
        obtain ⟨o1, o2, o3⟩ := update_activate_options al t.ctx c r ha
        exact ⟨o1.trans hso.1, o2.trans hso.2.1, o3.trans hso.2.2⟩
      rcases heff with ⟨ho, e0, e1⟩ | ⟨w, g, out, -, -, hk0, hk1, hpw, hpg, ho, hf, -⟩
      · exact ⟨L, by simp only [ho, hout],
          side_keep _ _ _ _ _ _ h0 l1 l3 l5 e0, side_keep _ _ _ _ _ _ h1 l2 l4 l6 e1, hso', hL⟩
      · refine ⟨L ++ [(out, w, g)], ?_, Or.inl ?_, Or.inl ?_, hso', ?_⟩
        · simp only [ho, hout, List.map_append, List.map_cons, List.map_nil]
        · simp only [hpw, List.map_append, List.map_cons, List.map_nil]
          exact side_fire _ _ _ _ _ w h0 hk0
        · simp only [hpg, List.map_append, List.map_cons, List.map_nil]
          exact side_fire _ _ _ _ _ g h1 hk1
        · intro x hx
          rcases List.mem_append.mp hx with hx | hx
          · exact hL x hx
          · rw [List.mem_singleton] at hx
            subst hx
            obtain ⟨al', c0, c1, q, hfire, hfifo⟩ := hf
            exact ⟨al', c0, c1, ⟨q.1.trans hso.1, q.2.1.trans hso.2.1, q.2.2.trans hso.2.2⟩,
              hfire, hfifo⟩

/-- Every run of a freshly created Update node keeps the pairing invariant:
the published frames are the fires of pairs `(w, g)`, in order, and the frames
taken from input 0 (input 1) start with the `w` (the `g`) of those pairs. -/
theorem update_run_paired (priv : TensorUpdateContext) (evs : List Event)
    (t : Trace TensorUpdateContext)
    (hw : priv.pending_w = none) (hg : priv.pending_g = none)
    (h : run activate evs (Trace.start priv) = some t) :
    ∃ L : List (AVFrame × AVFrame × AVFrame),
      t.ctx.out0.fifo = L.map (fun x => x.1) ∧
      (∃ e, t.taken0 = L.map (fun x => x.2.1) ++ e) ∧
      (∃ e, t.taken1 = L.map (fun x => x.2.2) ++ e) ∧
      same_options t.ctx.priv priv ∧
      ∀ x ∈ L, fired priv x.1 x.2.1 x.2.2 := by
  obtain ⟨L, hout, h0, h1, hso, hL⟩ :=
    run_inv activate _ (fun t e t' hI hs => update_step_paired priv t t' e hI hs) evs _ t
      ⟨[], rfl, Or.inl (by simp [Trace.start, hw]), Or.inl (by simp [Trace.start, hg]),
        ⟨rfl, rfl, rfl⟩, fun x hx => absurd hx (List.not_mem_nil x)⟩ h
  refine ⟨L, hout, ?_, ?_, hso, hL⟩
  · rcases h0 with h | ⟨-, -, h⟩
    · exact ⟨_, h⟩
    · exact h
  · rcases h1 with h | ⟨-, -, h⟩
    · exact ⟨_, h⟩
    · exact h

end vf_tensor_update

theorem gemm_run_eval :
    run vf_tensor_matmul.activate gemm_events
      (Trace.start { pending_a := none, pending_b := none }) = some gemm_trace := by
  decide!

theorem upd_run_eval :
    run vf_tensor_update.activate upd_events
      (Trace.start (upd_ctx upd_g_above (1 / 2)).priv) = some upd_trace := by
  decide!

theorem upd_run_two_eval :
    run vf_tensor_update.activate upd_events_two
      (Trace.start (upd_ctx upd_g_above (1 / 2)).priv) = some upd_trace_two := by
  decide!

theorem upd_run_wait_eval :
    (run vf_tensor_update.activate (upd_events_two.take 5)
      (Trace.start (upd_ctx upd_g_above (1 / 2)).priv)).map
        (fun t => (t.ctx.priv.pending_w, t.ctx.priv.pending_g, t.ctx.out0.fifo))
      = some (none, some upd_g_next, [upd_result_above]) := by
  decide!

theorem map_append_index {α β : Type} (L : List α) (f : α → β) (e : List β) (k : Nat) (x : α)
    (h : L[k]? = some x) : (L.map f ++ e)[k]? = some (f x) := by
  have hk : k < L.length := by
    by_contra hn
    rw [List.getElem?_eq_none (Nat.le_of_not_lt hn)] at h
    exact Option.noConfusion h
  rw [List.getElem?_append_left (by simpa using hk), List.getElem?_map, h]
  rfl

/-- A full slot is left alone by the consume of the pair test, and the queue
of that input is not read. -/
theorem vf_tensor_matmul.slot_kept (ctx : AVFilterContext vf_tensor_matmul.TensorMatMulContext)
    (f : AVFrame) :
    (ctx.priv.pending_a = some f →
      (vf_tensor_matmul.at_pair_test ctx).priv.pending_a = some f ∧
      (vf_tensor_matmul.at_pair_test ctx).in0.fifo = ctx.in0.fifo) ∧
    (ctx.priv.pending_b = some f →
      (vf_tensor_matmul.at_pair_test ctx).priv.pending_b = some f ∧
      (vf_tensor_matmul.at_pair_test ctx).in1.fifo = ctx.in1.fifo) := by
  have hp := forward_status_priv ctx
  obtain ⟨-, h0, h1, -⟩ := forward_status_links ctx
  constructor
  · intro h
    unfold vf_tensor_matmul.at_pair_test
    simp only [hp, h, consume_slot]
    exact ⟨trivial, h0⟩
  · intro h
    unfold vf_tensor_matmul.at_pair_test
    simp only [hp, h, consume_slot]
    exact ⟨trivial, h1⟩

theorem vf_tensor_update.update_slot_kept
    (ctx : AVFilterContext vf_tensor_update.TensorUpdateContext) (f : AVFrame) :
    (ctx.priv.pending_w = some f →
      (vf_tensor_update.at_pair_test ctx).priv.pending_w = some f ∧
      (vf_tensor_update.at_pair_test ctx).in0.fifo = ctx.in0.fifo) ∧
    (ctx.priv.pending_g = some f →
      (vf_tensor_update.at_pair_test ctx).priv.pending_g = some f ∧
      (vf_tensor_update.at_pair_test ctx).in1.fifo = ctx.in1.fifo) := by
  have hp := forward_status_priv ctx
  obtain ⟨-, h0, h1, -⟩ := forward_status_links ctx
  constructor
  · intro h
    unfold vf_tensor_update.at_pair_test
    simp only [hp, h, consume_slot]
    exact ⟨trivial, h0⟩
  · intro h
    unfold vf_tensor_update.at_pair_test
    simp only [hp, h, consume_slot]
    exact ⟨trivial, h1⟩

/-- What a published MatMul frame is: the kernel as compiled, run on the pair
and on the buffer the node allocated for it, stamped with the larger of the two
timestamps. -/
theorem vf_tensor_matmul.fired_kernel (out a b : AVFrame)
    (h : vf_tensor_matmul.fired out a b) :
    (∃ al out0,
      fresh_frame al (wrap64 (sizeof_TensorHeader +
        wrap64 (wrap64 (a.hdr.shape 0 * b.hdr.shape 1) * sizeof_float)))
        (max a.pts b.pts) = some out0 ∧
      vf_tensor_matmul.execute_matmul Arith.ieee out0 a b (a.hdr.shape 0) (a.hdr.shape 1)
        (b.hdr.shape 1) = some out) ∧
    out.pts = max a.pts b.pts := by
  obtain ⟨al, c, c', hf, ho⟩ := h
  obtain ⟨out0, out', h0, he, hc, -⟩ := vf_tensor_matmul.fire_success al c c' a b hf
  have hoo : out = out' := by
    rw [hc] at ho
    simpa using ho.symm
  subst hoo
  refine ⟨⟨al, out0, h0, he⟩, ?_⟩
  have hp := (vf_tensor_matmul.execute_matmul_hdr _ out0 out a b _ _ _ he).2.2.2.2.2.2.2.2.2
  rw [hp, (vf_tensor_matmul.fresh_frame_eq_some h0).2.2.1]

/-- The kernel of the Update node leaves the timestamp of the output frame
alone. -/
theorem vf_tensor_update.process_update_pts (s : vf_tensor_update.TensorUpdateContext)
    (out w g : AVFrame) (r : vf_tensor_update.TensorUpdateContext × AVFrame)
    (h : vf_tensor_update.process_update s out w g = some r) : r.2.pts = out.pts := by
  unfold vf_tensor_update.process_update at h
  simp only at h
  split at h
  · simp at h
  · rename_i ap _
    cases ap with
    | true =>
      simp only [if_true] at h
      split at h
      · simp at h
      · simp only [Option.some.injEq] at h
        subst h
        rfl
    | false =>
      simp only [Bool.false_eq_true, if_false] at h
      split at h
      · simp at h
      · simp only [Option.some.injEq] at h
        subst h
        rfl

/-- What a published Update frame is: the output frame of the kernel under the
options of the node, run on the pair and on the buffer the node allocated and
initialised with the header of the weights, stamped with the timestamp of the
weights. -/
theorem vf_tensor_update.update_fired_kernel (priv : vf_tensor_update.TensorUpdateContext)
    (out w g : AVFrame) (h : vf_tensor_update.fired priv out w g) :
    (∃ al out0,
      fresh_frame al (wrap64 (sizeof_TensorHeader + w.hdr.byte_size)) w.pts
        = some out0 ∧
      (vf_tensor_update.process_update priv { out0 with hdr := w.hdr } w g).map Prod.snd
        = some out) ∧
    out.pts = w.pts := by
  obtain ⟨al, c, c', hso, hf, ho⟩ := h
  obtain ⟨out0, s, out', h0, he, hc⟩ := vf_tensor_update.update_fire_success al c c' w g hf
  have hoo : out = out' := by
    rw [hc] at ho
    simpa using ho.symm
  subst hoo
  refine ⟨⟨al, out0, h0, ?_⟩, ?_⟩
  · rw [← vf_tensor_update.process_update_options c.priv priv _ w g hso, he]
    rfl
  · have hp := vf_tensor_update.process_update_pts _ _ _ _ _ he
    simp only at hp
    exact hp.trans (vf_tensor_matmul.fresh_frame_eq_some h0).2.2.1

/-- C14 (Pairing order).  In both join nodes: an activation that emits an
output frame had both pending slots full at its pair test, leaves both slots
empty and appends exactly one frame; a full slot is left alone by the consume
of a later activation (and the queue of that input is not read); and in every
run of activations, pushes and status changes from a fresh node, the k-th
emitted output is the kernel applied to the k-th frame consumed from input A
and the k-th frame consumed from input B: for MatMul `execute_matmul` as
compiled on the buffer the node allocated for the pair, for Update the output
frame of `process_update` under the options the node was created with
(`learning_rate`, `gate_mode`, `gate_val`) on the buffer the node allocated and
initialised with the header of the weights. -/
theorem pairing_order :
    (∀ al ctx r ctx', vf_tensor_matmul.activate al ctx = some (r, ctx') →
      ctx'.out0.fifo ≠ ctx.out0.fifo →
      ∃ a b out, (vf_tensor_matmul.at_pair_test ctx).priv.pending_a = some a ∧
        (vf_tensor_matmul.at_pair_test ctx).priv.pending_b = some b ∧
        ctx'.priv.pending_a = none ∧ ctx'.priv.pending_b = none ∧
        ctx'.out0.fifo = ctx.out0.fifo ++ [out]) ∧
    (∀ al ctx r ctx', vf_tensor_update.activate al ctx = some (r, ctx') →
      ctx'.out0.fifo ≠ ctx.out0.fifo →
      ∃ w g out, (vf_tensor_update.at_pair_test ctx).priv.pending_w = some w ∧
        (vf_tensor_update.at_pair_test ctx).priv.pending_g = some g ∧
        ctx'.priv.pending_w = none ∧ ctx'.priv.pending_g = none ∧
        ctx'.out0.fifo = ctx.out0.fifo ++ [out]) ∧
    (∀ (ctx : AVFilterContext vf_tensor_matmul.TensorMatMulContext) (f : AVFrame),
      (ctx.priv.pending_a = some f →
        (vf_tensor_matmul.at_pair_test ctx).priv.pending_a = some f ∧
        (vf_tensor_matmul.at_pair_test ctx).in0.fifo = ctx.in0.fifo) ∧
      (ctx.priv.pending_b = some f →
        (vf_tensor_matmul.at_pair_test ctx).priv.pending_b = some f ∧
        (vf_tensor_matmul.at_pair_test ctx).in1.fifo = ctx.in1.fifo)) ∧
    (∀ (ctx : AVFilterContext vf_tensor_update.TensorUpdateContext) (f : AVFrame),
      (ctx.priv.pending_w = some f →
        (vf_tensor_update.at_pair_test ctx).priv.pending_w = some f ∧
        (vf_tensor_update.at_pair_test ctx).in0.fifo = ctx.in0.fifo) ∧
      (ctx.priv.pending_g = some f →
        (vf_tensor_update.at_pair_test ctx).priv.pending_g = some f ∧
        (vf_tensor_update.at_pair_test ctx).in1.fifo = ctx.in1.fifo)) ∧
    (∀ (evs : List Event) (t : Trace vf_tensor_matmul.TensorMatMulContext),
      run vf_tensor_matmul.activate evs
        (Trace.start { pending_a := none, pending_b := none }) = some t →
      ∀ (k : Nat) (out : AVFrame), t.ctx.out0.fifo[k]? = some out →
        ∃ a b, t.taken0[k]? = some a ∧ t.taken1[k]? = some b ∧
          ∃ al out0,
            fresh_frame al (wrap64 (sizeof_TensorHeader +
              wrap64 (wrap64 (a.hdr.shape 0 * b.hdr.shape 1) * sizeof_float)))
              (max a.pts b.pts) = some out0 ∧
            vf_tensor_matmul.execute_matmul Arith.ieee out0 a b (a.hdr.shape 0)
              (a.hdr.shape 1) (b.hdr.shape 1) = some out) ∧
    (∀ (priv : vf_tensor_update.TensorUpdateContext) (evs : List Event)
        (t : Trace vf_tensor_update.TensorUpdateContext),
      priv.pending_w = none → priv.pending_g = none →
      run vf_tensor_update.activate evs (Trace.start priv) = some t →
      vf_tensor_update.same_options t.ctx.priv priv ∧
      ∀ (k : Nat) (out : AVFrame), t.ctx.out0.fifo[k]? = some out →
        ∃ w g, t.taken0[k]? = some w ∧ t.taken1[k]? = some g ∧
          ∃ al out0,
            fresh_frame al
              (wrap64 (sizeof_TensorHeader + w.hdr.byte_size)) w.pts = some out0 ∧
            (vf_tensor_update.process_update priv { out0 with hdr := w.hdr } w g).map Prod.snd
              = some out) := by
  refine ⟨?_, ?_, vf_tensor_matmul.slot_kept, vf_tensor_update.update_slot_kept, ?_, ?_⟩
  · intro al ctx r ctx' h hne
    rcases vf_tensor_matmul.activate_effect al ctx ctx' r h with hA | hB
    · exact absurd hA.1 hne
    · obtain ⟨a, b, out, h1, h2, -, -, h5, h6, h7, -⟩ := hB
      exact ⟨a, b, out, h1, h2, h5, h6, h7⟩
  · intro al ctx r ctx' h hne
    rcases (vf_tensor_update.update_activate_effect al ctx ctx' r h).2 with hA | hB
    · exact absurd hA.1 hne
    · obtain ⟨a, b, out, h1, h2, -, -, h5, h6, h7, -⟩ := hB
      exact ⟨a, b, out, h1, h2, h5, h6, h7⟩
  · intro evs t h k out hk
    obtain ⟨L, ho, h0, h1, hf⟩ := vf_tensor_matmul.run_paired evs t h
    rw [ho, List.getElem?_map] at hk
    cases hx : L[k]? with
    | none => rw [hx] at hk; exact Option.noConfusion hk
    | some x =>
      rw [hx] at hk
      have hxo : x.1 = out := by simpa using hk
      have hmem : x ∈ L := by
        obtain ⟨hlt, hget⟩ := List.getElem?_eq_some.mp hx
        exact hget ▸ List.getElem_mem hlt
      refine ⟨x.2.1, x.2.2, ?_, ?_, ?_⟩
      · rw [h0]; exact map_append_index L _ _ k x hx
      · rw [h1]; exact map_append_index L _ _ k x hx
      · rw [← hxo]; exact (vf_tensor_matmul.fired_kernel _ _ _ (hf x hmem)).1
  · intro priv evs t hw hg h
    obtain ⟨L, ho, ⟨e0, h0⟩, ⟨e1, h1⟩, hso, hf⟩ :=
      vf_tensor_update.update_run_paired priv evs t hw hg h
    refine ⟨hso, ?_⟩
    intro k out hk
    rw [ho, List.getElem?_map] at hk
    cases hx : L[k]? with
    | none => rw [hx] at hk; exact Option.noConfusion hk
    | some x =>
      rw [hx] at hk
      have hxo : x.1 = out := by simpa using hk
      have hmem : x ∈ L := by
        obtain ⟨hlt, hget⟩ := List.getElem?_eq_some.mp hx
        exact hget ▸ List.getElem_mem hlt
      refine ⟨x.2.1, x.2.2, ?_, ?_, ?_⟩
      · rw [h0]; exact map_append_index L _ _ k x hx
      · rw [h1]; exact map_append_index L _ _ k x hx
      · rw [← hxo]; exact (vf_tensor_update.update_fired_kernel priv _ _ _ (hf x hmem)).1

theorem vf_tensor_matmul.gemm_wait_eval :
    vf_tensor_matmul.activate test_alloc gemm_ctx_right = some (0, gemm_ctx_wait) := by
  decide!

theorem vf_tensor_matmul.gemm_next_eval :
    vf_tensor_matmul.activate test_alloc gemm_ctx_next = some (0, gemm_ctx_after_next) := by
  decide!

theorem gemm_run_two_eval :
    run vf_tensor_matmul.activate gemm_events_two
      (Trace.start { pending_a := none, pending_b := none }) = some gemm_trace_two := by
  decide!

/-- C14 on two runs of two fires each.  MatMul: scenario 2 followed by a second
pair whose right operand waits one activation in its slot (after the second
activation the node holds it, has published nothing new and returned 0); the
second output is the kernel on the second frame of each input.  Update:
scenario 5 followed by a second pair whose gradients wait one activation in
their slot; the node keeps the options it was created with and the second
output is the kernel under these options on the second frame of each input
(the gate rejects the update, the weights go out unchanged). -/
theorem pairing_order_witness :
    (run vf_tensor_matmul.activate gemm_events_two
        (Trace.start { pending_a := none, pending_b := none }) = some gemm_trace_two ∧
      vf_tensor_matmul.activate test_alloc gemm_ctx_right = some (0, gemm_ctx_wait) ∧
      gemm_ctx_wait.priv.pending_b = some gemm_b_next ∧
      gemm_trace_two.ctx.out0.fifo[1]? = some gemm_result_next ∧
      ∃ a b, gemm_trace_two.taken0[1]? = some a ∧ gemm_trace_two.taken1[1]? = some b ∧
        ∃ al out0,
          fresh_frame al (wrap64 (sizeof_TensorHeader +
            wrap64 (wrap64 (a.hdr.shape 0 * b.hdr.shape 1) * sizeof_float)))
            (max a.pts b.pts) = some out0 ∧
          vf_tensor_matmul.execute_matmul Arith.ieee out0 a b (a.hdr.shape 0)
            (a.hdr.shape 1) (b.hdr.shape 1) = some gemm_result_next) ∧
    (run vf_tensor_update.activate upd_events_two
        (Trace.start (upd_ctx upd_g_above (1 / 2)).priv) = some upd_trace_two ∧
      (run vf_tensor_update.activate (upd_events_two.take 5)
        (Trace.start (upd_ctx upd_g_above (1 / 2)).priv)).map
          (fun t => (t.ctx.priv.pending_w, t.ctx.priv.pending_g, t.ctx.out0.fifo))
        = some (none, some upd_g_next, [upd_result_above]) ∧
      upd_trace_two.taken0 = [upd_w, upd_w_next] ∧
      upd_trace_two.taken1 = [upd_g_above, upd_g_next] ∧
      upd_trace_two.ctx.out0.fifo = [upd_result_above, upd_result_next] ∧
      (vf_tensor_update.process_update (upd_ctx upd_g_above (1 / 2)).priv
          { upd_w_next with payload := (List.range 4).map test_alloc.junk }
          upd_w_next upd_g_next).map Prod.snd = some upd_result_next ∧
      vf_tensor_update.same_options upd_trace_two.ctx.priv (upd_ctx upd_g_above (1 / 2)).priv ∧
      ∀ (k : Nat) (out : AVFrame), upd_trace_two.ctx.out0.fifo[k]? = some out →
        ∃ w g, upd_trace_two.taken0[k]? = some w ∧ upd_trace_two.taken1[k]? = some g ∧
          ∃ al out0,
            fresh_frame al
              (wrap64 (sizeof_TensorHeader + w.hdr.byte_size)) w.pts = some out0 ∧
            (vf_tensor_update.process_update (upd_ctx upd_g_above (1 / 2)).priv
              { out0 with hdr := w.hdr } w g).map Prod.snd = some out) :=
  ⟨⟨gemm_run_two_eval, vf_tensor_matmul.gemm_wait_eval, rfl, rfl,
    pairing_order.2.2.2.2.1 gemm_events_two gemm_trace_two gemm_run_two_eval 1
      gemm_result_next rfl⟩,
   ⟨upd_run_two_eval, upd_run_wait_eval, rfl, rfl, rfl, by decide!,
    pairing_order.2.2.2.2.2 (upd_ctx upd_g_above (1 / 2)).priv upd_events_two upd_trace_two
      rfl rfl upd_run_two_eval⟩⟩

theorem pairwise_of_paired (L : List (AVFrame × AVFrame × AVFrame)) (ins e : List AVFrame)
    (sel : AVFrame × AVFrame × AVFrame → AVFrame) (hi : ins = L.map sel ++ e)
    (hs : List.Pairwise (fun x y => x ≤ y) (ins.map AVFrame.pts)) :
    List.Pairwise (fun x y => (sel x).pts ≤ (sel y).pts) L := by
  rw [hi, List.map_append, List.pairwise_append] at hs
  have h := hs.1
  rw [List.map_map, List.pairwise_map] at h
  exact h

/-- C11 (Join output timestamp).  A successful fire of the MatMul node
publishes a frame whose pts is the larger of the two input timestamps, a
successful fire of the Update node one whose pts is that of the weights frame;
and in every run from a fresh node, if the frames consumed from the inputs
(both inputs for MatMul, the weights input for Update) carry non-decreasing
pts, the emitted frames carry non-decreasing pts. -/
theorem join_output_pts :
    (∀ al ctx ctx' fa fb,
      (vf_tensor_matmul.at_pair_test ctx).priv.pending_a = some fa →
      (vf_tensor_matmul.at_pair_test ctx).priv.pending_b = some fb →
      vf_tensor_matmul.activate al ctx = some (0, ctx') →
      ∃ out, ctx'.out0.fifo = ctx.out0.fifo ++ [out] ∧ out.pts = max fa.pts fb.pts) ∧
    (∀ al ctx ctx' fw fg,
      (vf_tensor_update.at_pair_test ctx).priv.pending_w = some fw →
      (vf_tensor_update.at_pair_test ctx).priv.pending_g = some fg →
      vf_tensor_update.activate al ctx = some (0, ctx') →
      ∃ out, ctx'.out0.fifo = ctx.out0.fifo ++ [out] ∧ out.pts = fw.pts) ∧
    (∀ (evs : List Event) (t : Trace vf_tensor_matmul.TensorMatMulContext),
      run vf_tensor_matmul.activate evs
        (Trace.start { pending_a := none, pending_b := none }) = some t →
      List.Pairwise (fun x y => x ≤ y) (t.taken0.map AVFrame.pts) →
      List.Pairwise (fun x y => x ≤ y) (t.taken1.map AVFrame.pts) →
      List.Pairwise (fun x y => x ≤ y) (t.ctx.out0.fifo.map AVFrame.pts)) ∧
    (∀ (priv : vf_tensor_update.TensorUpdateContext) (evs : List Event)
        (t : Trace vf_tensor_update.TensorUpdateContext),
      priv.pending_w = none → priv.pending_g = none →
      run vf_tensor_update.activate evs (Trace.start priv) = some t →
      List.Pairwise (fun x y => x ≤ y) (t.taken0.map AVFrame.pts) →
      List.Pairwise (fun x y => x ≤ y) (t.ctx.out0.fifo.map AVFrame.pts)) := by
  refine ⟨?_, ?_, ?_, ?_⟩
  · intro al ctx ctx' fa fb ha hb h
    rw [vf_tensor_matmul.matmul_activate_eq_fire al ctx fa fb ha hb] at h
    obtain ⟨out, ho, -, -, -, hp⟩ := vf_tensor_matmul.fire_header_unset al _ ctx' fa fb h
    have hout : (vf_tensor_matmul.at_pair_test ctx).out0 = ctx.out0 := by
      simp only [vf_tensor_matmul.at_pair_test, forward_status_out0]
    rw [hout] at ho
    exact ⟨out, ho, hp⟩
  · intro al ctx ctx' fw fg hw hg h
    rw [vf_tensor_update.update_activate_eq_fire al ctx fw fg hw hg] at h
    obtain ⟨out0, s, out, h0, he, hc⟩ := vf_tensor_update.update_fire_success al _ ctx' fw fg h
    have hout : (vf_tensor_update.at_pair_test ctx).out0 = ctx.out0 :=
      (vf_tensor_update.at_pair_test_priv ctx).2.2.2.2.2
    have hf : ctx'.out0.fifo = ctx.out0.fifo ++ [out] := by
      rw [hc, ← hout]
    refine ⟨out, hf, ?_⟩
    have hp := vf_tensor_update.process_update_pts _ _ _ _ _ he
    simp only at hp
    exact hp.trans (vf_tensor_matmul.fresh_frame_eq_some h0).2.2.1
  · intro evs t h hs0 hs1
    obtain ⟨L, ho, h0, h1, hf⟩ := vf_tensor_matmul.run_paired evs t h
    have p0 := pairwise_of_paired L _ _ (fun x => x.2.1) h0 hs0
    have p1 := pairwise_of_paired L _ _ (fun x => x.2.2) h1 hs1
    rw [ho, List.map_map, List.pairwise_map]
    refine (p0.and p1).imp_of_mem ?_
    intro x y hx hy hxy
    have kx := (vf_tensor_matmul.fired_kernel _ _ _ (hf x hx)).2
    have ky := (vf_tensor_matmul.fired_kernel _ _ _ (hf y hy)).2
    simp only [Function.comp] at kx ky ⊢
    rw [kx, ky]
    exact max_le_max hxy.1 hxy.2
  · intro priv evs t hw hg h hs0
    obtain ⟨L, ho, ⟨e0, h0⟩, -, -, hf⟩ := vf_tensor_update.update_run_paired priv evs t hw hg h
    have p0 := pairwise_of_paired L _ _ (fun x => x.2.1) h0 hs0
    rw [ho, List.map_map, List.pairwise_map]
    refine p0.imp_of_mem ?_
    intro x y hx hy hxy
    have kx := (vf_tensor_update.update_fired_kernel priv _ _ _ (hf x hx)).2
    have ky := (vf_tensor_update.update_fired_kernel priv _ _ _ (hf y hy)).2
    simp only [Function.comp] at kx ky ⊢
    rw [kx, ky]
    exact hxy

/-- C11 on scenario 2 (pts 10 and 20 give 20), on scenario 5 (weights pts 5
gives 5), on the run of two MatMul fires (inputs 10, 30 and 20, 25 give
outputs 20, 30) and on the run of scenario 5. -/
theorem join_output_pts_witness :
    (vf_tensor_matmul.activate test_alloc gemm_ctx = some (0, gemm_ctx_after) ∧
      ∃ out, gemm_ctx_after.out0.fifo = gemm_ctx.out0.fifo ++ [out] ∧
        out.pts = max gemm_a.pts gemm_b.pts) ∧
    (vf_tensor_update.activate test_alloc (upd_ctx upd_g_above (1 / 2))
        = some (0, upd_ctx_after (1 / 2) 1 0 upd_result_above) ∧
      ∃ out, (upd_ctx_after (1 / 2) 1 0 upd_result_above).out0.fifo
          = (upd_ctx upd_g_above (1 / 2)).out0.fifo ++ [out] ∧
        out.pts = upd_w.pts) ∧
    (run vf_tensor_matmul.activate gemm_events_two
        (Trace.start { pending_a := none, pending_b := none }) = some gemm_trace_two ∧
      gemm_trace_two.taken0.map AVFrame.pts = [10, 30] ∧
      gemm_trace_two.taken1.map AVFrame.pts = [20, 25] ∧
      gemm_trace_two.ctx.out0.fifo.map AVFrame.pts = [20, 30] ∧
      List.Pairwise (fun x y => x ≤ y) (gemm_trace_two.ctx.out0.fifo.map AVFrame.pts)) ∧
    (run vf_tensor_update.activate upd_events
        (Trace.start (upd_ctx upd_g_above (1 / 2)).priv) = some upd_trace ∧
      List.Pairwise (fun x y => x ≤ y) (upd_trace.ctx.out0.fifo.map AVFrame.pts)) :=
  ⟨⟨vf_tensor_matmul.gemm_ctx_eval,
    join_output_pts.1 test_alloc gemm_ctx gemm_ctx_after gemm_a gemm_b rfl rfl
      vf_tensor_matmul.gemm_ctx_eval⟩,
   ⟨vf_tensor_update.upd_above_eval,
    join_output_pts.2.1 test_alloc (upd_ctx upd_g_above (1 / 2))
      (upd_ctx_after (1 / 2) 1 0 upd_result_above) upd_w upd_g_above rfl rfl
      vf_tensor_update.upd_above_eval⟩,
   ⟨gemm_run_two_eval, rfl, rfl, rfl,
    join_output_pts.2.2.1 gemm_events_two gemm_trace_two gemm_run_two_eval
      (by decide) (by decide)⟩,
   ⟨upd_run_eval,
    join_output_pts.2.2.2 (upd_ctx upd_g_above (1 / 2)).priv upd_events upd_trace rfl rfl
      upd_run_eval (by decide)⟩⟩

end FFmodel
